import Mathlib

/-! Leonardo client: transport core

A shallow embedding of the request/response core of the Go package `leonardo`
(`client.go`, `types.go`, and the endpoint wrappers that call it), together with the
parts of `encoding/json`, `net/http`, `net/url`, `time` and `fmt` that the core relies on.

Conventions of the embedding

* A Go `error` is a value of `GoError`; a nil error is `none`.
* A body on the wire is modelled one level above bytes: `Body` records what the scanner
  of `json.Decoder` finds in the stream (nothing, something that is not a JSON value, or
  a first complete JSON value), and a JSON value is the tree `JSON`.
* A pointer destination `v interface{}` of `Client.Do` is `Option α`: `none` is the nil
  interface, `some d` is a pointer to a variable currently holding `d`.  The call returns
  the final content of that variable next to the error.
* The network behind `http.Client.Do` is the function stored in `HTTPClient.Do`.
* A URL is a value of `url.URL` as `url.Parse` makes it, and the target of a request is
  what `URL.String` writes for it; where bytes matter a Go string is the list of its
  bytes.
* The methods are given twice: on the values of the fields of their receiver, with the
  events of a call listed in its result, and, in `InMemory`, on the address of their
  receiver in a state that holds the memory, the log of effects and the response bodies.
  The second form is built from operations that record what they do, and it is proved to
  return what the first returns.
-/

namespace Leonardo

/-! ## Errors -/

/-- Go error values that occur in the transport core. -/
inductive GoError where
  /-- Made by `errors.New` or by `fmt.Errorf` without a wrapping verb. -/
  | errorString (msg : String)
  /-- Made by `fmt.Errorf` with one `%w` verb: the text and the wrapped error. -/
  | wrapError (msg : String) (err : GoError)
  /-- The value `io.EOF`. -/
  | eof
  /-- A `*json.SyntaxError` (or another failure while reading the value): its text. -/
  | syntaxError (msg : String)
  /-- A `*json.UnmarshalTypeError`: JSON kind, Go type, enclosing struct and field path. -/
  | unmarshalTypeError (value : String) (type : String) (struct : String) (field : String)
  /-- A `net/http` refusal of the request method. -/
  | invalidMethod (method : String)
  /-- Any other error made by a library (transport, URL parsing, marshalling): its text. -/
  | library (msg : String)
  deriving DecidableEq, Repr

namespace GoError

/-- The method `Error()` of the error value. -/
def Error : GoError → String
  | errorString msg => msg
  | wrapError msg _ => msg
  | eof => "EOF"
  | syntaxError msg => msg
  | unmarshalTypeError value type struct field =>
      if struct ≠ "" ∨ field ≠ "" then
        "json: cannot unmarshal " ++ value ++ " into Go struct field " ++ struct ++ "." ++ field
          ++ " of type " ++ type
      else
        "json: cannot unmarshal " ++ value ++ " into Go value of type " ++ type
  | invalidMethod method => "net/http: invalid method " ++ method.quote
  | library msg => msg

/-- The method `Unwrap()`: the error wrapped by a `%w` verb, if any. -/
def Unwrap : GoError → Option GoError
  | wrapError _ err => some err
  | _ => none

/-- What `addErrorContext` of the JSON decoder does to an error that leaves the field
`field` of the struct type named `struct`: the innermost struct names the error, the field
path grows outwards. -/
def addContext (struct field : String) : GoError → GoError
  | unmarshalTypeError value type s f =>
      if f = "" then unmarshalTypeError value type struct field
      else unmarshalTypeError value type s (field ++ "." ++ f)
  | e => e

end GoError

/-- The verb `%d` of `fmt` applied to an `int`. -/
def fmtInt : Int → String
  | Int.ofNat n => toString n
  | Int.negSucc n => "-" ++ toString (n + 1)

/-! ## JSON values and bodies -/

/-- A JSON value as the scanner of `encoding/json` delimits it.  A number keeps its literal
text, which is what the decoder hands to `strconv`. -/
inductive JSON where
  | null
  | bool (b : Bool)
  | num (lit : String)
  | str (s : String)
  | arr (elems : List JSON)
  | obj (members : List (String × JSON))

namespace JSON

/-- The word by which `UnmarshalTypeError.Value` names the kind of a JSON value. -/
def kind : JSON → String
  | null => "null"
  | bool _ => "bool"
  | num _ => "number"
  | str _ => "string"
  | arr _ => "array"
  | obj _ => "object"

end JSON

/-- What `json.Decoder` finds when it reads the next value from a body stream. -/
inductive Body where
  /-- Only white space before the end of the stream: `Decode` returns `io.EOF`. -/
  | empty
  /-- No complete JSON value can be read: `Decode` returns this error. -/
  | invalid (err : GoError)
  /-- The stream starts with this JSON value (what follows it is not read). -/
  | value (j : JSON)

/-- Result of decoding into a variable: its new content and the error that was saved. -/
abbrev Decoded (σ : Type) := σ × Option GoError

/-- Types that `json.Unmarshal` can fill, with the behaviour of the decoder on them. -/
class Unmarshaler (σ : Type) where
  unmarshal : JSON → σ → Decoded σ

/-- Types that `json.Marshal` can serialise, with the value it writes. -/
class Marshaler (β : Type) where
  marshal : β → Except GoError JSON

/-- The call `json.NewDecoder(body).Decode(&v)`: the value is read whole first, so a body
without a complete value leaves the variable alone. -/
def Decode {σ : Type} [Unmarshaler σ] (body : Body) (v : σ) : Decoded σ :=
  match body with
  | Body.empty => (v, some GoError.eof)
  | Body.invalid err => (v, some err)
  | Body.value j => Unmarshaler.unmarshal j v

/-! ### Decoding into strings, integers, pointers and structs -/

/-- The function `strconv.ParseInt(s, 10, 64)` on the digits after the sign. -/
def parseDigits : List Char → Option Nat
  | [] => none
  | cs => cs.foldl (fun acc c =>
      match acc with
      | none => none
      | some n => if c.isDigit then some (n * 10 + (c.toNat - 48)) else none) (some 0)

/-- The function `strconv.ParseInt(s, 10, 64)`: an optional sign, then decimal digits,
and a value that fits in 64 bits. -/
def parseInt64 (s : String) : Option Int :=
  let signed : Option (Bool × List Char) :=
    match s.data with
    | '-' :: cs => some (true, cs)
    | '+' :: cs => some (false, cs)
    | cs => some (false, cs)
  match signed with
  | none => none
  | some (neg, cs) =>
    match parseDigits cs with
    | none => none
    | some n =>
      if neg then (if n ≤ 9223372036854775808 then some (-(n : Int)) else none)
      else (if n ≤ 9223372036854775807 then some (n : Int) else none)

/-- Decoder on a destination of kind `string`. -/
def unmarshalString (j : JSON) (v : String) : Decoded String :=
  match j with
  | JSON.null => (v, none)
  | JSON.str s => (s, none)
  | other => (v, some (GoError.unmarshalTypeError other.kind "string" "" ""))

/-- Decoder on a destination of kind `int` (64 bits wide). -/
def unmarshalInt (j : JSON) (v : Int) : Decoded Int :=
  match j with
  | JSON.null => (v, none)
  | JSON.num lit =>
    match parseInt64 lit with
    | some n => (n, none)
    | none => (v, some (GoError.unmarshalTypeError ("number " ++ lit) "int" "" ""))
  | other => (v, some (GoError.unmarshalTypeError other.kind "int" "" ""))

/-- Decoder on a pointer destination: `null` stores nil; any other value is decoded into
the pointee, which is allocated with its zero value when the pointer is nil. -/
def unmarshalPtr {τ : Type} (zero : τ) (elem : JSON → τ → Decoded τ) (j : JSON)
    (p : Option τ) : Decoded (Option τ) :=
  match j with
  | JSON.null => (none, none)
  | other =>
    let r := elem other (p.getD zero)
    (some r.1, r.2)

/-- The fold of one rune used for matching object keys with field names without regard
to case.  Lower-case ASCII letters go to upper case, and the two runes outside ASCII whose
fold set contains an ASCII letter go to that letter; other runes never fold to ASCII and
are left as they are, which is all that matching against ASCII field names needs. -/
def foldRune (c : Char) : Char :=
  if 97 ≤ c.toNat ∧ c.toNat ≤ 122 then Char.ofNat (c.toNat - 32)
  else if c.toNat = 0x17F then 'S'
  else if c.toNat = 0x212A then 'K'
  else c

/-- The folded form of a key or field name. -/
def foldName (s : String) : List Char := s.data.map foldRune

/-- A field of a struct type as the decoder sees it: the name from its `json` tag and the
decoding of a value into that field of the struct. -/
structure Field (σ : Type) where
  name : String
  decode : JSON → σ → Decoded σ

/-- The field an object key is stored in: the field with exactly that name, otherwise the
first field whose name equals the key after folding, otherwise none (the value is
skipped). -/
def findField {σ : Type} (fields : List (Field σ)) (key : String) : Option (Field σ) :=
  match fields.find? (fun f => f.name = key) with
  | some f => some f
  | none => fields.find? (fun f => foldName f.name = foldName key)

/-- The first of two saved errors: the decoder keeps the first error and goes on. -/
def firstError (e₁ e₂ : Option GoError) : Option GoError :=
  match e₁ with
  | some e => some e
  | none => e₂

/-- Decoding of the members of a JSON object into a struct, member after member. -/
def objectInto {σ : Type} (struct : String) (fields : List (Field σ)) :
    List (String × JSON) → σ → Decoded σ
  | [], v => (v, none)
  | (key, j) :: rest, v =>
    match findField fields key with
    | none => objectInto struct fields rest v
    | some f =>
      let r₁ := f.decode j v
      let r₂ := objectInto struct fields rest r₁.1
      (r₂.1, firstError (r₁.2.map (GoError.addContext struct f.name)) r₂.2)

/-- Decoder on a destination of kind `struct`: `null` is ignored, an object is decoded
member by member, and any other value is a type error that leaves the struct alone. -/
def unmarshalStruct {σ : Type} (struct type : String) (fields : List (Field σ)) (j : JSON)
    (v : σ) : Decoded σ :=
  match j with
  | JSON.null => (v, none)
  | JSON.obj members => objectInto struct fields members v
  | other => (v, some (GoError.unmarshalTypeError other.kind type "" ""))

/-- A struct field given by its tag name, its getter and setter, and the decoder of its
type. -/
def Field.lens {σ τ : Type} (name : String) (get : σ → τ) (set : σ → τ → σ)
    (elem : JSON → τ → Decoded τ) : Field σ :=
  ⟨name, fun j v => let r := elem j (get v); (set v r.1, r.2)⟩

/-- A Go value of type `map[string]interface{}` that is not nil: its entries, one per key.
An `interface{}` value decoded from JSON is kept as the JSON value it came from. -/
abbrev GoMap := List (String × JSON)

/-- The assignment `m[k] = x`. -/
def GoMap.insert (m : GoMap) (k : String) (x : JSON) : GoMap :=
  (k, x) :: m.filter (fun e => e.1 ≠ k)

/-- Decoder on a destination of type `map[string]interface{}`: `null` stores the nil map,
an object is added entry by entry to the map (made first when it is nil). -/
def unmarshalMapAny (j : JSON) (m : Option GoMap) : Decoded (Option GoMap) :=
  match j with
  | JSON.null => (none, none)
  | JSON.obj members =>
    (some (members.foldl (fun acc kv => GoMap.insert acc kv.1 kv.2) (m.getD [])), none)
  | other => (m, some (GoError.unmarshalTypeError other.kind "map[string]interface \x7b\x7d" "" ""))

/-! ## The package `net/url`: escaping, parsing and writing -/

namespace url

/-- The bytes of the UTF-8 encoding of a character, which is how a Go string holds it. -/
def utf8 (c : Char) : List Nat :=
  if c.toNat < 0x80 then [c.toNat]
  else if c.toNat < 0x800 then [0xC0 + c.toNat / 64, 0x80 + c.toNat % 64]
  else if c.toNat < 0x10000 then
    [0xE0 + c.toNat / 4096, 0x80 + c.toNat / 64 % 64, 0x80 + c.toNat % 64]
  else
    [0xF0 + c.toNat / 262144, 0x80 + c.toNat / 4096 % 64, 0x80 + c.toNat / 64 % 64,
      0x80 + c.toNat % 64]

/-- The bytes of a Go string. -/
def bytes (s : String) : List Nat := s.data.flatMap utf8

/-- The escaping modes of `net/url`. -/
inductive encoding where
  | encodePath
  | encodePathSegment
  | encodeHost
  | encodeZone
  | encodeUserPassword
  | encodeQueryComponent
  | encodeFragment
  deriving DecidableEq

/-- The function `shouldEscape` on a byte: letters, digits and the marks `-_.~` are
never escaped; a host also keeps the sub-delimiters, `:`, `[`, `]`, `<`, `>` and `"`; of the
reserved bytes `$&+,/:;=?@` a path escapes `?`, a path segment `/`, `;`, `,` and `?`, user
and password `@`, `/`, `?` and `:`, a query component all, a fragment none; a fragment also
keeps `!`, `(`, `)` and `*`; every other byte is escaped. -/
def shouldEscape (c : Nat) (mode : encoding) : Bool :=
  if (97 ≤ c ∧ c ≤ 122) ∨ (65 ≤ c ∧ c ≤ 90) ∨ (48 ≤ c ∧ c ≤ 57) then false
  else if (mode = encoding.encodeHost ∨ mode = encoding.encodeZone)
      ∧ (c = 33 ∨ c = 36 ∨ c = 38 ∨ c = 39 ∨ c = 40 ∨ c = 41 ∨ c = 42 ∨ c = 43 ∨ c = 44
        ∨ c = 59 ∨ c = 61 ∨ c = 58 ∨ c = 91 ∨ c = 93 ∨ c = 60 ∨ c = 62 ∨ c = 34) then false
  else if c = 45 ∨ c = 95 ∨ c = 46 ∨ c = 126 then false
  else if c = 36 ∨ c = 38 ∨ c = 43 ∨ c = 44 ∨ c = 47 ∨ c = 58 ∨ c = 59 ∨ c = 61 ∨ c = 63
      ∨ c = 64 then
    match mode with
    | encoding.encodePath => c = 63
    | encoding.encodePathSegment => c = 47 ∨ c = 59 ∨ c = 44 ∨ c = 63
    | encoding.encodeUserPassword => c = 64 ∨ c = 47 ∨ c = 63 ∨ c = 58
    | encoding.encodeQueryComponent => true
    | encoding.encodeFragment => false
    | encoding.encodeHost => true
    | encoding.encodeZone => true
  else if mode = encoding.encodeFragment ∧ (c = 33 ∨ c = 40 ∨ c = 41 ∨ c = 42) then false
  else true

/-- The digit `upperhex[n]`. -/
def upperhex (n : Nat) : Char :=
  if n < 10 then Char.ofNat (48 + n) else Char.ofNat (55 + n)

/-- What `escape` writes for one byte. -/
def escapeByte (mode : encoding) (c : Nat) : List Char :=
  if shouldEscape c mode then
    if c = 32 ∧ mode = encoding.encodeQueryComponent then ['+']
    else ['%', upperhex (c / 16), upperhex (c % 16)]
  else [Char.ofNat c]

/-- The function `escape`. -/
def escape (s : String) (mode : encoding) : String :=
  String.mk ((bytes s).flatMap (escapeByte mode))

/-- The function `escape` on the bytes of its argument: the bytes of the string it
returns. -/
def escapeBytes (s : List Nat) (mode : encoding) : List Nat :=
  s.flatMap (fun c =>
    if shouldEscape c mode then
      if c = 32 ∧ mode = encoding.encodeQueryComponent then [43]
      else [37, (upperhex (c / 16)).toNat, (upperhex (c % 16)).toNat]
    else [c])

/-- The check `ishex` on a byte. -/
def ishex (c : Nat) : Bool :=
  (48 ≤ c ∧ c ≤ 57) ∨ (97 ≤ c ∧ c ≤ 102) ∨ (65 ≤ c ∧ c ≤ 70)

/-- The function `unhex` on a byte. -/
def unhex (c : Nat) : Nat :=
  if 48 ≤ c ∧ c ≤ 57 then c - 48
  else if 97 ≤ c ∧ c ≤ 102 then c - 97 + 10
  else if 65 ≤ c ∧ c ≤ 70 then c - 65 + 10
  else 0

/-- The text of a byte string in an error message, in double quotes; bytes are written as
`strconv.Quote` writes printable ASCII. -/
def quoted (s : List Nat) : String := (String.mk (s.map Char.ofNat)).quote

/-- An `url.EscapeError` for the bytes given. -/
def EscapeError (s : List Nat) : GoError := GoError.library ("invalid URL escape " ++ quoted s)

/-- An `url.InvalidHostError` for the bytes given. -/
def InvalidHostError (s : List Nat) : GoError :=
  GoError.library ("invalid character " ++ quoted s ++ " in host name")

/-- The function `unescape` on the bytes of its argument.  A `%` must be followed by two
hexadecimal digits; in a host an escape may only stand for a byte outside ASCII or be
`%25`, in a zone only for a byte a host may hold, a space or `%25`, and an ASCII byte that
a host would escape is refused; `+` is a space in a query component. -/
def unescape (mode : encoding) : List Nat → Except GoError (List Nat)
  | [] => Except.ok []
  | c :: rest =>
    if c = 37 then
      match rest with
      | a :: b :: rest₂ =>
        if ishex a && ishex b then
          if mode = encoding.encodeHost ∧ unhex a < 8 ∧ ¬ (a = 50 ∧ b = 53) then
            Except.error (EscapeError [37, a, b])
          else if mode = encoding.encodeZone ∧ ¬ (a = 50 ∧ b = 53) ∧ unhex a * 16 + unhex b ≠ 32
              ∧ shouldEscape (unhex a * 16 + unhex b) encoding.encodeHost then
            Except.error (EscapeError [37, a, b])
          else
            match unescape mode rest₂ with
            | Except.ok t => Except.ok ((unhex a * 16 + unhex b) :: t)
            | Except.error e => Except.error e
        else Except.error (EscapeError [37, a, b])
      | short => Except.error (EscapeError (37 :: short))
    else if c = 43 ∧ mode = encoding.encodeQueryComponent then
      match unescape mode rest with
      | Except.ok t => Except.ok (32 :: t)
      | Except.error e => Except.error e
    else if (mode = encoding.encodeHost ∨ mode = encoding.encodeZone) ∧ c < 128
        ∧ shouldEscape c encoding.encodeHost then
      Except.error (InvalidHostError [c])
    else
      match unescape mode rest with
      | Except.ok t => Except.ok (c :: t)
      | Except.error e => Except.error e

/-- The type `url.Userinfo`. -/
structure Userinfo where
  username : List Nat
  password : List Nat
  passwordSet : Bool
  deriving DecidableEq, Repr

/-- The type `url.URL`; a field of type `string` holds the bytes of the string. -/
structure URL where
  Scheme : List Nat
  Opaque : List Nat
  User : Option Userinfo
  Host : List Nat
  Path : List Nat
  RawPath : List Nat
  OmitHost : Bool
  ForceQuery : Bool
  RawQuery : List Nat
  Fragment : List Nat
  RawFragment : List Nat
  deriving DecidableEq, Repr

/-- The zero value of `url.URL`. -/
def URL.zero : URL := ⟨[], [], none, [], [], [], false, false, [], [], []⟩

/-- The function `stringContainsCTLByte`. -/
def stringContainsCTLByte (s : List Nat) : Bool := s.any (fun b => b < 32 ∨ b = 127)

/-- The function `strings.Cut` for a separator of one byte: the text before the first
separator and the text after it (empty when there is none). -/
def cut (s : List Nat) (sep : Nat) : List Nat × List Nat :=
  (s.takeWhile (fun b => b ≠ sep), (s.dropWhile (fun b => b ≠ sep)).drop 1)

/-- What the loop of `getScheme` finds from position `i` on. -/
inductive SchemeScan where
  /-- There is no scheme: the whole text is the rest. -/
  | noScheme
  /-- The text starts with a colon. -/
  | missing
  /-- The scheme ends before the colon at this position. -/
  | colonAt (i : Nat)
  deriving DecidableEq, Repr

/-- The loop of `getScheme`. -/
def scanScheme : Nat → List Nat → SchemeScan
  | _, [] => SchemeScan.noScheme
  | i, c :: rest =>
    if (97 ≤ c ∧ c ≤ 122) ∨ (65 ≤ c ∧ c ≤ 90) then scanScheme (i + 1) rest
    else if (48 ≤ c ∧ c ≤ 57) ∨ c = 43 ∨ c = 45 ∨ c = 46 then
      if i = 0 then SchemeScan.noScheme else scanScheme (i + 1) rest
    else if c = 58 then
      if i = 0 then SchemeScan.missing else SchemeScan.colonAt i
    else SchemeScan.noScheme

/-- The function `getScheme`: the scheme and the text after its colon. -/
def getScheme (rawURL : List Nat) : Except GoError (List Nat × List Nat) :=
  match scanScheme 0 rawURL with
  | SchemeScan.noScheme => Except.ok ([], rawURL)
  | SchemeScan.missing => Except.error (GoError.errorString "missing protocol scheme")
  | SchemeScan.colonAt i => Except.ok (rawURL.take i, rawURL.drop (i + 1))

/-- The function `strings.ToLower` on ASCII text. -/
def toLower (s : List Nat) : List Nat := s.map (fun b => if 65 ≤ b ∧ b ≤ 90 then b + 32 else b)

/-- The function `validOptionalPort`. -/
def validOptionalPort (port : List Nat) : Bool :=
  match port with
  | [] => true
  | c :: digits => c = 58 && digits.all (fun b => 48 ≤ b ∧ b ≤ 57)

/-- The function `validUserinfo`. -/
def validUserinfo (s : List Nat) : Bool :=
  s.all (fun r =>
    (65 ≤ r ∧ r ≤ 90) ∨ (97 ≤ r ∧ r ≤ 122) ∨ (48 ≤ r ∧ r ≤ 57)
      ∨ r = 45 ∨ r = 46 ∨ r = 95 ∨ r = 58 ∨ r = 126 ∨ r = 33 ∨ r = 36 ∨ r = 38 ∨ r = 39
      ∨ r = 40 ∨ r = 41 ∨ r = 42 ∨ r = 43 ∨ r = 44 ∨ r = 59 ∨ r = 61 ∨ r = 37 ∨ r = 64)

/-- The text after the last occurrence of a byte (`s[LastIndex(s, b)+1:]`), the whole text
when the byte does not occur. -/
def afterLast (s : List Nat) (b : Nat) : List Nat := s.rtakeWhile (fun x => x ≠ b)

/-- The text before the last occurrence of a byte (`s[:LastIndex(s, b)]`). -/
def beforeLast (s : List Nat) (b : Nat) : List Nat := (s.rdropWhile (fun x => x ≠ b)).dropLast

/-- The position `strings.Index(s, "%25")` as the text before it, when it occurs. -/
def before25 : List Nat → Option (List Nat)
  | [] => none
  | c :: rest =>
    if c = 37 ∧ rest.take 2 = [50, 53] then some []
    else (before25 rest).map (fun t => c :: t)

/-- The function `parseHost`. -/
def parseHost (host : List Nat) : Except GoError (List Nat) :=
  if host.head? = some 91 then
    if 93 ∉ host then Except.error (GoError.errorString "missing ']' in host")
    else
      let colonPort := afterLast host 93
      if !validOptionalPort colonPort then
        Except.error (GoError.library ("invalid port " ++ quoted colonPort ++ " after host"))
      else
        let inner := beforeLast host 93
        match before25 inner with
        | some host1 =>
          match unescape encoding.encodeHost host1 with
          | Except.error e => Except.error e
          | Except.ok h1 =>
            match unescape encoding.encodeZone (inner.drop host1.length) with
            | Except.error e => Except.error e
            | Except.ok h2 =>
              match unescape encoding.encodeHost (93 :: colonPort) with
              | Except.error e => Except.error e
              | Except.ok h3 => Except.ok (h1 ++ h2 ++ h3)
        | none => unescape encoding.encodeHost host
  else if 58 ∈ host ∧ !validOptionalPort (58 :: afterLast host 58) then
    Except.error
      (GoError.library ("invalid port " ++ quoted (58 :: afterLast host 58) ++ " after host"))
  else unescape encoding.encodeHost host

/-- The function `parseAuthority`. -/
def parseAuthority (authority : List Nat) : Except GoError (Option Userinfo × List Nat) :=
  if 64 ∉ authority then
    match parseHost authority with
    | Except.error e => Except.error e
    | Except.ok host => Except.ok (none, host)
  else
    match parseHost (afterLast authority 64) with
    | Except.error e => Except.error e
    | Except.ok host =>
      let userinfo := beforeLast authority 64
      if !validUserinfo userinfo then
        Except.error (GoError.errorString "net/url: invalid userinfo")
      else if 58 ∉ userinfo then
        match unescape encoding.encodeUserPassword userinfo with
        | Except.error e => Except.error e
        | Except.ok username => Except.ok (some ⟨username, [], false⟩, host)
      else
        match unescape encoding.encodeUserPassword (cut userinfo 58).1 with
        | Except.error e => Except.error e
        | Except.ok username =>
          match unescape encoding.encodeUserPassword (cut userinfo 58).2 with
          | Except.error e => Except.error e
          | Except.ok password => Except.ok (some ⟨username, password, true⟩, host)

/-- The method `URL.setPath`: `Path` gets the unescaped text, and `RawPath` the text itself
when it is not what escaping `Path` writes. -/
def URL.setPath (u : URL) (p : List Nat) : Except GoError URL :=
  match unescape encoding.encodePath p with
  | Except.error e => Except.error e
  | Except.ok path =>
    Except.ok { u with Path := path,
                       RawPath := if escapeBytes path encoding.encodePath = p then [] else p }

/-- The method `URL.setFragment`. -/
def URL.setFragment (u : URL) (f : List Nat) : Except GoError URL :=
  match unescape encoding.encodeFragment f with
  | Except.error e => Except.error e
  | Except.ok frag =>
    Except.ok { u with Fragment := frag,
                       RawFragment :=
                         if escapeBytes frag encoding.encodeFragment = f then [] else f }

/-- The function `parse` with `viaRequest` false, on a text without fragment. -/
def parse (rawURL : List Nat) : Except GoError URL :=
  if stringContainsCTLByte rawURL then
    Except.error (GoError.errorString "net/url: invalid control character in URL")
  else if rawURL = [42] then Except.ok { URL.zero with Path := [42] }
  else
    match getScheme rawURL with
    | Except.error e => Except.error e
    | Except.ok (scheme, afterScheme) =>
      let forceQuery : Bool := afterScheme.getLast? = some 63 ∧ afterScheme.count 63 = 1
      let rest := if forceQuery then afterScheme.dropLast else (cut afterScheme 63).1
      let rawQuery := if forceQuery then [] else (cut afterScheme 63).2
      let u : URL := { URL.zero with Scheme := toLower scheme, ForceQuery := forceQuery,
                                     RawQuery := rawQuery }
      if rest.head? ≠ some 47 ∧ scheme ≠ [] then Except.ok { u with Opaque := rest }
      else if rest.head? ≠ some 47 ∧ 58 ∈ (cut rest 47).1 then
        Except.error (GoError.errorString "first path segment in URL cannot contain colon")
      else if (scheme ≠ [] ∨ rest.take 3 ≠ [47, 47, 47]) ∧ rest.take 2 = [47, 47] then
        let authority := (rest.drop 2).takeWhile (fun b => b ≠ 47)
        match parseAuthority authority with
        | Except.error e => Except.error e
        | Except.ok (user, host) =>
          URL.setPath { u with User := user, Host := host }
            ((rest.drop 2).dropWhile (fun b => b ≠ 47))
      else
        URL.setPath { u with OmitHost := scheme ≠ [] ∧ rest.head? = some 47 } rest

/-- An `url.Error` of the operation `parse`. -/
def parseError (text : List Nat) (err : GoError) : GoError :=
  GoError.wrapError ("parse " ++ quoted text ++ ": " ++ err.Error) err

/-- The function `url.Parse`. -/
def Parse (rawURL : String) : Except GoError URL :=
  match parse (cut (bytes rawURL) 35).1 with
  | Except.error e => Except.error (parseError (cut (bytes rawURL) 35).1 e)
  | Except.ok u =>
    if (cut (bytes rawURL) 35).2 = [] then Except.ok u
    else
      match u.setFragment (cut (bytes rawURL) 35).2 with
      | Except.error e => Except.error (parseError (bytes rawURL) e)
      | Except.ok u => Except.ok u

/-- The test of `validEncoded` on one byte: a sub-delimiter, `:`, `@`, `[`, `]` and `%`
pass, any other byte passes when the mode does not escape it. -/
def validByte (b : Nat) (mode : encoding) : Bool :=
  (b = 33 ∨ b = 36 ∨ b = 38 ∨ b = 39 ∨ b = 40 ∨ b = 41 ∨ b = 42 ∨ b = 43 ∨ b = 44 ∨ b = 59
    ∨ b = 61 ∨ b = 58 ∨ b = 64 ∨ b = 91 ∨ b = 93 ∨ b = 37) || !shouldEscape b mode

/-- The function `validEncoded`. -/
def validEncoded (s : List Nat) (mode : encoding) : Bool :=
  s.all (fun b => validByte b mode)

/-- Whether `unescape` succeeds with the text given. -/
def unescapesTo (mode : encoding) (s text : List Nat) : Bool :=
  match unescape mode s with
  | Except.ok t => t = text
  | Except.error _ => false

/-- The method `URL.EscapedPath`. -/
def URL.EscapedPath (u : URL) : List Nat :=
  if u.RawPath ≠ [] ∧ validEncoded u.RawPath encoding.encodePath
      ∧ unescapesTo encoding.encodePath u.RawPath u.Path then u.RawPath
  else if u.Path = [42] then [42]
  else escapeBytes u.Path encoding.encodePath

/-- The method `URL.EscapedFragment`. -/
def URL.EscapedFragment (u : URL) : List Nat :=
  if u.RawFragment ≠ [] ∧ validEncoded u.RawFragment encoding.encodeFragment
      ∧ unescapesTo encoding.encodeFragment u.RawFragment u.Fragment then u.RawFragment
  else escapeBytes u.Fragment encoding.encodeFragment

/-- The method `Userinfo.String`. -/
def Userinfo.String (u : Userinfo) : List Nat :=
  escapeBytes u.username encoding.encodeUserPassword
    ++ (if u.passwordSet then 58 :: escapeBytes u.password encoding.encodeUserPassword
        else [])

/-- What `URL.String` writes between the scheme and the path: `//`, the user and the
host. -/
def URL.authorityText (u : URL) : List Nat :=
  if u.Scheme ≠ [] ∨ u.Host ≠ [] ∨ u.User.isSome then
    if u.OmitHost ∧ u.Host = [] ∧ u.User.isNone then []
    else
      (if u.Host ≠ [] ∨ u.Path ≠ [] ∨ u.User.isSome then [47, 47] else [])
        ++ (match u.User with
            | some ui => ui.String ++ [64]
            | none => [])
        ++ (if u.Host ≠ [] then escapeBytes u.Host encoding.encodeHost else [])
  else []

/-- The method `URL.String`: the bytes of the string it returns. -/
def URL.String (u : URL) : List Nat :=
  let start := if u.Scheme ≠ [] then u.Scheme ++ [58] else []
  let upToPath :=
    if u.Opaque ≠ [] then start ++ u.Opaque
    else
      let buf := start ++ u.authorityText
      let buf := if u.EscapedPath ≠ [] ∧ u.EscapedPath.head? ≠ some 47 ∧ u.Host ≠ [] then
          buf ++ [47] else buf
      let buf := if buf = [] ∧ 58 ∈ (cut u.EscapedPath 47).1 then buf ++ [46, 47] else buf
      buf ++ u.EscapedPath
  let upToQuery := if u.ForceQuery ∨ u.RawQuery ≠ [] then upToPath ++ 63 :: u.RawQuery
    else upToPath
  if u.Fragment ≠ [] then upToQuery ++ 35 :: u.EscapedFragment else upToQuery

end url

/-! ## The package `net/http` -/

namespace http

/-- Whether a character may occur in an HTTP token (`httpguts.IsTokenRune`). -/
def isTokenChar (c : Char) : Bool :=
  c.isAlphanum || [33, 35, 36, 37, 38, 39, 42, 43, 45, 46, 94, 95, 96, 124, 126].contains c.toNat

/-- The check `validMethod` of `net/http`: a method is a non-empty token. -/
def validMethod (method : String) : Bool :=
  method.data ≠ [] && method.data.all isTokenChar

/-- The loop of `textproto.CanonicalMIMEHeaderKey`: upper case at the start and after a
hyphen, lower case elsewhere. -/
def canonicalLoop : Bool → List Char → List Char
  | _, [] => []
  | upper, c :: cs =>
    (if upper && c.isLower then c.toUpper
     else if !upper && c.isUpper then c.toLower
     else c) :: canonicalLoop (c = '-') cs

/-- The function `textproto.CanonicalMIMEHeaderKey`: a key that is not a token is kept as
it is. -/
def CanonicalMIMEHeaderKey (key : String) : String :=
  if key.data.all isTokenChar then String.mk (canonicalLoop true key.data) else key

/-- The type `http.Header`, a map from canonical keys to their values. -/
abbrev Header := List (String × List String)

/-- The method `Header.Set`: the key gets the single value given, replacing any values it
had. -/
def Header.Set (h : Header) (key value : String) : Header :=
  (CanonicalMIMEHeaderKey key, [value]) ::
    h.filter (fun e => e.1 ≠ CanonicalMIMEHeaderKey key)

/-- The method `Header.Values`: all values stored under the key, none when it is absent. -/
def Header.Values (h : Header) (key : String) : List String :=
  match h.find? (fun e => e.1 = CanonicalMIMEHeaderKey key) with
  | some e => e.2
  | none => []

/-- Whether the header map has an entry for the key. -/
def Header.Has (h : Header) (key : String) : Bool :=
  h.any (fun e => e.1 = CanonicalMIMEHeaderKey key)

/-- A `context.Context` value (never nil); only its identity matters here. -/
structure Context where
  id : Nat
  deriving DecidableEq

/-- The fields of `http.Request` the client sets.  `URL` is the parsed URL; `Body` is the
JSON value whose serialisation fills the body buffer, or `none` when there is no body. -/
structure Request where
  ctx : Context
  Method : String
  URL : url.URL
  Header : Header
  Body : Option JSON

/-- The fields of `http.Response` the client reads. -/
structure Response where
  StatusCode : Int
  Body : Body

/-- The type `http.Client`: its timeout in nanoseconds and, as the method `Do`, what the
network answers to a request (a response, or a transport error). -/
structure Client where
  Timeout : Int
  Do : Request → Except GoError Response

/-- The function `hasPort`: the last `:` stands after the last `]`. -/
def hasPort (s : List Nat) : Bool :=
  58 ∈ s ∧ (93 ∈ s → (s.rtakeWhile (fun b => b ≠ 58)).length < (s.rtakeWhile (fun b => b ≠ 93)).length)

/-- The function `removeEmptyPort`: a host that ends with `:` loses it. -/
def removeEmptyPort (host : List Nat) : List Nat :=
  if hasPort host ∧ host.getLast? = some 58 then host.dropLast else host

/-- The function `http.NewRequestWithContext`.  The parser of `net/url` is a parameter, so
that what does not depend on it holds for every parser; `url.Parse` is the one of the
library. -/
def NewRequestWithContext (urlParse : String → Except GoError url.URL) (ctx : Option Context)
    (method url : String) (body : Option JSON) : Except GoError Request :=
  let method := if method = "" then "GET" else method
  if !validMethod method then Except.error (GoError.invalidMethod method)
  else
    match ctx with
    | none => Except.error (GoError.errorString "net/http: nil Context")
    | some ctx =>
      match urlParse url with
      | Except.error err => Except.error err
      | Except.ok u =>
        Except.ok { ctx := ctx, Method := method,
                    URL := { u with Host := removeEmptyPort u.Host }, Header := [],
                    Body := body }

end http

/-! ## The package `leonardo`: `types.go` -/

/-- The struct `APIErrorResponse`. -/
structure APIErrorResponse where
  Code : String
  Message : String
  Path : String
  deriving DecidableEq, Repr

/-- The zero value of `APIErrorResponse`, as `var apiErr APIErrorResponse` declares it. -/
def APIErrorResponse.zero : APIErrorResponse := ⟨"", "", ""⟩

/-- The fields of `APIErrorResponse` with the names of their `json` tags. -/
def APIErrorResponse.fields : List (Field APIErrorResponse) :=
  [ Field.lens "code" (fun v => v.Code) (fun v x => { v with Code := x }) unmarshalString,
    Field.lens "error" (fun v => v.Message) (fun v x => { v with Message := x }) unmarshalString,
    Field.lens "path" (fun v => v.Path) (fun v x => { v with Path := x }) unmarshalString ]

instance : Unmarshaler APIErrorResponse where
  unmarshal := unmarshalStruct "APIErrorResponse" "leonardo.APIErrorResponse"
    APIErrorResponse.fields

/-- The anonymous struct type of the field `SDGenerationJob`. -/
structure SDGenerationJob where
  APICreditCost : Option Int
  GenerationID : Option String
  deriving DecidableEq, Repr

/-- The struct `CreateGenerationResponse`. -/
structure CreateGenerationResponse where
  SDGenerationJob : SDGenerationJob
  deriving DecidableEq, Repr

/-- The zero value of `CreateGenerationResponse`. -/
def CreateGenerationResponse.zero : CreateGenerationResponse := ⟨⟨none, none⟩⟩

/-- The fields of the anonymous struct under `sdGenerationJob`. -/
def SDGenerationJob.fields : List (Field SDGenerationJob) :=
  [ Field.lens "apiCreditCost" (fun v => v.APICreditCost)
      (fun v x => { v with APICreditCost := x }) (unmarshalPtr 0 unmarshalInt),
    Field.lens "generationId" (fun v => v.GenerationID)
      (fun v x => { v with GenerationID := x }) (unmarshalPtr "" unmarshalString) ]

/-- The text `reflect` gives for the type of the anonymous struct. -/
def SDGenerationJob.goType : String :=
  "struct \x7b APICreditCost *int \"json:\\\"apiCreditCost\\\"\"; GenerationID *string \"json:\\\"generationId\\\"\" \x7d"

/-- The fields of `CreateGenerationResponse`. -/
def CreateGenerationResponse.fields : List (Field CreateGenerationResponse) :=
  [ Field.lens "sdGenerationJob" (fun v => v.SDGenerationJob)
      (fun v x => { v with SDGenerationJob := x })
      (unmarshalStruct "" SDGenerationJob.goType SDGenerationJob.fields) ]

instance : Unmarshaler CreateGenerationResponse where
  unmarshal := unmarshalStruct "CreateGenerationResponse" "leonardo.CreateGenerationResponse"
    CreateGenerationResponse.fields

/-- The struct `CreateSVDMotionGenerationResponse`. -/
structure CreateSVDMotionGenerationResponse where
  Details : Option GoMap
  GenerationID : String
  Status : String

/-- The zero value of `CreateSVDMotionGenerationResponse`. -/
def CreateSVDMotionGenerationResponse.zero : CreateSVDMotionGenerationResponse :=
  ⟨none, "", ""⟩

/-- The fields of `CreateSVDMotionGenerationResponse`. -/
def CreateSVDMotionGenerationResponse.fields : List (Field CreateSVDMotionGenerationResponse) :=
  [ Field.lens "details" (fun v => v.Details) (fun v x => { v with Details := x })
      unmarshalMapAny,
    Field.lens "generationId" (fun v => v.GenerationID)
      (fun v x => { v with GenerationID := x }) unmarshalString,
    Field.lens "status" (fun v => v.Status) (fun v x => { v with Status := x })
      unmarshalString ]

instance : Unmarshaler CreateSVDMotionGenerationResponse where
  unmarshal := unmarshalStruct "CreateSVDMotionGenerationResponse"
    "leonardo.CreateSVDMotionGenerationResponse" CreateSVDMotionGenerationResponse.fields

/-- The struct `MotionRequest`, which has no fields. -/
structure MotionRequest where
  deriving DecidableEq, Repr

instance : Marshaler MotionRequest where
  marshal := fun _ => Except.ok (JSON.obj [])

/-! ## The package `leonardo`: `client.go` -/

/-- The configuration fields of the struct `Client`.  The service fields of the Go struct
point back to the client; here each service structure holds its client instead. -/
structure Client where
  BaseURL : String
  HTTPClient : http.Client
  APIKey : String

/-- What a call of `Client.Do` does to the outside, in order. -/
inductive Event where
  /-- The request is handed to `HTTPClient.Do`. -/
  | send (req : http.Request)
  /-- A JSON decoder reads from the response body. -/
  | readBody
  /-- The deferred `resp.Body.Close()` runs. -/
  | closeBody

/-- Outcome of `Client.Do`: the returned error, the content of the destination after the
call (`none` for a nil destination), and the events of the call. -/
structure DoResult (α : Type) where
  err : Option GoError
  v : Option α
  trace : List Event

/-- The method `Client.NewRequest`. -/
def Client.NewRequest {β : Type} [Marshaler β] (urlParse : String → Except GoError url.URL)
    (c : Client) (ctx : Option http.Context) (method path : String) (body : Option β) :
    Except GoError http.Request :=
  let buf : Except GoError (Option JSON) :=
    match body with
    | some b =>
      match Marshaler.marshal b with
      | Except.error err => Except.error err
      | Except.ok jsonBytes => Except.ok (some jsonBytes)
    | none => Except.ok none
  match buf with
  | Except.error err => Except.error err
  | Except.ok buf =>
    match http.NewRequestWithContext urlParse ctx method (c.BaseURL ++ path) buf with
    | Except.error err => Except.error err
    | Except.ok req =>
      let req := { req with Header := req.Header.Set "Authorization" ("Bearer " ++ c.APIKey) }
      let req :=
        if body.isSome then { req with Header := req.Header.Set "Content-Type" "application/json" }
        else req
      Except.ok req

/-- The method `Client.Do`. -/
def Client.Do {α : Type} [Unmarshaler α] (c : Client) (req : http.Request) (v : Option α) :
    DoResult α :=
  match c.HTTPClient.Do req with
  | Except.error err => ⟨some err, v, [Event.send req]⟩
  | Except.ok resp =>
    if resp.StatusCode < 200 ∨ resp.StatusCode ≥ 300 then
      let apiErr := Decode resp.Body APIErrorResponse.zero
      match apiErr.2 with
      | some _ =>
        ⟨some (GoError.errorString ("API request failed with status " ++ fmtInt resp.StatusCode)),
          v, [Event.send req, Event.readBody, Event.closeBody]⟩
      | none =>
        ⟨some (GoError.errorString ("API Error " ++ apiErr.1.Code ++ ": " ++ apiErr.1.Message)),
          v, [Event.send req, Event.readBody, Event.closeBody]⟩
    else
      match v with
      | some dst =>
        let r := Decode resp.Body dst
        ⟨r.2, some r.1, [Event.send req, Event.readBody, Event.closeBody]⟩
      | none => ⟨none, none, [Event.send req, Event.closeBody]⟩

/-! ## The package `leonardo`: `motion.go` -/

/-- The struct `MotionService`. -/
structure MotionService where
  client : Client

/-- The call `fmt.Errorf(text + ": %w", err)`. -/
def wrapf (text : String) (err : GoError) : GoError :=
  GoError.wrapError (text ++ ": " ++ err.Error) err

/-- The method `MotionService.CreateSVDMotionGeneration`: the returned pointer (`none` for
nil) and the returned error. -/
def MotionService.CreateSVDMotionGeneration (urlParse : String → Except GoError url.URL)
    (s : MotionService) (ctx : Option http.Context) (req : MotionRequest) :
    Option CreateSVDMotionGenerationResponse × Option GoError :=
  let resp := CreateSVDMotionGenerationResponse.zero
  let path := "/generations-motion-svd"
  match s.client.NewRequest urlParse ctx "POST" path (some req) with
  | Except.error err => (none, some (wrapf "creating CreateSVDMotionGeneration request failed" err))
  | Except.ok httpReq =>
    let r := s.client.Do httpReq (some resp)
    match r.err with
    | some err => (none, some (wrapf "creating SVD motion generation failed" err))
    | none => (r.v, none)

/-! ## What a body says about a field -/

/-- The values a JSON object gives for a field: the values of the members whose key names
the field, that is, equals its tag name after folding, in the order of the body. -/
def membersFor (name : String) (members : List (String × JSON)) : List JSON :=
  (members.filter (fun kv => foldName kv.1 = foldName name)).map Prod.snd

/-- The values a body gives for a field of the generation job: the values for that field
inside the objects the body gives for `sdGenerationJob`. -/
def jobValues (field : String) (members : List (String × JSON)) : List JSON :=
  (membersFor "sdGenerationJob" members).flatMap (fun x =>
    match x with
    | JSON.obj inner => membersFor field inner
    | _ => [])

/-- What the decoder stores in a `*string` for a JSON value that fits it: a pointer to the
string, nil for `null`. -/
def JSON.asStringPtr : JSON → Option String
  | JSON.str s => some s
  | _ => none

/-- What the decoder stores in a `*int` for a JSON value that fits it: a pointer to the
integer its parser reads, nil for `null`. -/
def JSON.asIntPtr : JSON → Option Int
  | JSON.num lit => parseInt64 lit
  | _ => none

/-- What a JSON value says for a field of type `*string`: `null` says nil, a string says a
pointer to that string. -/
def JSON.saysStringPtr (y : JSON) (x : Option String) : Prop :=
  (y = JSON.null ∧ x = none) ∨ ∃ s, y = JSON.str s ∧ x = some s

/-- What a JSON value says for a field of type `*int`: `null` says nil, the decimal writing
of an integer that fits in 64 bits says a pointer to that integer. -/
def JSON.saysIntPtr (y : JSON) (x : Option Int) : Prop :=
  (y = JSON.null ∧ x = none)
    ∨ ∃ n : Int, -9223372036854775808 ≤ n ∧ n ≤ 9223372036854775807
        ∧ y = JSON.num (fmtInt n) ∧ x = some n

/-- A JSON object matches the shape of `CreateGenerationResponse`: what it gives for
`sdGenerationJob` is an object, what that gives for `apiCreditCost` is `null` or the
decimal writing of an integer that fits an `int`, and what it gives for `generationId` is
`null` or a string. -/
def MatchesCreateGenerationResponse (members : List (String × JSON)) : Prop :=
  (∀ x ∈ membersFor "sdGenerationJob" members, ∃ inner, x = JSON.obj inner)
    ∧ (∀ y ∈ jobValues "apiCreditCost" members, ∃ x, y.saysIntPtr x)
    ∧ (∀ y ∈ jobValues "generationId" members, ∃ x, y.saysStringPtr x)

/-- The value a field has after decoding: the one the last of the body's values for it
stands for, and the value it had before when the body gives none. -/
def fieldAfter {τ : Type} (read : JSON → Option τ) (values : List JSON) (before : Option τ) :
    Option τ :=
  match values.getLast? with
  | some y => read y
  | none => before

/-- A field holds `after` where it held `before` and the body gives `values` for it: the
last of the values says `after`, and `after` is `before` when the body gives none. -/
def fieldSays {τ : Type} (meaning : JSON → τ → Prop) (values : List JSON) (before after : τ) :
    Prop :=
  match values.getLast? with
  | some y => meaning y after
  | none => after = before

/-! ## Payloads and `json.Marshal` -/

/-- The untyped nil passed as `body` has no value to serialise: wrappers without a payload
pass `(none : Option NoBody)`. -/
abbrev NoBody := Empty

instance : Marshaler NoBody where
  marshal := fun b => nomatch b

/-- A Go value held in an `interface{}`: the kinds `json.Marshal` writes without a struct
declaration, and the kinds it refuses (channels, functions, the float NaN).  The entries of
a map stand in the order of their keys, the order in which `json.Marshal` visits them. -/
inductive GoValue where
  | nil
  | bool (b : Bool)
  | int (n : Int)
  | str (s : String)
  | slice (elems : List GoValue)
  | map (entries : List (String × GoValue))
  | chan (type : String)
  | func (type : String)
  | nan

/-- Insertion of a map entry at its place in the order of the keys. -/
def insertByKey {τ : Type} (e : String × τ) : List (String × τ) → List (String × τ)
  | [] => [e]
  | x :: xs => if e.1.data < x.1.data then e :: x :: xs else x :: insertByKey e xs

/-- The entries of a map in the order of their keys, in which `json.Marshal` writes them. -/
def sortByKey {τ : Type} : List (String × τ) → List (String × τ)
  | [] => []
  | x :: xs => insertByKey x (sortByKey xs)

mutual
/-- The function `json.Marshal` on a value held in an `interface{}`. -/
def GoValue.marshal : GoValue → Except GoError JSON
  | GoValue.nil => Except.ok JSON.null
  | GoValue.bool b => Except.ok (JSON.bool b)
  | GoValue.int n => Except.ok (JSON.num (fmtInt n))
  | GoValue.str s => Except.ok (JSON.str s)
  | GoValue.slice elems =>
    match GoValue.marshalList elems with
    | Except.ok js => Except.ok (JSON.arr js)
    | Except.error e => Except.error e
  | GoValue.map entries =>
    match GoValue.marshalEntries entries with
    | Except.ok js => Except.ok (JSON.obj js)
    | Except.error e => Except.error e
  | GoValue.chan type => Except.error (GoError.library ("json: unsupported type: " ++ type))
  | GoValue.func type => Except.error (GoError.library ("json: unsupported type: " ++ type))
  | GoValue.nan => Except.error (GoError.library "json: unsupported value: NaN")
/-- Serialisation of the elements of a slice; the first failure ends it. -/
def GoValue.marshalList : List GoValue → Except GoError (List JSON)
  | [] => Except.ok []
  | x :: xs =>
    match GoValue.marshal x with
    | Except.error e => Except.error e
    | Except.ok j =>
      match GoValue.marshalList xs with
      | Except.error e => Except.error e
      | Except.ok js => Except.ok (j :: js)
/-- Serialisation of the entries of a map; the first failure ends it. -/
def GoValue.marshalEntries : List (String × GoValue) → Except GoError (List (String × JSON))
  | [] => Except.ok []
  | (k, x) :: xs =>
    match GoValue.marshal x with
    | Except.error e => Except.error e
    | Except.ok j =>
      match GoValue.marshalEntries xs with
      | Except.error e => Except.error e
      | Except.ok js => Except.ok ((k, j) :: js)
end

/-- The struct `CalculateAPICostRequest`; `ServiceParams` is `none` for the nil map. -/
structure CalculateAPICostRequest where
  Service : String
  ServiceParams : Option (List (String × GoValue))

instance : Marshaler CalculateAPICostRequest where
  marshal := fun req =>
    match req.ServiceParams with
    | none => Except.ok (JSON.obj [("service", JSON.str req.Service)])
    | some [] => Except.ok (JSON.obj [("service", JSON.str req.Service)])
    | some entries =>
      match GoValue.marshal (GoValue.map (sortByKey entries)) with
      | Except.error e => Except.error e
      | Except.ok params =>
        Except.ok (JSON.obj [("service", JSON.str req.Service), ("serviceParams", params)])

/-! ## The package `net/url`: path segments, query components and `url.Values` -/

namespace url

/-- The function `url.PathEscape`. -/
def PathEscape (s : String) : String := escape s encoding.encodePathSegment

/-- The function `url.QueryEscape`. -/
def QueryEscape (s : String) : String := escape s encoding.encodeQueryComponent

/-- The function `unescape` in the mode of a path segment, on the bytes of its argument:
the bytes of the result, or `none` for an `EscapeError`. -/
def unescapeBytes : List Nat → Option (List Nat)
  | [] => some []
  | c :: rest =>
    if c = 37 then
      match rest with
      | a :: b :: rest₂ =>
        if ishex a && ishex b then (unescapeBytes rest₂).map (fun t => (unhex a * 16 + unhex b) :: t)
        else none
      | _ => none
    else (unescapeBytes rest).map (fun t => c :: t)

/-- The function `url.PathUnescape`: the bytes of the string it returns. -/
def PathUnescape (s : String) : Option (List Nat) := unescapeBytes (bytes s)

/-- The type `url.Values`, a map from keys to their values. -/
abbrev Values := List (String × List String)

/-- The method `Values.Set`. -/
def Values.Set (v : Values) (key value : String) : Values :=
  (key, [value]) :: v.filter (fun e => e.1 ≠ key)

/-- The method `Values.Encode`: the pairs `key=value`, escaped, in the order of the keys
and joined by `&`. -/
def Values.Encode (v : Values) : String :=
  ((sortByKey v).flatMap (fun e => e.2.map (fun x => QueryEscape e.1 ++ "=" ++ QueryEscape x))).foldl
    (fun buf pair => if buf.length > 0 then buf ++ "&" ++ pair else pair) ""

end url

/-! ## The package `leonardo`: `helpers.go` -/

/-- The function `urlPathEscape`. -/
def urlPathEscape (s : String) : String := url.PathEscape s

/-! ## The package `leonardo`: the endpoint wrappers -/

/-- What the call of an endpoint wrapper gives: the returned pointer (`none` for nil), the
returned error, and the events of the call. -/
structure CallResult (ρ : Type) where
  resp : Option ρ
  err : Option GoError
  trace : List Event

/-- The body every endpoint wrapper repeats after it has its path: build the request, hand
it to `Client.Do` with the address of the response variable, and wrap a failure of either
step with the text of that wrapper.  `resp` is the declared response variable. -/
def endpoint {β ρ : Type} [Marshaler β] [Unmarshaler ρ] (urlParse : String → Except GoError url.URL)
    (c : Client) (ctx : Option http.Context) (method path : String) (body : Option β)
    (resp : ρ) (requestFailed doFailed : String) : CallResult ρ :=
  match c.NewRequest urlParse ctx method path body with
  | Except.error err => ⟨none, some (wrapf requestFailed err), []⟩
  | Except.ok httpReq =>
    let r := c.Do httpReq (some resp)
    match r.err with
    | some err => ⟨none, some (wrapf doFailed err), r.trace⟩
    | none => ⟨r.v, none, r.trace⟩

/-- The struct `CreateDatasetRequest`. -/
structure CreateDatasetRequest where
  Name : String
  Description : Option String
  deriving DecidableEq, Repr

instance : Marshaler CreateDatasetRequest where
  marshal := fun req =>
    Except.ok (JSON.obj (("name", JSON.str req.Name) ::
      (match req.Description with
        | none => []
        | some d => [("description", JSON.str d)])))

/-- The anonymous struct type of the field `InsertDatasetsOne`. -/
structure InsertDatasetsOne where
  ID : Option String
  deriving DecidableEq, Repr

/-- The struct `CreateDatasetResponse`. -/
structure CreateDatasetResponse where
  InsertDatasetsOne : InsertDatasetsOne
  deriving DecidableEq, Repr

/-- The zero value of `CreateDatasetResponse`. -/
def CreateDatasetResponse.zero : CreateDatasetResponse := ⟨⟨none⟩⟩

/-- The fields of `CreateDatasetResponse`. -/
def CreateDatasetResponse.fields : List (Field CreateDatasetResponse) :=
  [ Field.lens "insert_datasets_one" (fun v => v.InsertDatasetsOne)
      (fun v x => { v with InsertDatasetsOne := x })
      (unmarshalStruct "" "struct \x7b ID *string \"json:\\\"id\\\"\" \x7d"
        [ Field.lens "id" (fun v => v.ID) (fun v x => { v with ID := x })
            (unmarshalPtr "" unmarshalString) ]) ]

instance : Unmarshaler CreateDatasetResponse where
  unmarshal := unmarshalStruct "CreateDatasetResponse" "leonardo.CreateDatasetResponse"
    CreateDatasetResponse.fields

/-- The struct `PaginationParams`. -/
structure PaginationParams where
  Limit : Int
  Offset : Int
  deriving DecidableEq, Repr

/-- The struct `DatasetsService`. -/
structure DatasetsService where
  client : Client

/-- The struct `ImagesService`. -/
structure ImagesService where
  client : Client

/-- The struct `InitImagesService`. -/
structure InitImagesService where
  client : Client

/-- The struct `ModelsService`. -/
structure ModelsService where
  client : Client

/-- The struct `ThreeDModelAssetsService`. -/
structure ThreeDModelAssetsService where
  client : Client

/-- The struct `VariationService`. -/
structure VariationService where
  client : Client

/-- The method `DatasetsService.CreateDataset`. -/
def DatasetsService.CreateDataset (urlParse : String → Except GoError url.URL) (s : DatasetsService)
    (ctx : Option http.Context) (req : CreateDatasetRequest) : CallResult CreateDatasetResponse :=
  endpoint urlParse s.client ctx "POST" "/datasets" (some req) CreateDatasetResponse.zero
    "creating CreateDataset request failed" "creating dataset failed"

/-- The method `DatasetsService.GetDataset`; the response struct `GetDatasetResponse` is
the parameter `ρ` and `resp` its zero value. -/
def DatasetsService.GetDataset {ρ : Type} [Unmarshaler ρ] (urlParse : String → Except GoError url.URL)
    (s : DatasetsService) (ctx : Option http.Context) (id : String) (resp : ρ) : CallResult ρ :=
  endpoint urlParse s.client ctx "GET" ("/datasets/" ++ urlPathEscape id)
    (none : Option NoBody) resp "creating GetDataset request failed" "retrieving dataset failed"

/-- The method `DatasetsService.UploadDatasetImage`; the request struct
`UploadDatasetImageRequest` is the parameter `β`, the response struct
`UploadDatasetImageResponse` the parameter `ρ`. -/
def DatasetsService.UploadDatasetImage {β ρ : Type} [Marshaler β] [Unmarshaler ρ]
    (urlParse : String → Except GoError url.URL) (s : DatasetsService) (ctx : Option http.Context)
    (datasetID : String) (req : β) (resp : ρ) : CallResult ρ :=
  endpoint urlParse s.client ctx "POST" ("/datasets/" ++ urlPathEscape datasetID ++ "/upload")
    (some req) resp "creating UploadDatasetImage request failed"
    "retrieving upload details failed"

/-- The method `ImagesService.GetImageGeneration`; the response struct
`GetGenerationResponse` is the parameter `ρ` and `resp` its zero value. -/
def ImagesService.GetImageGeneration {ρ : Type} [Unmarshaler ρ]
    (urlParse : String → Except GoError url.URL) (s : ImagesService) (ctx : Option http.Context)
    (id : String) (resp : ρ) : CallResult ρ :=
  endpoint urlParse s.client ctx "GET" ("/generations/" ++ urlPathEscape id)
    (none : Option NoBody) resp "creating GetImageGeneration request failed"
    "getting image generation failed"

/-- The method `ImagesService.DeleteGeneration`; the response struct
`DeleteGenerationResponse` is the parameter `ρ`. -/
def ImagesService.DeleteGeneration {ρ : Type} [Unmarshaler ρ]
    (urlParse : String → Except GoError url.URL) (s : ImagesService) (ctx : Option http.Context)
    (id : String) (resp : ρ) : CallResult ρ :=
  endpoint urlParse s.client ctx "DELETE" ("/generations/" ++ urlPathEscape id)
    (none : Option NoBody) resp "creating DeleteGeneration request failed"
    "deleting generation failed"

/-- The query string both list-by-user wrappers build from `limit` and `offset`: a
parameter is set only when it is positive, and the string is empty when none is set. -/
def userListQuery (limit offset : Int) : String :=
  let queryParams : url.Values := []
  let queryParams := if limit > 0 then url.Values.Set queryParams "limit" (fmtInt limit)
    else queryParams
  let queryParams := if offset > 0 then url.Values.Set queryParams "offset" (fmtInt offset)
    else queryParams
  if queryParams.length > 0 then "?" ++ url.Values.Encode queryParams else ""

/-- The method `ImagesService.GetGenerationsByUserID`; the response struct
`GetGenerationsByUserResponse` is the parameter `ρ`. -/
def ImagesService.GetGenerationsByUserID {ρ : Type} [Unmarshaler ρ]
    (urlParse : String → Except GoError url.URL) (s : ImagesService) (ctx : Option http.Context)
    (userID : String) (limit offset : Int) (resp : ρ) : CallResult ρ :=
  endpoint urlParse s.client ctx "GET"
    ("/generations/user/" ++ url.PathEscape userID ++ userListQuery limit offset)
    (none : Option NoBody) resp "creating GetGenerationsByUserID request failed"
    "retrieving generations by user ID failed"

/-- The method `ThreeDModelAssetsService.Get3DModelsByUser`; the response struct
`Get3DModelsByUserResponse` is the parameter `ρ`. -/
def ThreeDModelAssetsService.Get3DModelsByUser {ρ : Type} [Unmarshaler ρ]
    (urlParse : String → Except GoError url.URL) (s : ThreeDModelAssetsService)
    (ctx : Option http.Context) (userID : String) (limit offset : Int) (resp : ρ) :
    CallResult ρ :=
  endpoint urlParse s.client ctx "GET"
    ("/models-3d/user/" ++ url.PathEscape userID ++ userListQuery limit offset)
    (none : Option NoBody) resp "creating Get3DModelsByUser request failed"
    "retrieving 3D models by user ID failed"

/-- The method `ThreeDModelAssetsService.Get3DModelByID`; the response struct
`Get3DModelByIDResponse` is the parameter `ρ`. -/
def ThreeDModelAssetsService.Get3DModelByID {ρ : Type} [Unmarshaler ρ]
    (urlParse : String → Except GoError url.URL) (s : ThreeDModelAssetsService)
    (ctx : Option http.Context) (id : String) (resp : ρ) : CallResult ρ :=
  endpoint urlParse s.client ctx "GET" ("/models-3d/" ++ urlPathEscape id)
    (none : Option NoBody) resp "creating Get3DModelByID request failed"
    "retrieving 3D model by ID failed"

/-- The method `ModelsService.GetCustomModel`; the response struct `GetCustomModelResponse`
is the parameter `ρ`. -/
def ModelsService.GetCustomModel {ρ : Type} [Unmarshaler ρ]
    (urlParse : String → Except GoError url.URL) (s : ModelsService) (ctx : Option http.Context)
    (id : String) (resp : ρ) : CallResult ρ :=
  endpoint urlParse s.client ctx "GET" ("/models/" ++ urlPathEscape id)
    (none : Option NoBody) resp "creating GetCustomModel request failed"
    "retrieving custom model failed"

/-- The method `ModelsService.ListPlatformModels`; the response struct
`ListPlatformModelsResponse` is the parameter `ρ`. -/
def ModelsService.ListPlatformModels {ρ : Type} [Unmarshaler ρ]
    (urlParse : String → Except GoError url.URL) (s : ModelsService) (ctx : Option http.Context)
    (req : PaginationParams) (resp : ρ) : CallResult ρ :=
  endpoint urlParse s.client ctx "GET"
    ("/platformModels?limit=" ++ fmtInt req.Limit ++ "&offset=" ++ fmtInt req.Offset)
    (none : Option NoBody) resp "creating ListPlatformModels request failed"
    "listing platform models failed"

/-- The method `VariationService.GetVariation`; the response struct `GetVariationResponse`
is the parameter `ρ`. -/
def VariationService.GetVariation {ρ : Type} [Unmarshaler ρ]
    (urlParse : String → Except GoError url.URL) (s : VariationService) (ctx : Option http.Context)
    (id : String) (resp : ρ) : CallResult ρ :=
  endpoint urlParse s.client ctx "GET" ("/variations/" ++ url.PathEscape id)
    (none : Option NoBody) resp "creating GetVariation request failed"
    "retrieving variation failed"

/-- The method `InitImagesService.GetSingleInitImage`; the response struct
`GetSingleInitImageResponse` is the parameter `ρ`. -/
def InitImagesService.GetSingleInitImage {ρ : Type} [Unmarshaler ρ]
    (urlParse : String → Except GoError url.URL) (s : InitImagesService) (ctx : Option http.Context)
    (id : String) (resp : ρ) : CallResult ρ :=
  endpoint urlParse s.client ctx "GET" ("/init-image/" ++ url.PathEscape id)
    (none : Option NoBody) resp "creating GetSingleInitImage request failed"
    "retrieving init image failed"

/-- The requests a call handed to the HTTP client. -/
def sentRequests : List Event → List http.Request
  | [] => []
  | Event.send req :: rest => req :: sentRequests rest
  | _ :: rest => sentRequests rest

/-- A character that is a letter, a digit or one of the marks `-`, `_`, `.`, `~`. -/
def unreservedChar (c : Char) : Bool :=
  (97 ≤ c.toNat ∧ c.toNat ≤ 122) ∨ (65 ≤ c.toNat ∧ c.toNat ≤ 90) ∨ (48 ≤ c.toNat ∧ c.toNat ≤ 57)
    ∨ c = '-' ∨ c = '_' ∨ c = '.' ∨ c = '~'

/-! ## The package `time` -/

namespace time

/-- A `time.Time` value, given by the reading of the clock in its location (year, month,
day, hour, minute, second, nanosecond) and by the offset of that location east of UTC, in
seconds, at that instant.  The location `time.UTC` has offset zero. -/
structure Time where
  year : Int
  month : Nat
  day : Nat
  hour : Nat
  min : Nat
  sec : Nat
  nsec : Nat
  offset : Int
  deriving DecidableEq, Repr

/-- The function `isLeap`. -/
def isLeap (year : Int) : Bool :=
  year % 4 = 0 ∧ (year % 100 ≠ 0 ∨ year % 400 = 0)

/-- The function `daysIn`. -/
def daysIn (month : Nat) (year : Int) : Nat :=
  if month = 2 then (if isLeap year then 29 else 28)
  else if month = 4 ∨ month = 6 ∨ month = 9 ∨ month = 11 then 30
  else 31

/-- The readings a `time.Time` value can have. -/
def Time.Valid (t : Time) : Prop :=
  1 ≤ t.month ∧ t.month ≤ 12 ∧ 1 ≤ t.day ∧ t.day ≤ daysIn t.month t.year ∧ t.hour < 24
    ∧ t.min < 60 ∧ t.sec < 60 ∧ t.nsec < 1000000000

instance (t : Time) : Decidable t.Valid := by
  unfold Time.Valid
  exact inferInstance

/-- The number of days from 1 January 1970 to a date of the proleptic Gregorian calendar. -/
def daysFromCivil (year : Int) (month day : Nat) : Int :=
  let y : Int := if month ≤ 2 then year - 1 else year
  let era : Int := y / 400
  let yoe : Int := y - era * 400
  let mp : Int := if month > 2 then (month : Int) - 3 else (month : Int) + 9
  let doy : Int := (153 * mp + 2) / 5 + (day : Int) - 1
  let doe : Int := yoe * 365 + yoe / 4 - yoe / 100 + doy
  era * 146097 + doe - 719468

/-- The method `UnixNano` without its 64-bit range: the instant of the value, in
nanoseconds since 1 January 1970 UTC.  Two values are `Equal` when their instants are. -/
def Time.UnixNano (t : Time) : Int :=
  ((daysFromCivil t.year t.month t.day * 86400 + (t.hour : Int) * 3600 + (t.min : Int) * 60
      + (t.sec : Int) - t.offset) * 1000000000) + (t.nsec : Int)

/-- The decimal digit of the units of a number. -/
def digit (n : Nat) : Char := Char.ofNat (48 + n % 10)

/-- The function `appendInt`: the sign of a negative number, then its decimal form padded
with zeros to the width. -/
def appendInt (x : Int) (width : Nat) : List Char :=
  (if x < 0 then ['-'] else []) ++
    (if width = 2 ∧ x.natAbs < 100 then [digit (x.natAbs / 10), digit x.natAbs]
     else if width = 4 ∧ x.natAbs < 10000 then
      [digit (x.natAbs / 1000), digit (x.natAbs / 100), digit (x.natAbs / 10), digit x.natAbs]
     else
      List.replicate (width - (Nat.toDigits 10 x.natAbs).length) '0'
        ++ Nat.toDigits 10 x.natAbs)

/-- The layout the package formats and parses timestamps with. -/
def layout : String := "2006-01-02T15:04:05.000"

/-- The method `Time.Format` for `layout`: year, month, day, hour, minute and second in
the location of the value, and the first three of the nine digits of the nanoseconds. -/
def Time.Format (t : Time) : String :=
  String.mk (appendInt t.year 4 ++ ['-'] ++ appendInt t.month 2 ++ ['-'] ++ appendInt t.day 2
    ++ ['T'] ++ appendInt t.hour 2 ++ [':'] ++ appendInt t.min 2 ++ [':'] ++ appendInt t.sec 2
    ++ ['.', digit (t.nsec / 100000000), digit (t.nsec / 10000000), digit (t.nsec / 1000000)])

/-- Whether a character is a decimal digit. -/
def isDig (c : Char) : Bool := 48 ≤ c.toNat ∧ c.toNat ≤ 57

/-- The value of a decimal digit. -/
def digitVal (c : Char) : Nat := c.toNat - 48

/-- The function `getnum`: a number of two digits, or of one digit when it is not `fixed`
and no second digit follows. -/
def getnum (s : List Char) (fixed : Bool) : Option (Nat × List Char) :=
  match s with
  | [] => none
  | c₀ :: rest =>
    if !isDig c₀ then none
    else
      match rest with
      | [] => if fixed then none else some (digitVal c₀, [])
      | c₁ :: rest₁ =>
        if !isDig c₁ then (if fixed then none else some (digitVal c₀, c₁ :: rest₁))
        else some (digitVal c₀ * 10 + digitVal c₁, rest₁)

/-- The digits of `leadingInt` when nothing may follow them. -/
def digitsValue (s : List Char) : Option Nat :=
  s.foldl (fun acc c =>
    match acc with
    | none => none
    | some n => if isDig c then some (n * 10 + digitVal c) else none) (some 0)

/-- The function `atoi` of the package `time` (on the at most four characters it is given
here): an optional sign, then digits only. -/
def atoi (s : List Char) : Option Int :=
  match s with
  | '-' :: rest => (digitsValue rest).map (fun n => -(n : Int))
  | '+' :: rest => (digitsValue rest).map (fun n => (n : Int))
  | _ => (digitsValue s).map (fun n => (n : Int))

/-- The parsing of the chunk `2006`: four characters that start with a digit and pass
`atoi`. -/
def getYear (value : List Char) : Option (Int × List Char) :=
  match value with
  | y₀ :: y₁ :: y₂ :: y₃ :: rest =>
    if !isDig y₀ then none
    else (atoi [y₀, y₁, y₂, y₃]).map (fun year => (year, rest))
  | _ => none

/-- The function `skip` for a prefix of one character that is not a space. -/
def skip (value : List Char) (c : Char) : Option (List Char) :=
  match value with
  | c₀ :: rest => if c₀ = c then some rest else none
  | [] => none

/-- The parsing of the chunk `.000` with `parseNanoseconds`: a period or a comma, then three
characters that pass `atoi` with a result that is not negative, scaled to nanoseconds. -/
def getFraction (value : List Char) : Option (Nat × List Char) :=
  match value with
  | x :: f₁ :: f₂ :: f₃ :: rest =>
    if !(x = '.' ∨ x = ',') then none
    else
      match atoi [f₁, f₂, f₃] with
      | none => none
      | some ns => if ns < 0 then none else some (ns.toNat * 1000000, rest)
  | _ => none

/-- The chunks `2006-01-02T` of the layout: year, month and day as read, and what follows
them.  The day is checked against the month once the whole value is read. -/
def parseDate (value : List Char) : Option (Int × Nat × Nat × List Char) :=
  match getYear value with
  | none => none
  | some (year, value) =>
  match skip value '-' with
  | none => none
  | some value =>
  match getnum value true with
  | none => none
  | some (month, value) =>
  if month < 1 ∨ 12 < month then none else
  match skip value '-' with
  | none => none
  | some value =>
  match getnum value true with
  | none => none
  | some (day, value) =>
  match skip value 'T' with
  | none => none
  | some value => some (year, month, day, value)

/-- The chunks `15:04:05` of the layout: hour, minute and second, and what follows them. -/
def parseClock (value : List Char) : Option (Nat × Nat × Nat × List Char) :=
  match getnum value false with
  | none => none
  | some (hour, value) =>
  if 24 ≤ hour then none else
  match skip value ':' with
  | none => none
  | some value =>
  match getnum value true with
  | none => none
  | some (min, value) =>
  if 60 ≤ min then none else
  match skip value ':' with
  | none => none
  | some value =>
  match getnum value true with
  | none => none
  | some (sec, value) =>
  if 60 ≤ sec then none else some (hour, min, sec, value)

/-- The function `time.Parse` for `layout`, on the characters of the value: `none` stands
for a `*time.ParseError`.  Without a zone in the layout the result is in UTC. -/
def parseLayout (value : List Char) : Option Time :=
  match parseDate value with
  | none => none
  | some (year, month, day, value) =>
  match parseClock value with
  | none => none
  | some (hour, min, sec, value) =>
  match getFraction value with
  | none => none
  | some (nsec, value) =>
  if value ≠ [] then none
  else if day < 1 ∨ daysIn month year < day then none
  else some ⟨year, month, day, hour, min, sec, nsec, 0⟩

/-- The function `time.Parse` for `layout`. -/
def Parse (value : String) : Except GoError Time :=
  match parseLayout value.data with
  | some t => Except.ok t
  | none =>
    Except.error (GoError.library ("parsing time " ++ value.quote ++ " as " ++ layout.quote))

end time

/-- The function `strings.Trim` for a cutset of one character. -/
def stringsTrim (s : String) (cut : Char) : String :=
  String.mk ((s.data.dropWhile (fun c => c = cut)).rdropWhile (fun c => c = cut))

/-! ## The package `leonardo`: the type `Time` -/

set_option linter.dupNamespace false in
/-- The struct `Time`. -/
structure Time where
  Time : time.Time
  deriving DecidableEq, Repr

/-- The method `Time.UnmarshalJSON`: the receiver after the call and the returned error. -/
def Time.UnmarshalJSON (t : Leonardo.Time) (data : String) :
    Leonardo.Time × Option GoError :=
  let s := stringsTrim data '"'
  match time.Parse s with
  | Except.error err => (t, some err)
  | Except.ok pt => ({ t with Time := pt }, none)

/-- The method `Time.MarshalJSON`: the returned bytes and the returned error. -/
def Time.MarshalJSON (t : Leonardo.Time) : String × Option GoError :=
  ("\"" ++ t.Time.Format ++ "\"", none)

/-- The method `Time.String`. -/
def Time.String (t : Leonardo.Time) : String := t.Time.Format

/-! ## The timestamp format in words -/

/-- The value truncated to whole milliseconds. -/
def time.Time.truncMilli (t : time.Time) : time.Time :=
  { t with nsec := t.nsec / 1000000 * 1000000 }

/-- The rest of the shape after the year: `-MM-DDTHH:MM:SS.mmm`, digits with the fixed
separators, a period and exactly three digits of fraction, and nothing after them. -/
def afterYearForm (cs : List Char) : Bool :=
  match cs with
  | [c₁, m₁, m₂, c₂, d₁, d₂, c₃, h₁, h₂, c₄, n₁, n₂, c₅, s₁, s₂, c₆, f₁, f₂, f₃] =>
    c₁ = '-' && time.isDig m₁ && time.isDig m₂ && c₂ = '-' && time.isDig d₁ && time.isDig d₂
      && c₃ = 'T' && time.isDig h₁ && time.isDig h₂ && c₄ = ':' && time.isDig n₁
      && time.isDig n₂ && c₅ = ':' && time.isDig s₁ && time.isDig s₂ && c₆ = '.'
      && time.isDig f₁ && time.isDig f₂ && time.isDig f₃
  | _ => false

/-- The shape `YYYY-MM-DDTHH:MM:SS.mmm`: a year of four digits and the rest of the shape. -/
def exactForm (cs : List Char) : Bool :=
  match cs with
  | y₁ :: y₂ :: y₃ :: y₄ :: rest =>
    time.isDig y₁ && time.isDig y₂ && time.isDig y₃ && time.isDig y₄ && afterYearForm rest
  | _ => false

/-- The reading of a string of the shape `YYYY-MM-DDTHH:MM:SS.mmm` as a date and a time of
day in UTC, position by position. -/
def denotes (cs : List Char) : Option time.Time :=
  match cs with
  | [y₁, y₂, y₃, y₄, _, m₁, m₂, _, d₁, d₂, _, h₁, h₂, _, n₁, n₂, _, s₁, s₂, _, f₁, f₂, f₃] =>
    some ⟨((((time.digitVal y₁ * 10 + time.digitVal y₂) * 10 + time.digitVal y₃) * 10
          + time.digitVal y₄ : Nat) : Int),
      time.digitVal m₁ * 10 + time.digitVal m₂, time.digitVal d₁ * 10 + time.digitVal d₂,
      time.digitVal h₁ * 10 + time.digitVal h₂, time.digitVal n₁ * 10 + time.digitVal n₂,
      time.digitVal s₁ * 10 + time.digitVal s₂,
      ((time.digitVal f₁ * 10 + time.digitVal f₂) * 10 + time.digitVal f₃) * 1000000, 0⟩
  | _ => none

/-- The end of the shape as `time.Parse` takes it: `:MM:SS`, a period or a comma, and three
characters of fraction of which the first may be a sign. -/
def lenientTail (cs : List Char) : Bool :=
  match cs with
  | [c₄, n₁, n₂, c₅, s₁, s₂, x, f₁, f₂, f₃] =>
    c₄ = ':' && time.isDig n₁ && time.isDig n₂ && c₅ = ':' && time.isDig s₁ && time.isDig s₂
      && (x = '.' || x = ',') && (time.isDig f₁ || f₁ = '+' || f₁ = '-') && time.isDig f₂
      && time.isDig f₃
  | _ => false

/-- The shape as `time.Parse` takes it: `YYYY-MM-DDT`, an hour of one or two digits, and
the end of the shape. -/
def lenientForm (cs : List Char) : Bool :=
  match cs with
  | y₁ :: y₂ :: y₃ :: y₄ :: c₁ :: m₁ :: m₂ :: c₂ :: d₁ :: d₂ :: c₃ :: h₁ :: rest =>
    time.isDig y₁ && time.isDig y₂ && time.isDig y₃ && time.isDig y₄ && c₁ = '-'
      && time.isDig m₁ && time.isDig m₂ && c₂ = '-' && time.isDig d₁ && time.isDig d₂
      && c₃ = 'T' && time.isDig h₁
      && (lenientTail rest ||
          match rest with
          | h₂ :: rest₂ => time.isDig h₂ && lenientTail rest₂
          | [] => false)
  | _ => false

/-- A value with the time zero of Go, 1 January of year 1 in UTC. -/
def zeroTime : Leonardo.Time := ⟨⟨1, 1, 1, 0, 0, 0, 0, 0⟩⟩

/-! ## Pointers: the client and its services in memory -/

/-- The address of a value a Go pointer points to. -/
abbrev Addr := Nat

/-- The thirteen service struct types; each is `struct { client *Client }`. -/
inductive ServiceKind where
  | DatasetsService
  | ImagesService
  | ElementsService
  | PromptService
  | InitImagesService
  | ModelsService
  | PricingCalculatorService
  | RealtimeCanvasService
  | TextureService
  | ThreeDModelAssetsService
  | UserService
  | VariationService
  | MotionService
  deriving DecidableEq, Repr

/-- A service value in memory: its struct type and its field `client`. -/
structure ServiceValue where
  kind : ServiceKind
  client : Addr
  deriving DecidableEq, Repr

/-- The struct `Client` in memory: the configuration fields and the thirteen service fields,
each a pointer to a service value or nil. -/
structure ClientValue where
  BaseURL : String
  HTTPClient : http.Client
  APIKey : String
  Datasets : Option Addr
  Images : Option Addr
  Elements : Option Addr
  Prompt : Option Addr
  InitImages : Option Addr
  Models : Option Addr
  PricingCalculator : Option Addr
  RealtimeCanvas : Option Addr
  Texture : Option Addr
  ThreeDModelAssets : Option Addr
  User : Option Addr
  Variation : Option Addr
  Motion : Option Addr

/-- The configuration a method reads through its receiver. -/
def ClientValue.toClient (v : ClientValue) : Client := ⟨v.BaseURL, v.HTTPClient, v.APIKey⟩

/-- The clients and the services that have been allocated, each at its address, and the
next address that is free. -/
structure Memory where
  next : Addr
  clients : List (Addr × ClientValue)
  services : List (Addr × ServiceValue)

/-- The client at an address, if there is one. -/
def Memory.client (mem : Memory) (a : Addr) : Option ClientValue :=
  (mem.clients.find? (fun e => e.1 = a)).map (fun e => e.2)

/-- The service at an address, if there is one. -/
def Memory.service (mem : Memory) (a : Addr) : Option ServiceValue :=
  (mem.services.find? (fun e => e.1 = a)).map (fun e => e.2)

/-- An assignment to the fields of the client at an address. -/
def Memory.setClient (mem : Memory) (a : Addr) (f : ClientValue → ClientValue) : Memory :=
  { mem with clients := mem.clients.map (fun e =>
      match e with
      | (at_, v) => if at_ = a then (at_, f v) else (at_, v)) }

/-- A statement `c.X = c.NewXService()` of `NewClient`: the method allocates
`&XService{client: c}`, and its address is stored in the field of the client. -/
def Memory.attach (mem : Memory) (c : Addr) (kind : ServiceKind)
    (set : ClientValue → Addr → ClientValue) : Memory :=
  ({ mem with next := mem.next + 1, services := mem.services ++ [(mem.next, ⟨kind, c⟩)] } :
    Memory).setClient c (fun v => set v mem.next)

/-- The function `NewClient`: the address of the client it returns and the values it has
allocated.  The network behind the new `http.Client` is the parameter `net`; the timeout is
`30 * time.Second` in nanoseconds. -/
def NewClient (net : http.Request → Except GoError http.Response) (apiKey : String) :
    Addr × Memory :=
  let c : Addr := 0
  let mem : Memory :=
    ⟨c + 1, [(c, ⟨"https://cloud.leonardo.ai/api/rest/v1", ⟨30 * 1000000000, net⟩, apiKey,
        none, none, none, none, none, none, none, none, none, none, none, none, none⟩)], []⟩
  let mem := mem.attach c ServiceKind.DatasetsService (fun v a => { v with Datasets := some a })
  let mem := mem.attach c ServiceKind.ImagesService (fun v a => { v with Images := some a })
  let mem := mem.attach c ServiceKind.ElementsService (fun v a => { v with Elements := some a })
  let mem := mem.attach c ServiceKind.PromptService (fun v a => { v with Prompt := some a })
  let mem := mem.attach c ServiceKind.InitImagesService
    (fun v a => { v with InitImages := some a })
  let mem := mem.attach c ServiceKind.ModelsService (fun v a => { v with Models := some a })
  let mem := mem.attach c ServiceKind.PricingCalculatorService
    (fun v a => { v with PricingCalculator := some a })
  let mem := mem.attach c ServiceKind.RealtimeCanvasService
    (fun v a => { v with RealtimeCanvas := some a })
  let mem := mem.attach c ServiceKind.TextureService (fun v a => { v with Texture := some a })
  let mem := mem.attach c ServiceKind.ThreeDModelAssetsService
    (fun v a => { v with ThreeDModelAssets := some a })
  let mem := mem.attach c ServiceKind.UserService (fun v a => { v with User := some a })
  let mem := mem.attach c ServiceKind.VariationService
    (fun v a => { v with Variation := some a })
  let mem := mem.attach c ServiceKind.MotionService (fun v a => { v with Motion := some a })
  (c, mem)

/-! ## More of `types.go` and of the wrappers -/

/-- The zero value of `CreateDatasetRequest`. -/
def CreateDatasetRequest.zero : CreateDatasetRequest := ⟨"", none⟩

/-- The fields of `CreateDatasetRequest`. -/
def CreateDatasetRequest.fields : List (Field CreateDatasetRequest) :=
  [ Field.lens "name" (fun v => v.Name) (fun v x => { v with Name := x }) unmarshalString,
    Field.lens "description" (fun v => v.Description) (fun v x => { v with Description := x })
      (unmarshalPtr "" unmarshalString) ]

instance : Unmarshaler CreateDatasetRequest where
  unmarshal := unmarshalStruct "CreateDatasetRequest" "leonardo.CreateDatasetRequest"
    CreateDatasetRequest.fields

/-- The method `ImagesService.CreateImageGeneration`; the request struct
`CreateGenerationRequest` is the parameter `β`. -/
def ImagesService.CreateImageGeneration {β : Type} [Marshaler β]
    (urlParse : String → Except GoError url.URL) (s : ImagesService) (ctx : Option http.Context)
    (req : β) : CallResult CreateGenerationResponse :=
  endpoint urlParse s.client ctx "POST" "/generations" (some req) CreateGenerationResponse.zero
    "creating CreateImageGeneration request failed" "creating image generation failed"

/-- The method `DatasetsService.DeleteDataset`; the response struct `DeleteDatasetResponse`
is the parameter `ρ`. -/
def DatasetsService.DeleteDataset {ρ : Type} [Unmarshaler ρ]
    (urlParse : String → Except GoError url.URL) (s : DatasetsService) (ctx : Option http.Context)
    (id : String) (resp : ρ) : CallResult ρ :=
  endpoint urlParse s.client ctx "DELETE" ("/datasets/" ++ urlPathEscape id)
    (none : Option NoBody) resp "creating DeleteDataset request failed"
    "deleting dataset failed"

/-! ## URL texts in written form -/

namespace url

/-- A byte that may stand for itself in a path: a letter, a digit, one of the marks
`-_.~`, one of `$&+,/:;=@`, or one of `!'()*[]`. -/
def pathByte (c : Nat) : Bool :=
  (97 ≤ c ∧ c ≤ 122) ∨ (65 ≤ c ∧ c ≤ 90) ∨ (48 ≤ c ∧ c ≤ 57)
    ∨ c = 45 ∨ c = 95 ∨ c = 46 ∨ c = 126
    ∨ c = 36 ∨ c = 38 ∨ c = 43 ∨ c = 44 ∨ c = 47 ∨ c = 58 ∨ c = 59 ∨ c = 61 ∨ c = 64
    ∨ c = 33 ∨ c = 39 ∨ c = 40 ∨ c = 41 ∨ c = 42 ∨ c = 91 ∨ c = 93

/-- A path text in written form: every byte stands for itself in a path or is the `%` of an
escape with two hexadecimal digits. -/
def wellEscaped : List Nat → Bool
  | [] => true
  | c :: rest =>
    if c = 37 then
      match rest with
      | a :: b :: rest₂ => ishex a && ishex b && wellEscaped rest₂
      | _ => false
    else pathByte c && wellEscaped rest

/-- A byte of a host name in written form: a letter, a digit, `-` or `.`. -/
def nameByte (c : Nat) : Bool :=
  (97 ≤ c ∧ c ≤ 122) ∨ (65 ≤ c ∧ c ≤ 90) ∨ (48 ≤ c ∧ c ≤ 57) ∨ c = 45 ∨ c = 46

/-- The parts of a URL text in written form: a scheme of lower-case letters; a host name of
letters, digits, `-` and `.`; a port that is absent or `:` and digits; a path that is
absent or starts with `/` and is in written form; a query that is absent or `?` followed by
bytes other than `#` and control bytes. -/
def Written (scheme name port path query : List Nat) : Prop :=
  scheme ≠ [] ∧ (∀ b ∈ scheme, 97 ≤ b ∧ b ≤ 122)
    ∧ name ≠ []
    ∧ (∀ b ∈ name, nameByte b = true)
    ∧ (port = [] ∨ (port.head? = some 58 ∧ port.tail ≠ [] ∧ ∀ d ∈ port.tail, 48 ≤ d ∧ d ≤ 57))
    ∧ (path = [] ∨ path.head? = some 47) ∧ wellEscaped path = true
    ∧ (query = [] ∨ (query.head? = some 63 ∧ ∀ b ∈ query.tail, 32 ≤ b ∧ b ≠ 127 ∧ b ≠ 35))

instance (scheme name port path query : List Nat) :
    Decidable (Written scheme name port path query) := by
  unfold Written
  infer_instance

/-- The text with the parts given: scheme, `://`, host name, port, path and query. -/
def written (scheme name port path query : List Nat) : List Nat :=
  scheme ++ [58, 47, 47] ++ name ++ port ++ path ++ query

/-- The URL a text in written form stands for. -/
def writtenURL (scheme name port path query : List Nat) : URL :=
  { URL.zero with
    Scheme := scheme, Host := name ++ port,
    Path := (match unescape encoding.encodePath path with
             | Except.ok t => t
             | Except.error _ => []),
    RawPath := (match unescape encoding.encodePath path with
                | Except.ok t => if escapeBytes t encoding.encodePath = path then [] else path
                | Except.error _ => []),
    ForceQuery := query = [63], RawQuery := query.drop 1 }

end url

/-- A base URL in written form: its bytes are the text of the parts given, without a
query. -/
def WrittenBase (base : String) (scheme name port basePath : List Nat) : Prop :=
  url.bytes base = url.written scheme name port basePath []
    ∧ url.Written scheme name port basePath []

instance (base : String) (scheme name port basePath : List Nat) :
    Decidable (WrittenBase base scheme name port basePath) := by
  unfold WrittenBase
  infer_instance

/-- A call whose events are `trace` sends exactly one request: with the method given, to
the base URL followed by `path` and, after `?` when it is not empty, `query`; the URL of
the request has that escaped path after the path of the base, and that query. -/
def SendsTo (trace : List Event) (method base : String) (basePath : List Nat)
    (path query : String) : Prop :=
  ∃ r, sentRequests trace = [r] ∧ r.Method = method
    ∧ r.URL.EscapedPath = basePath ++ url.bytes path
    ∧ r.URL.RawQuery = url.bytes query ∧ r.URL.ForceQuery = false
    ∧ r.URL.String = url.bytes (base ++ path ++ (if query = "" then "" else "?" ++ query))

/-! ## Calls through pointers: the memory, the network and the response bodies -/

/-- What a call does to the outside, as the operations below record it, one entry per
operation. -/
inductive Effect where
  /-- The method `Do` of the HTTP client was called with this request. -/
  | roundTrip (req : http.Request)
  /-- A JSON decoder read from the response body with this number. -/
  | read (body : Nat)
  /-- The method `Close` was called on the response body with this number. -/
  | close (body : Nat)

/-- A response body the HTTP client has handed out: its content and whether `Close` has
been called on it. -/
structure BodyState where
  content : Body
  closed : Bool

/-- The state a call runs in: the clients and services in memory, the effects so far in
their order, and the response bodies handed out so far, each known by its position. -/
structure World where
  mem : Memory
  log : List Effect
  bodies : List BodyState

/-- The requests the HTTP client was called with, in order. -/
def roundTrips : List Effect → List http.Request
  | [] => []
  | Effect.roundTrip req :: rest => req :: roundTrips rest
  | _ :: rest => roundTrips rest

/-- The entry an event of `Client.Do` stands for, on the response body with this number. -/
def Event.effect (body : Nat) : Event → Effect
  | Event.send req => Effect.roundTrip req
  | Event.readBody => Effect.read body
  | Event.closeBody => Effect.close body

/-- The call `hc.Do(req)` of the HTTP client: the call is recorded; the network answers
with a transport error, or with a response whose body is new and not closed.  The result
carries the number of that body. -/
def World.roundTrip (w : World) (hc : http.Client) (req : http.Request) :
    Except GoError (http.Response × Nat) × World :=
  match hc.Do req with
  | Except.error err => (Except.error err, { w with log := w.log ++ [Effect.roundTrip req] })
  | Except.ok resp =>
    (Except.ok (resp, w.bodies.length),
      { w with log := w.log ++ [Effect.roundTrip req],
               bodies := w.bodies ++ [⟨resp.Body, false⟩] })

/-- The call `json.NewDecoder(body).Decode(&v)` on a response body: the read is recorded,
and a body that has been closed gives the error of a read on a closed body in place of its
content. -/
def World.decode {σ : Type} [Unmarshaler σ] (w : World) (body : Nat) (v : σ) :
    Decoded σ × World :=
  let after : World := { w with log := w.log ++ [Effect.read body] }
  match w.bodies.get? body with
  | some st =>
    if st.closed then ((v, some (GoError.library "http: read on closed response body")), after)
    else (Decode st.content v, after)
  | none => ((v, some (GoError.library "http: read on closed response body")), after)

/-- The bodies after `Close` on the one at a position. -/
def closeAt : Nat → List BodyState → List BodyState
  | _, [] => []
  | 0, b :: rest => { b with closed := true } :: rest
  | n + 1, b :: rest => b :: closeAt n rest

/-- The call `body.Close()` on a response body: the call is recorded and the body is
closed. -/
def World.close (w : World) (body : Nat) : World :=
  { w with log := w.log ++ [Effect.close body], bodies := closeAt body w.bodies }

/-- The rest of a function after a statement `defer f()`: the deferred call runs when the
rest returns, whatever the path it returns on. -/
def World.deferred {ρ : Type} (deferredCall : World → World) (rest : World → ρ × World)
    (w : World) : ρ × World :=
  let r := rest w
  (r.1, deferredCall r.2)

/-- The method `Client.NewRequest` with its receiver `c *Client` as an address: the fields
`BaseURL` and `APIKey` are loaded through the pointer where the source reads them.  The
result is `none` when a load finds no client (a nil pointer dereference), and otherwise the
values returned and the state after the call. -/
def InMemory.Client.NewRequest {β : Type} [Marshaler β]
    (urlParse : String → Except GoError url.URL) (w : World) (c : Addr)
    (ctx : Option http.Context) (method path : String) (body : Option β) :
    Option (Except GoError http.Request × World) :=
  let buf : Except GoError (Option JSON) :=
    match body with
    | some b =>
      match Marshaler.marshal b with
      | Except.error err => Except.error err
      | Except.ok jsonBytes => Except.ok (some jsonBytes)
    | none => Except.ok none
  match buf with
  | Except.error err => some (Except.error err, w)
  | Except.ok buf =>
    match w.mem.client c with
    | none => none
    | some cv =>
      match http.NewRequestWithContext urlParse ctx method (cv.BaseURL ++ path) buf with
      | Except.error err => some (Except.error err, w)
      | Except.ok req =>
        match w.mem.client c with
        | none => none
        | some cv =>
          let req :=
            { req with Header := req.Header.Set "Authorization" ("Bearer " ++ cv.APIKey) }
          let req :=
            if body.isSome then
              { req with Header := req.Header.Set "Content-Type" "application/json" }
            else req
          some (Except.ok req, w)

/-- The method `Client.Do` with its receiver `c *Client` as an address: the field
`HTTPClient` is loaded through the pointer, the request goes to the HTTP client, and the
closing of the response body is deferred as soon as there is a response.  The result is
`none` when the load finds no client, and otherwise the returned error, the content of the
destination after the call (`none` for a nil destination) and the state after the call. -/
def InMemory.Client.Do {α : Type} [Unmarshaler α] (w : World) (c : Addr) (req : http.Request)
    (v : Option α) : Option ((Option GoError × Option α) × World) :=
  match w.mem.client c with
  | none => none
  | some cv =>
    match w.roundTrip cv.HTTPClient req with
    | (Except.error err, w) => some ((some err, v), w)
    | (Except.ok (resp, body), w) =>
      some (World.deferred (fun w => w.close body) (fun w =>
        if resp.StatusCode < 200 ∨ resp.StatusCode ≥ 300 then
          match w.decode body APIErrorResponse.zero with
          | ((_, some _), w) =>
            ((some (GoError.errorString
              ("API request failed with status " ++ fmtInt resp.StatusCode)), v), w)
          | ((apiErr, none), w) =>
            ((some (GoError.errorString
              ("API Error " ++ apiErr.Code ++ ": " ++ apiErr.Message)), v), w)
        else
          match v with
          | some dst =>
            match w.decode body dst with
            | ((d, err), w) => ((err, some d), w)
          | none => ((none, none), w)) w)

/-- The body every endpoint wrapper repeats after it has its path, with its receiver
`s *XService` as an address: the field `client` is loaded through the pointer for the call
of `NewRequest` and again for the call of `Do`.  The result is `none` when a load finds
nothing, and otherwise the returned pointer (`none` for nil), the returned error and the
state after the call. -/
def InMemory.endpoint {β ρ : Type} [Marshaler β] [Unmarshaler ρ]
    (urlParse : String → Except GoError url.URL) (w : World) (s : Addr)
    (ctx : Option http.Context) (method path : String) (body : Option β) (resp : ρ)
    (requestFailed doFailed : String) : Option ((Option ρ × Option GoError) × World) :=
  match w.mem.service s with
  | none => none
  | some sv =>
    match InMemory.Client.NewRequest urlParse w sv.client ctx method path body with
    | none => none
    | some (Except.error err, w) => some ((none, some (wrapf requestFailed err)), w)
    | some (Except.ok httpReq, w) =>
      match w.mem.service s with
      | none => none
      | some sv =>
        match InMemory.Client.Do w sv.client httpReq (some resp) with
        | none => none
        | some ((some err, _), w) => some ((none, some (wrapf doFailed err)), w)
        | some ((none, v), w) => some ((v, none), w)

/-- The method `ImagesService.DeleteGeneration` with its receiver as an address; the
response struct `DeleteGenerationResponse` is the parameter `ρ`. -/
def InMemory.ImagesService.DeleteGeneration {ρ : Type} [Unmarshaler ρ]
    (urlParse : String → Except GoError url.URL) (w : World) (s : Addr)
    (ctx : Option http.Context) (id : String) (resp : ρ) :
    Option ((Option ρ × Option GoError) × World) :=
  InMemory.endpoint urlParse w s ctx "DELETE" ("/generations/" ++ urlPathEscape id)
    (none : Option NoBody) resp "creating DeleteGeneration request failed"
    "deleting generation failed"

/-- The method `DatasetsService.CreateDataset` with its receiver as an address. -/
def InMemory.DatasetsService.CreateDataset (urlParse : String → Except GoError url.URL)
    (w : World) (s : Addr) (ctx : Option http.Context) (req : CreateDatasetRequest) :
    Option ((Option CreateDatasetResponse × Option GoError) × World) :=
  InMemory.endpoint urlParse w s ctx "POST" "/datasets" (some req) CreateDatasetResponse.zero
    "creating CreateDataset request failed" "creating dataset failed"

/-- The method `ImagesService.GetGenerationsByUserID` with its receiver as an address; the
response struct `GetGenerationsByUserResponse` is the parameter `ρ`. -/
def InMemory.ImagesService.GetGenerationsByUserID {ρ : Type} [Unmarshaler ρ]
    (urlParse : String → Except GoError url.URL) (w : World) (s : Addr)
    (ctx : Option http.Context) (userID : String) (limit offset : Int) (resp : ρ) :
    Option ((Option ρ × Option GoError) × World) :=
  InMemory.endpoint urlParse w s ctx "GET"
    ("/generations/user/" ++ url.PathEscape userID ++ userListQuery limit offset)
    (none : Option NoBody) resp "creating GetGenerationsByUserID request failed"
    "retrieving generations by user ID failed"

/-- The state of a program that has made a client with `NewClient` and nothing else: no
effect yet and no response body. -/
def World.afterNewClient (net : http.Request → Except GoError http.Response)
    (apiKey : String) : World :=
  ⟨(NewClient net apiKey).2, [], []⟩

/-! ## Sample values -/

/-- A client whose network answers every request with the response given. -/
def sampleClient (resp : http.Response) : Client :=
  ⟨"https://cloud.leonardo.ai/api/rest/v1", ⟨30000000000, fun _ => Except.ok resp⟩, "test-api-key"⟩

/-- The URL `url.Parse` makes of the default base URL followed by a path that needs no
escaping and, after `?`, a query. -/
def sampleURL (path query : String) : url.URL :=
  { url.URL.zero with
    Scheme := url.bytes "https", Host := url.bytes "cloud.leonardo.ai",
    Path := url.bytes ("/api/rest/v1" ++ path), RawQuery := url.bytes query }

/-- A request for one generation. -/
def sampleRequest : http.Request :=
  ⟨⟨0⟩, "GET", sampleURL "/generations/gen-404" "", [], none⟩

/-- The body the mock server of `TestGetImageGeneration` sends with status 404. -/
def notFoundBody : Body :=
  Body.value (JSON.obj [("code", JSON.str "not-found"), ("error", JSON.str "Generation not found."),
    ("path", JSON.str "")])

/-- The request `Client.NewRequest` builds for `GET /generations/gen-123` without body. -/
def sampleBuilt : http.Request :=
  ⟨⟨0⟩, "GET", sampleURL "/generations/gen-123" "limit=10",
    [("Authorization", ["Bearer test-api-key"])], none⟩

/-- The request `Client.NewRequest` builds for `POST /generations-motion-svd` with the
empty motion payload. -/
def sampleBuiltPost : http.Request :=
  ⟨⟨0⟩, "POST", sampleURL "/generations-motion-svd" "",
    [("Content-Type", ["application/json"]), ("Authorization", ["Bearer test-api-key"])],
    some (JSON.obj [])⟩

/-- The body the mock server of `TestCreateSVDMotionGenerationError` sends with status
400. -/
def badRequestBody : Body :=
  Body.value (JSON.obj [("code", JSON.str "bad-request"),
    ("error", JSON.str "Bad Request: Invalid parameters."), ("path", JSON.str "")])

/-- The function `strings.HasSuffix`, by which the tests compare error messages. -/
def HasSuffix (s suffix : String) : Bool :=
  suffix.data.isSuffixOf s.data

/-- The members of the body `TestCreateImageGeneration` would get without a credit cost:
a generation job that only carries `generationId`. -/
def generationMembers : List (String × JSON) :=
  [("sdGenerationJob", JSON.obj [("generationId", JSON.str "gen-123")])]

/-- The members of the body the mock server of `TestCreateImageGeneration` sends: a
generation job with a credit cost of 2 and the identifier `gen-123`. -/
def generationMembersFull : List (String × JSON) :=
  [("sdGenerationJob",
    JSON.obj [("apiCreditCost", JSON.num "2"), ("generationId", JSON.str "gen-123")])]

/-- The request `Client.NewRequest` builds for `POST /prompt/random` without payload, as
`GenerateRandomPrompt` asks for it. -/
def sampleBuiltRandomPrompt : http.Request :=
  ⟨⟨0⟩, "POST", sampleURL "/prompt/random" "",
    [("Authorization", ["Bearer test-api-key"])], none⟩

/-- A pricing request whose parameters hold a channel, which `json.Marshal` refuses. -/
def unserialisableRequest : CalculateAPICostRequest :=
  ⟨"IMAGE_GENERATION", some [("notify", GoValue.chan "chan int")]⟩

/-- The request `GetImageGeneration` builds for the identifier `a/b c`. -/
def sampleBuiltEscaped : http.Request :=
  ⟨⟨0⟩, "GET",
    { sampleURL "/generations/a/b c" "" with
      RawPath := url.bytes "/api/rest/v1/generations/a%2Fb%20c" },
    [("Authorization", ["Bearer test-api-key"])], none⟩

/-- The request `CreateDataset` builds for a dataset named `cats` without description. -/
def sampleBuiltDataset : http.Request :=
  ⟨⟨0⟩, "POST", sampleURL "/datasets" "",
    [("Content-Type", ["application/json"]), ("Authorization", ["Bearer test-api-key"])],
    some (JSON.obj [("name", JSON.str "cats")])⟩

/-- A body for `CreateDataset` whose identifier is a number: decoding it allocates the
identifier and then fails. -/
def numericIdBody : Body :=
  Body.value (JSON.obj [("insert_datasets_one", JSON.obj [("id", JSON.num "5")])])

/-- The request `Get3DModelsByUser` builds in `TestGet3DModelsByUser`: user `user-123`,
limit 10, offset 0. -/
def sampleBuiltUserList : http.Request :=
  ⟨⟨0⟩, "GET", sampleURL "/models-3d/user/user-123" "limit=10",
    [("Authorization", ["Bearer test-api-key"])], none⟩

/-- The request `ListPlatformModels` builds for the zero value of `PaginationParams`. -/
def sampleBuiltPlatformModels : http.Request :=
  ⟨⟨0⟩, "GET", sampleURL "/platformModels" "limit=0&offset=0",
    [("Authorization", ["Bearer test-api-key"])], none⟩

/-- The request `DeleteGeneration` builds for the identifier `gen-123`. -/
def sampleBuiltDelete : http.Request :=
  ⟨⟨0⟩, "DELETE", sampleURL "/generations/gen-123" "",
    [("Authorization", ["Bearer test-api-key"])], none⟩

/-- A client whose network fails every request with a transport error. -/
def failingClient : Client :=
  ⟨"https://cloud.leonardo.ai/api/rest/v1",
    ⟨30000000000, fun _ => Except.error (GoError.library "dial tcp: connection refused")⟩,
    "test-api-key"⟩

/-- A body with the shape of `CreateSVDMotionGenerationErrorResponse`: the code is a
number. -/
def numericCodeBody : Body :=
  Body.value (JSON.obj [("code", JSON.num "400"), ("error", JSON.str "x")])

/-! ## Theorems -/

/-! ### The package `net/url`: a text in written form is parsed and written back as it is -/

namespace url

/-- A text without the separator is cut into itself and nothing. -/
theorem cut_not_mem (s : List Nat) (sep : Nat) (h : sep ∉ s) : cut s sep = (s, []) := by
  unfold cut
  have h1 : s.takeWhile (fun b => decide (b ≠ sep)) = s := by
    rw [List.takeWhile_eq_self_iff]
    intro x hx
    simp only [ne_eq, decide_not, Bool.not_eq_true', decide_eq_false_iff_not]
    intro hxs; exact h (hxs ▸ hx)
  have h2 : s.dropWhile (fun b => decide (b ≠ sep)) = [] := by
    rw [List.dropWhile_eq_nil_iff]
    intro x hx
    simp only [ne_eq, decide_not, Bool.not_eq_true', decide_eq_false_iff_not]
    intro hxs; exact h (hxs ▸ hx)
  rw [h1, h2]; rfl

/-- The bytes before the first separator, when the text starts with a part that has none
and the separator follows it. -/
theorem takeWhile_ne_append (a b : List Nat) (sep : Nat) (h : sep ∉ a) :
    (a ++ sep :: b).takeWhile (fun x => decide (x ≠ sep)) = a := by
  induction a with
  | nil => simp [List.takeWhile]
  | cons x rest ih =>
    have hx : x ≠ sep := fun hxs => h (by simp [hxs])
    have hr : sep ∉ rest := fun hm => h (List.mem_cons_of_mem _ hm)
    simpa [List.takeWhile, hx] using ih hr

/-- The bytes from the first separator on, when the text starts with a part that has none
and the separator follows it. -/
theorem dropWhile_ne_append (a b : List Nat) (sep : Nat) (h : sep ∉ a) :
    (a ++ sep :: b).dropWhile (fun x => decide (x ≠ sep)) = sep :: b := by
  induction a with
  | nil => simp [List.dropWhile]
  | cons x rest ih =>
    have hx : x ≠ sep := fun hxs => h (by simp [hxs])
    have hr : sep ∉ rest := fun hm => h (List.mem_cons_of_mem _ hm)
    simpa [List.dropWhile, hx] using ih hr

/-- A text is cut at the separator that follows a part without one. -/
theorem cut_append (a b : List Nat) (sep : Nat) (h : sep ∉ a) :
    cut (a ++ sep :: b) sep = (a, b) := by
  unfold cut
  rw [takeWhile_ne_append a b sep h, dropWhile_ne_append a b sep h]
  rfl

/-- The loop of `getScheme` runs over lower-case letters up to the colon after them. -/
theorem scanScheme_letters (scheme rest : List Nat) (h : ∀ b ∈ scheme, 97 ≤ b ∧ b ≤ 122) :
    ∀ i, (i ≠ 0 ∨ scheme ≠ []) →
      scanScheme i (scheme ++ 58 :: rest) = SchemeScan.colonAt (i + scheme.length) := by
  induction scheme with
  | nil =>
    intro i hi
    have hi0 : i ≠ 0 := by
      rcases hi with hi | hi
      · exact hi
      · exact absurd rfl hi
    simp [scanScheme, hi0]
  | cons c cs ih =>
    intro i _
    have hc := h c (List.mem_cons_self _ _)
    have hcl : (97 ≤ c ∧ c ≤ 122) ∨ (65 ≤ c ∧ c ≤ 90) := Or.inl hc
    have := ih (fun b hb => h b (List.mem_cons_of_mem _ hb)) (i + 1) (Or.inl (by omega))
    show scanScheme i (c :: (cs ++ 58 :: rest)) = _
    rw [scanScheme, if_pos hcl, this, List.length_cons, Nat.add_assoc, Nat.add_comm 1]

/-- A text that starts with lower-case letters and a colon has those letters as its
scheme. -/
theorem getScheme_letters (scheme rest : List Nat) (h : ∀ b ∈ scheme, 97 ≤ b ∧ b ≤ 122)
    (hne : scheme ≠ []) :
    getScheme (scheme ++ 58 :: rest) = Except.ok (scheme, rest) := by
  unfold getScheme
  rw [scanScheme_letters scheme rest h 0 (Or.inr hne)]
  simp

/-- Lower-case letters are their own lower case. -/
theorem toLower_letters (scheme : List Nat) (h : ∀ b ∈ scheme, 97 ≤ b ∧ b ≤ 122) :
    toLower scheme = scheme := by
  unfold toLower
  conv_rhs => rw [← List.map_id scheme]
  apply List.map_congr_left
  intro b hb
  have := h b hb
  have hn : ¬ (65 ≤ b ∧ b ≤ 90) := by omega
  simp [hn]

/-- The function `unescape` gives back a text that has no `%`, no `+` to turn into a space
and no byte a host refuses. -/
theorem unescape_self (mode : encoding) (s : List Nat)
    (h : ∀ b ∈ s, b ≠ 37 ∧ ¬ (b = 43 ∧ mode = encoding.encodeQueryComponent)
      ∧ ¬ ((mode = encoding.encodeHost ∨ mode = encoding.encodeZone) ∧ b < 128
          ∧ shouldEscape b encoding.encodeHost = true)) :
    unescape mode s = Except.ok s := by
  induction s with
  | nil => rfl
  | cons c rest ih =>
    obtain ⟨h1, h2, h3⟩ := h c (List.mem_cons_self _ _)
    have ih' := ih (fun b hb => h b (List.mem_cons_of_mem _ hb))
    unfold unescape
    rw [if_neg h1, if_neg h2, if_neg h3, ih']

/-- The function `escape` gives back a text none of whose bytes the mode escapes. -/
theorem escapeBytes_self (mode : encoding) (s : List Nat)
    (h : ∀ b ∈ s, shouldEscape b mode = false) : escapeBytes s mode = s := by
  induction s with
  | nil => rfl
  | cons c rest ih =>
    have hc := h c (List.mem_cons_self _ _)
    have ih' := ih (fun b hb => h b (List.mem_cons_of_mem _ hb))
    unfold escapeBytes at ih' ⊢
    rw [List.flatMap_cons, ih']
    simp [hc]

/-- A byte that stands for itself in a path is not escaped there, passes `validEncoded`,
is no control byte and is none of `%`, `?` and `#`. -/
theorem pathByte_facts :
    ∀ c, c < 128 → pathByte c = true →
      c ≠ 37 ∧ 32 ≤ c ∧ c ≠ 127 ∧ c ≠ 63 ∧ c ≠ 35 ∧ validByte c encoding.encodePath = true := by
  decide

/-- A hexadecimal digit passes `validEncoded` in a path. -/
theorem hex_valid : ∀ c, c < 128 → ishex c = true → validByte c encoding.encodePath = true := by
  decide

/-- A byte that stands for itself in a path is an ASCII byte. -/
theorem pathByte_lt (c : Nat) (h : pathByte c = true) : c < 128 := by
  simp only [pathByte, Bool.decide_or, Bool.decide_and, Bool.or_eq_true, Bool.and_eq_true,
    decide_eq_true_eq] at h
  omega

/-- A hexadecimal digit is no control byte and neither `?` nor `#`. -/
theorem hex_facts : ∀ c, c < 128 → ishex c = true → 32 ≤ c ∧ c ≠ 127 ∧ c ≠ 63 ∧ c ≠ 35 := by
  decide

/-- A hexadecimal digit is an ASCII byte. -/
theorem ishex_lt (c : Nat) (h : ishex c = true) : c < 128 := by
  simp only [ishex, Bool.decide_or, Bool.decide_and, Bool.or_eq_true, Bool.and_eq_true,
    decide_eq_true_eq] at h
  omega

/-- What a path text in written form is to the library: its escapes unescape, it is
validly encoded, and it has no control byte, `?` or `#`. -/
theorem wellEscaped_facts (p : List Nat) :
    wellEscaped p = true →
      (∃ t, unescape encoding.encodePath p = Except.ok t
          ∧ (p.head? = some 47 → t.head? = some 47) ∧ (p = [] → t = []))
        ∧ validEncoded p encoding.encodePath = true
        ∧ ∀ b ∈ p, 32 ≤ b ∧ b ≠ 127 ∧ b ≠ 63 ∧ b ≠ 35 := by
  induction p using wellEscaped.induct with
  | case1 => intro _; exact ⟨⟨[], rfl, fun h => h, fun _ => rfl⟩, rfl, fun b hb => by cases hb⟩
  | case2 a b rest₂ ih =>
    intro h
    unfold wellEscaped at h
    rw [if_pos rfl] at h
    simp only [Bool.and_eq_true] at h
    obtain ⟨⟨ha, hb⟩, hrest⟩ := h
    obtain ⟨⟨t, ht, _, _⟩, hv, hb'⟩ := ih hrest
    refine ⟨⟨(unhex a * 16 + unhex b) :: t, ?_, ?_, ?_⟩, ?_, ?_⟩
    · unfold unescape
      simp [ha, hb, ht]
    · intro h; simp at h
    · intro h; cases h
    · have hva := hex_valid a (ishex_lt a ha) ha
      have hvb := hex_valid b (ishex_lt b hb) hb
      simp only [validEncoded, List.all_cons, Bool.and_eq_true] at hv ⊢
      exact ⟨by decide, hva, hvb, hv⟩
    · intro x hx
      rcases List.mem_cons.mp hx with hx | hx
      · subst hx; decide
      · rcases List.mem_cons.mp hx with hx | hx
        · subst hx; exact hex_facts _ (ishex_lt _ ha) ha
        · rcases List.mem_cons.mp hx with hx | hx
          · subst hx; exact hex_facts _ (ishex_lt _ hb) hb
          · exact hb' x hx
  | case3 rest hrest =>
    intro h
    unfold wellEscaped at h
    rw [if_pos rfl] at h
    cases rest with
    | nil => cases h
    | cons a r =>
      cases r with
      | nil => cases h
      | cons b r₂ => exact (hrest a b r₂ rfl).elim
  | case4 c rest hc ih =>
    intro h
    unfold wellEscaped at h
    rw [if_neg hc] at h
    simp only [Bool.and_eq_true] at h
    obtain ⟨hpb, hrest⟩ := h
    obtain ⟨⟨t, ht, _, _⟩, hv, hb'⟩ := ih hrest
    obtain ⟨f1, f2, f3, f4, f5, f6⟩ := pathByte_facts c (pathByte_lt c hpb) hpb
    refine ⟨⟨c :: t, ?_, ?_, ?_⟩, ?_, ?_⟩
    · unfold unescape
      rw [if_neg hc, if_neg (by simp), if_neg (by simp), ht]
    · intro h; simpa using h
    · intro h; cases h
    · simp only [validEncoded, List.all_cons, Bool.and_eq_true] at hv ⊢
      exact ⟨f6, hv⟩
    · intro x hx
      rcases List.mem_cons.mp hx with hx | hx
      · subst hx; exact ⟨f2, f3, f4, f5⟩
      · exact hb' x hx

/-- A byte of a host name is kept by a host, is no control byte and is none of `%`, `[`,
`@`, `/`, `?`, `#` and `:`. -/
theorem nameByte_facts :
    ∀ c, c < 128 → nameByte c = true →
      shouldEscape c encoding.encodeHost = false ∧ c ≠ 37 ∧ c ≠ 91 ∧ c ≠ 64 ∧ c ≠ 47
        ∧ c ≠ 63 ∧ c ≠ 35 ∧ 32 ≤ c ∧ c ≠ 127 ∧ c ≠ 58 := by
  decide

/-- A byte of a host name is an ASCII byte. -/
theorem nameByte_lt (c : Nat) (h : nameByte c = true) : c < 128 := by
  simp only [nameByte, Bool.decide_or, Bool.decide_and, Bool.or_eq_true, Bool.and_eq_true,
    decide_eq_true_eq] at h
  omega

/-- A decimal digit is kept by a host, is no control byte and is none of `%`, `@`, `/`,
`?` and `#`. -/
theorem digit_facts :
    ∀ c, c < 128 → (48 ≤ c ∧ c ≤ 57) →
      shouldEscape c encoding.encodeHost = false ∧ c ≠ 37 ∧ c ≠ 91 ∧ c ≠ 64 ∧ c ≠ 47
        ∧ c ≠ 63 ∧ c ≠ 35 ∧ 32 ≤ c ∧ c ≠ 127 := by
  decide

/-- The bytes of the host of a text in written form. -/
theorem written_host_bytes (name port : List Nat)
    (hname : ∀ b ∈ name, nameByte b = true)
    (hport : port = [] ∨ (port.head? = some 58 ∧ port.tail ≠ []
      ∧ ∀ d ∈ port.tail, 48 ≤ d ∧ d ≤ 57)) :
    ∀ b ∈ name ++ port,
      shouldEscape b encoding.encodeHost = false ∧ b ≠ 37 ∧ b ≠ 91 ∧ b ≠ 64 ∧ b ≠ 47
        ∧ b ≠ 63 ∧ b ≠ 35 ∧ 32 ≤ b ∧ b ≠ 127 := by
  intro b hb
  rcases List.mem_append.mp hb with hb | hb
  · have h := nameByte_facts b (nameByte_lt b (hname b hb)) (hname b hb)
    exact ⟨h.1, h.2.1, h.2.2.1, h.2.2.2.1, h.2.2.2.2.1, h.2.2.2.2.2.1, h.2.2.2.2.2.2.1,
      h.2.2.2.2.2.2.2.1, h.2.2.2.2.2.2.2.2.1⟩
  · rcases hport with hport | ⟨h58, _, hdig⟩
    · subst hport; cases hb
    · cases port with
      | nil => cases hb
      | cons c digits =>
        simp only [List.head?_cons, Option.some.injEq] at h58
        subst h58
        rcases List.mem_cons.mp hb with hb | hb
        · subst hb; decide
        · have h := hdig b hb
          exact digit_facts b (by omega) h

/-- The text after the last separator, when the text ends with the separator and a part
without one. -/
theorem afterLast_append (a b : List Nat) (sep : Nat) (h : sep ∉ b) :
    afterLast (a ++ sep :: b) sep = b := by
  unfold afterLast List.rtakeWhile
  rw [List.reverse_append, List.reverse_cons, List.append_assoc, List.singleton_append,
    takeWhile_ne_append _ _ _ (by simpa using h), List.reverse_reverse]

/-- The function `parseHost` gives back a host name with an optional numeric port. -/
theorem parseHost_written (name port : List Nat) (hne : name ≠ [])
    (hname : ∀ b ∈ name, nameByte b = true)
    (hport : port = [] ∨ (port.head? = some 58 ∧ port.tail ≠ []
      ∧ ∀ d ∈ port.tail, 48 ≤ d ∧ d ≤ 57)) :
    parseHost (name ++ port) = Except.ok (name ++ port) := by
  have hbytes := written_host_bytes name port hname hport
  have hhead : (name ++ port).head? ≠ some 91 := by
    cases name with
    | nil => exact absurd rfl hne
    | cons c rest =>
      have := (hbytes c (by simp)).2.2.1
      simpa using this
  have hportOK : ¬ (58 ∈ name ++ port
      ∧ (!validOptionalPort (58 :: afterLast (name ++ port) 58)) = true) := by
    rintro ⟨hmem, hbad⟩
    rcases hport with hport | ⟨h58, _, hdig⟩
    · subst hport
      rw [List.append_nil] at hmem
      exact (nameByte_facts 58 (by decide) (hname 58 hmem)).2.2.2.2.2.2.2.2.2 rfl
    · cases port with
      | nil => cases h58
      | cons c digits =>
        simp only [List.head?_cons, Option.some.injEq] at h58
        subst h58
        have hnd : 58 ∉ digits := fun hm => by
          have := hdig 58 hm
          omega
        rw [afterLast_append name digits 58 hnd] at hbad
        have hall : validOptionalPort (58 :: digits) = true := by
          simp only [validOptionalPort, decide_True, Bool.true_and, List.all_eq_true,
            decide_eq_true_eq]
          exact fun x hx => hdig x hx
        rw [hall] at hbad
        cases hbad
  unfold parseHost
  rw [if_neg hhead, if_neg hportOK]
  apply unescape_self
  intro b hb
  have h := hbytes b hb
  refine ⟨h.2.1, by simp, ?_⟩
  rintro ⟨_, _, hs⟩
  rw [h.1] at hs
  cases hs

/-- The function `parseAuthority` finds no user and the host itself in a host name with
an optional numeric port. -/
theorem parseAuthority_written (name port : List Nat) (hne : name ≠ [])
    (hname : ∀ b ∈ name, nameByte b = true)
    (hport : port = [] ∨ (port.head? = some 58 ∧ port.tail ≠ []
      ∧ ∀ d ∈ port.tail, 48 ≤ d ∧ d ≤ 57)) :
    parseAuthority (name ++ port) = Except.ok (none, name ++ port) := by
  have hbytes := written_host_bytes name port hname hport
  have h64 : 64 ∉ name ++ port := fun hm => (hbytes 64 hm).2.2.2.1 rfl
  unfold parseAuthority
  rw [if_pos h64, parseHost_written name port hne hname hport]

/-- Where the query starts: after the first `?`, or nowhere. -/
theorem query_split (front query : List Nat) (hfront : 63 ∉ front)
    (hquery : query = [] ∨ (query.head? = some 63
      ∧ ∀ b ∈ query.tail, 32 ≤ b ∧ b ≠ 127 ∧ b ≠ 35)) :
    decide ((front ++ query).getLast? = some 63 ∧ (front ++ query).count 63 = 1)
        = decide (query = [63])
      ∧ (if (front ++ query).getLast? = some 63 ∧ (front ++ query).count 63 = 1
          then (front ++ query).dropLast else (cut (front ++ query) 63).1) = front
      ∧ (if (front ++ query).getLast? = some 63 ∧ (front ++ query).count 63 = 1
          then [] else (cut (front ++ query) 63).2) = query.drop 1 := by
  have hcount : front.count 63 = 0 := List.count_eq_zero.mpr hfront
  rcases hquery with hq | ⟨hq, _⟩
  · subst hq
    rw [List.append_nil]
    have hlast : ¬ (front.getLast? = some 63 ∧ front.count 63 = 1) := by
      rintro ⟨_, h1⟩; omega
    rw [if_neg hlast, if_neg hlast, cut_not_mem front 63 hfront, decide_eq_false hlast]
    exact ⟨by simp, rfl, rfl⟩
  · cases query with
    | nil => cases hq
    | cons c q =>
      simp only [List.head?_cons, Option.some.injEq] at hq
      subst hq
      cases q with
      | nil =>
        have hforce : (front ++ [63]).getLast? = some 63 ∧ (front ++ [63]).count 63 = 1 := by
          simp [hcount]
        rw [if_pos hforce, if_pos hforce, decide_eq_true hforce]
        exact ⟨by simp, by simp, rfl⟩
      | cons d q =>
        have hforce : ¬ ((front ++ 63 :: d :: q).getLast? = some 63
            ∧ (front ++ 63 :: d :: q).count 63 = 1) := by
          rintro ⟨hlast, hc⟩
          have hc' : (d :: q).count 63 = 0 := by
            rw [List.count_append, hcount, List.count_cons_self] at hc
            omega
          have hnot : 63 ∉ d :: q := List.count_eq_zero.mp hc'
          have hl : (front ++ 63 :: d :: q).getLast? = (d :: q).getLast? := by
            rw [show front ++ 63 :: d :: q = (front ++ [63]) ++ (d :: q) by simp]
            exact List.getLast?_append_of_ne_nil _ (by simp)
          rw [hl] at hlast
          exact hnot (List.mem_of_getLast?_eq_some hlast)
        rw [if_neg hforce, if_neg hforce, cut_append front (d :: q) 63 hfront,
          decide_eq_false hforce]
        exact ⟨by simp, rfl, rfl⟩

/-- The bytes of a text in written form: no control byte and no `#`; `?` only where the
query starts. -/
theorem written_bytes (scheme name port path query : List Nat)
    (h : Written scheme name port path query) :
    (∀ b ∈ written scheme name port path query, 32 ≤ b ∧ b ≠ 127 ∧ b ≠ 35)
      ∧ 63 ∉ 47 :: 47 :: (name ++ port ++ path) := by
  obtain ⟨_, hscheme, _, hname, hport, _, hpath, hquery⟩ := h
  have hhost := written_host_bytes name port hname hport
  have hp := (wellEscaped_facts path hpath).2.2
  constructor
  · intro b hb
    unfold written at hb
    simp only [List.mem_append, List.mem_cons, List.mem_singleton, List.not_mem_nil,
      or_false] at hb
    rcases hb with ((((hb | hb) | hb) | hb) | hb) | hb
    · have := hscheme b hb; omega
    · rcases hb with hb | hb | hb <;> subst hb <;> decide
    · have := hhost b (List.mem_append_left _ hb); omega
    · have := hhost b (List.mem_append_right _ hb); omega
    · have := hp b hb; omega
    · rcases hquery with hq | ⟨hq, hall⟩
      · subst hq; cases hb
      · cases query with
        | nil => cases hb
        | cons c q =>
          simp only [List.head?_cons, Option.some.injEq] at hq
          subst hq
          rcases List.mem_cons.mp hb with hb | hb
          · subst hb; decide
          · exact hall b hb
  · intro hm
    rcases List.mem_cons.mp hm with hm | hm
    · cases hm
    · rcases List.mem_cons.mp hm with hm | hm
      · cases hm
      · rcases List.mem_append.mp hm with hm | hm
        · exact (hhost 63 hm).2.2.2.2.2.1 rfl
        · exact (hp 63 hm).2.2.1 rfl

/-- The parser on a text in written form: it succeeds with the URL the text stands
for. -/
theorem parse_written (scheme name port path query : List Nat)
    (h : Written scheme name port path query) :
    parse (written scheme name port path query)
      = Except.ok (writtenURL scheme name port path query) := by
  obtain ⟨hbytes, h63⟩ := written_bytes scheme name port path query h
  obtain ⟨hsne, hscheme, hnne, hname, hport, hhead, hpath, hquery⟩ := h
  obtain ⟨⟨t, ht, hthead, htnil⟩, _, _⟩ := wellEscaped_facts path hpath
  have hhost := written_host_bytes name port hname hport
  have hshape : written scheme name port path query
      = scheme ++ 58 :: (47 :: 47 :: (name ++ port ++ path) ++ query) := by
    simp [written]
  have hctl : stringContainsCTLByte (written scheme name port path query) = false := by
    unfold stringContainsCTLByte
    rw [List.any_eq_false]
    intro b hb
    have := hbytes b hb
    simp only [Bool.decide_or, Bool.or_eq_true, decide_eq_true_eq, not_or]
    omega
  have hstar : written scheme name port path query ≠ [42] := by
    rw [hshape]
    cases scheme with
    | nil => exact absurd rfl hsne
    | cons c cs => cases cs <;> simp
  obtain ⟨q1, q2, q3⟩ := query_split (47 :: 47 :: (name ++ port ++ path)) query h63 hquery
  have hauth : (name ++ port ++ path).takeWhile (fun b => decide (b ≠ 47)) = name ++ port
      ∧ (name ++ port ++ path).dropWhile (fun b => decide (b ≠ 47)) = path := by
    have h47 : 47 ∉ name ++ port := fun hm => (hhost 47 hm).2.2.2.2.1 rfl
    rcases hhead with hp | hp
    · subst hp
      rw [List.append_nil]
      have := cut_not_mem (name ++ port) 47 h47
      unfold cut at this
      simp only [Prod.mk.injEq] at this
      refine ⟨this.1, ?_⟩
      rw [List.dropWhile_eq_nil_iff]
      intro x hx
      simp only [ne_eq, decide_not, Bool.not_eq_true', decide_eq_false_iff_not]
      intro hxs; exact h47 (hxs ▸ hx)
    · cases path with
      | nil => cases hp
      | cons c rest =>
        simp only [List.head?_cons, Option.some.injEq] at hp
        subst hp
        exact ⟨takeWhile_ne_append _ _ _ h47, dropWhile_ne_append _ _ _ h47⟩
  unfold parse
  rw [hctl]
  simp only [Bool.false_eq_true, if_false, if_neg hstar]
  rw [hshape, getScheme_letters scheme _ hscheme hsne]
  simp only [decide_eq_true_eq]
  rw [q2, q3, q1, toLower_letters scheme hscheme]
  have hh : (47 :: 47 :: (name ++ port ++ path)).head? = some 47 := rfl
  rw [if_neg (by simp), if_neg (by simp), if_pos (by simp [hsne])]
  simp only [List.drop_succ_cons, List.drop_zero, hauth.1, hauth.2,
    parseAuthority_written name port hnne hname hport]
  unfold URL.setPath writtenURL
  rw [ht]
  rfl

/-- The escaped path of the URL a text in written form stands for is the path of the
text. -/
theorem EscapedPath_written (scheme name port path query : List Nat)
    (h : Written scheme name port path query) :
    (writtenURL scheme name port path query).EscapedPath = path := by
  obtain ⟨_, _, _, _, _, hhead, hpath, _⟩ := h
  obtain ⟨⟨t, ht, hthead, htnil⟩, hvalid, _⟩ := wellEscaped_facts path hpath
  unfold URL.EscapedPath writtenURL
  simp only [ht]
  by_cases hesc : escapeBytes t encoding.encodePath = path
  · rw [if_pos hesc, if_neg (by simp)]
    have hstar : t ≠ [42] := by
      rcases hhead with hp | hp
      · rw [htnil hp]; simp
      · intro h42
        have := hthead hp
        rw [h42] at this
        cases this
    rw [if_neg hstar, hesc]
  · rw [if_neg hesc]
    have hne : path ≠ [] := by
      intro hp
      apply hesc
      rw [htnil hp, hp]
      rfl
    rw [if_pos]
    refine ⟨hne, hvalid, ?_⟩
    simp [unescapesTo, ht]

/-- Writing the URL a text in written form stands for gives the text back. -/
theorem String_written (scheme name port path query : List Nat)
    (h : Written scheme name port path query) :
    (writtenURL scheme name port path query).String = written scheme name port path query := by
  have hpathEq := EscapedPath_written scheme name port path query h
  obtain ⟨hsne, hscheme, hnne, hname, hport, hhead, hpath, hquery⟩ := h
  have hhost := written_host_bytes name port hname hport
  have hhne : name ++ port ≠ [] := by
    intro hn
    exact hnne (List.append_eq_nil.mp hn).1
  have hesc : escapeBytes (name ++ port) encoding.encodeHost = name ++ port :=
    escapeBytes_self _ _ (fun b hb => (hhost b hb).1)
  have hauth : (writtenURL scheme name port path query).authorityText
      = 47 :: 47 :: (name ++ port) := by
    unfold URL.authorityText writtenURL
    simp [URL.zero, hsne, hhne, hesc]
  have hfirst : ¬ (path ≠ [] ∧ path.head? ≠ some 47 ∧ name ++ port ≠ []) := by
    rintro ⟨h1, h2, _⟩
    rcases hhead with hp | hp
    · exact h1 hp
    · exact h2 hp
  unfold URL.String
  rw [hpathEq, hauth]
  simp only [writtenURL, URL.zero, if_pos hsne, if_neg hfirst]
  have hbuf : ¬ (scheme ++ [58] ++ 47 :: 47 :: (name ++ port) = []
      ∧ 58 ∈ (cut path 47).1) := by simp
  simp only [ne_eq, not_true_eq_false, if_false, if_neg hbuf]
  unfold written
  rcases hquery with hq | ⟨hq, _⟩
  · subst hq
    simp
  · cases query with
    | nil => cases hq
    | cons c q =>
      simp only [List.head?_cons, Option.some.injEq] at hq
      subst hq
      cases q <;> simp

/-- A host of a text in written form has no empty port to remove. -/
theorem removeEmptyPort_written (name port : List Nat)
    (hname : ∀ b ∈ name, nameByte b = true)
    (hport : port = [] ∨ (port.head? = some 58 ∧ port.tail ≠ []
      ∧ ∀ d ∈ port.tail, 48 ≤ d ∧ d ≤ 57)) :
    http.removeEmptyPort (name ++ port) = name ++ port := by
  have hlast : (name ++ port).getLast? ≠ some 58 := by
    intro hl
    have hmem := List.mem_of_getLast?_eq_some hl
    rcases hport with hp | ⟨h58, htail, hdig⟩
    · subst hp
      rw [List.append_nil] at hmem
      exact (nameByte_facts 58 (by decide) (hname 58 hmem)).2.2.2.2.2.2.2.2.2 rfl
    · cases port with
      | nil => cases h58
      | cons c digits =>
        have hd : digits ≠ [] := htail
        have hl' : (name ++ c :: digits).getLast? = digits.getLast? := by
          rw [show name ++ c :: digits = (name ++ [c]) ++ digits by simp]
          exact List.getLast?_append_of_ne_nil _ hd
        rw [hl'] at hl
        have := hdig 58 (List.mem_of_getLast?_eq_some hl)
        omega
  unfold http.removeEmptyPort
  rw [if_neg (fun h => hlast h.2)]

/-- The function `url.Parse` on a text in written form: it gives the URL the text stands
for, and writing that URL gives the text back. -/
theorem Parse_written (s : String) (scheme name port path query : List Nat)
    (hs : bytes s = written scheme name port path query)
    (h : Written scheme name port path query) :
    Parse s = Except.ok (writtenURL scheme name port path query) := by
  have h35 : 35 ∉ bytes s := by
    rw [hs]
    intro hm
    exact ((written_bytes scheme name port path query h).1 35 hm).2.2 rfl
  unfold Parse
  rw [cut_not_mem _ 35 h35]
  simp only [hs, parse_written scheme name port path query h, if_true]

end url

/-! ### Integers: `strconv.ParseInt` reads what `strconv.Itoa` writes -/

/-- The step of `parseDigits`. -/
theorem digitChar_facts :
    ∀ d, d < 10 → (Nat.digitChar d).isDigit = true ∧ (Nat.digitChar d).toNat - 48 = d
      ∧ Nat.digitChar d ≠ '-' ∧ Nat.digitChar d ≠ '+' := by
  decide

/-- Reading the digits `Nat.toDigitsCore` writes before `ds` and then `ds` is reading `ds`
from the number written. -/
theorem toDigitsCore_value (fuel : Nat) :
    ∀ (n : Nat) (ds : List Char), n < fuel →
      (Nat.toDigitsCore 10 fuel n ds).foldl (fun acc c =>
          match acc with
          | none => none
          | some m => if c.isDigit then some (m * 10 + (c.toNat - 48)) else none) (some 0)
        = ds.foldl (fun acc c =>
          match acc with
          | none => none
          | some m => if c.isDigit then some (m * 10 + (c.toNat - 48)) else none) (some n) := by
  induction fuel with
  | zero => intro n ds h; omega
  | succ fuel ih =>
    intro n ds h
    obtain ⟨hd, hv, _, _⟩ := digitChar_facts (n % 10) (Nat.mod_lt _ (by decide))
    simp only [Nat.toDigitsCore]
    split
    · next h0 =>
      rw [List.foldl_cons]
      simp only [hd, if_true, hv]
      have : n % 10 = n := by omega
      rw [Nat.zero_mul, Nat.zero_add, this]
    · next h0 =>
      rw [ih (n / 10) _ (by omega), List.foldl_cons]
      simp only [hd, if_true, hv]
      rw [Nat.mul_comm, Nat.div_add_mod]

/-- The digits of a number are not the empty text and start with a digit. -/
theorem toDigitsCore_head (fuel : Nat) :
    ∀ (n : Nat) (ds : List Char), (∃ c rest, ds = c :: rest ∧ c ≠ '-' ∧ c ≠ '+') ∨ 0 < fuel →
      ∃ c rest, Nat.toDigitsCore 10 fuel n ds = c :: rest ∧ c ≠ '-' ∧ c ≠ '+' := by
  induction fuel with
  | zero =>
    intro n ds h
    rcases h with h | h
    · exact h
    · omega
  | succ fuel ih =>
    intro n ds _
    obtain ⟨_, _, h1, h2⟩ := digitChar_facts (n % 10) (Nat.mod_lt _ (by decide))
    simp only [Nat.toDigitsCore]
    split
    · exact ⟨_, _, rfl, h1, h2⟩
    · exact ih _ _ (Or.inl ⟨_, _, rfl, h1, h2⟩)

/-- Reading the decimal writing of a natural number gives the number. -/
theorem parseDigits_repr (n : Nat) : parseDigits (toString n).data = some n := by
  have hdata : (toString n).data = Nat.toDigitsCore 10 (n + 1) n [] := rfl
  obtain ⟨c, rest, hc, _, _⟩ := toDigitsCore_head (n + 1) n [] (Or.inr (by omega))
  have hval := toDigitsCore_value (n + 1) n [] (by omega)
  rw [hdata]
  rw [hc] at hval ⊢
  unfold parseDigits
  exact hval

/-- The decoder's parser reads what the verb `%d` writes: an integer that fits in 64 bits
comes back from its decimal writing. -/
theorem parseInt64_fmtInt (n : Int) (hlo : -9223372036854775808 ≤ n)
    (hhi : n ≤ 9223372036854775807) : parseInt64 (fmtInt n) = some n := by
  cases n with
  | ofNat m =>
    have hdata : (fmtInt (Int.ofNat m)).data = Nat.toDigitsCore 10 (m + 1) m [] := rfl
    obtain ⟨c, rest, hc, h1, h2⟩ := toDigitsCore_head (m + 1) m [] (Or.inr (by omega))
    have hp := parseDigits_repr m
    have hd2 : (toString m).data = Nat.toDigitsCore 10 (m + 1) m [] := rfl
    rw [hd2, hc] at hp
    have hm : m ≤ 9223372036854775807 := by
      simp only [Int.ofNat_eq_coe] at hhi
      omega
    unfold parseInt64
    rw [hdata, hc]
    simp only []
    split
    · next heq =>
      split at heq
      · cases heq
      · cases heq
      · cases heq
    · next neg cs heq =>
      split at heq
      · next cs' hcs => exact absurd (List.cons.inj hcs).1 h1
      · next cs' hcs => exact absurd (List.cons.inj hcs).1 h2
      · cases heq
        simp only [hp, hm, if_true]
        rfl
  | negSucc m =>
    have hdata : (fmtInt (Int.negSucc m)).data = '-' :: (toString (m + 1)).data := by
      show ("-" ++ toString (m + 1)).data = _
      rw [String.data_append]
      rfl
    have hp := parseDigits_repr (m + 1)
    have hm : m + 1 ≤ 9223372036854775808 := by
      rw [Int.negSucc_eq] at hlo
      omega
    unfold parseInt64
    rw [hdata]
    simp [hp, hm, Int.negSucc_eq]

/-- C1: when the status is outside [200,300) and the body decodes without error as the
API error payload with code `c` and message `m`, `Client.Do` returns the error made by
`fmt.Errorf` whose message is `"API Error " ++ c ++ ": " ++ m`. -/
theorem Do_api_error_message {α : Type} [Unmarshaler α] (c : Client) (req : http.Request)
    (v : Option α) (resp : http.Response) (apiErr : APIErrorResponse)
    (hresp : c.HTTPClient.Do req = Except.ok resp)
    (hstatus : resp.StatusCode < 200 ∨ resp.StatusCode ≥ 300)
    (hdec : Decode resp.Body APIErrorResponse.zero = (apiErr, none)) :
    (c.Do req v).err
        = some (GoError.errorString ("API Error " ++ apiErr.Code ++ ": " ++ apiErr.Message))
      ∧ (c.Do req v).err.map GoError.Error
        = some ("API Error " ++ apiErr.Code ++ ": " ++ apiErr.Message) := by
  have h : (c.Do req v).err
      = some (GoError.errorString ("API Error " ++ apiErr.Code ++ ": " ++ apiErr.Message)) := by
    simp only [Client.Do, hresp, if_pos hstatus, hdec]
  exact ⟨h, by rw [h]; rfl⟩

/-- Witness of C1: status 404 with the body of the mock server. -/
theorem Do_api_error_message_witness :
    (sampleClient ⟨404, notFoundBody⟩).HTTPClient.Do sampleRequest
        = Except.ok ⟨404, notFoundBody⟩
      ∧ ((sampleClient ⟨404, notFoundBody⟩).Do sampleRequest
            (some CreateGenerationResponse.zero)).err.map GoError.Error
        = some ("API Error " ++ "not-found" ++ ": " ++ "Generation not found.") :=
  ⟨rfl, (Do_api_error_message (sampleClient ⟨404, notFoundBody⟩) sampleRequest
    (some CreateGenerationResponse.zero) ⟨404, notFoundBody⟩
    ⟨"not-found", "Generation not found.", ""⟩ rfl (Or.inr (by decide)) (by decide)).2⟩

/-- C3: when the status `N` is outside [200,300) and decoding the body as the API error
payload returns an error, `Client.Do` returns the error whose message is exactly
`"API request failed with status N"`, whatever the body and the decoding error are. -/
theorem Do_undecodable_error_body {α : Type} [Unmarshaler α] (c : Client) (req : http.Request)
    (v : Option α) (resp : http.Response) (e : GoError)
    (hresp : c.HTTPClient.Do req = Except.ok resp)
    (hstatus : resp.StatusCode < 200 ∨ resp.StatusCode ≥ 300)
    (hdec : (Decode resp.Body APIErrorResponse.zero).2 = some e) :
    (c.Do req v).err
        = some (GoError.errorString ("API request failed with status " ++ fmtInt resp.StatusCode))
      ∧ (c.Do req v).err.map GoError.Error
        = some ("API request failed with status " ++ fmtInt resp.StatusCode) := by
  have h : (c.Do req v).err = some (GoError.errorString
      ("API request failed with status " ++ fmtInt resp.StatusCode)) := by
    simp only [Client.Do, hresp, if_pos hstatus, hdec]
  exact ⟨h, by rw [h]; rfl⟩

/-- Witness of C3: status 502 with a body that is not JSON. -/
theorem Do_undecodable_error_body_witness :
    ((sampleClient ⟨502, Body.invalid (GoError.syntaxError
          "invalid character '<' looking for beginning of value")⟩).Do sampleRequest
        (some CreateGenerationResponse.zero)).err.map GoError.Error
      = some ("API request failed with status " ++ fmtInt 502) :=
  (Do_undecodable_error_body (sampleClient ⟨502, Body.invalid (GoError.syntaxError
      "invalid character '<' looking for beginning of value")⟩) sampleRequest
    (some CreateGenerationResponse.zero) ⟨502, Body.invalid (GoError.syntaxError
      "invalid character '<' looking for beginning of value")⟩
    (GoError.syntaxError "invalid character '<' looking for beginning of value")
    rfl (Or.inr (by decide)) rfl).2

/-- C5: for a response with status below 200 or at least 300, `Client.Do` returns a
non-nil error whatever the body is, leaves the destination as it was and does not decode
into it; and whenever `Client.Do` returns a nil error on a response, the status is in
[200,300). -/
theorem Do_classifies_by_status {α : Type} [Unmarshaler α] (c : Client) (req : http.Request)
    (v : Option α) (resp : http.Response)
    (hresp : c.HTTPClient.Do req = Except.ok resp) :
    ((resp.StatusCode < 200 ∨ resp.StatusCode ≥ 300) →
        (c.Do req v).err ≠ none ∧ (c.Do req v).v = v)
      ∧ ((c.Do req v).err = none → 200 ≤ resp.StatusCode ∧ resp.StatusCode < 300) := by
  have h1 : (resp.StatusCode < 200 ∨ resp.StatusCode ≥ 300) →
      (c.Do req v).err ≠ none ∧ (c.Do req v).v = v := by
    intro hstatus
    simp only [Client.Do, hresp, if_pos hstatus]
    cases (Decode resp.Body APIErrorResponse.zero).2 <;> simp
  refine ⟨h1, fun hnil => ?_⟩
  by_contra hout
  have hstatus : resp.StatusCode < 200 ∨ resp.StatusCode ≥ 300 := by omega
  exact (h1 hstatus).1 hnil

/-- Witness of C5: status 300 with a body that would fit the destination. -/
theorem Do_classifies_by_status_witness :
    ((300 : Int) < 200 ∨ (300 : Int) ≥ 300)
      ∧ ((sampleClient ⟨300, Body.value (JSON.obj [("sdGenerationJob",
            JSON.obj [("generationId", JSON.str "gen-123")])])⟩).Do sampleRequest
          (some CreateGenerationResponse.zero)).err ≠ none
      ∧ ((sampleClient ⟨300, Body.value (JSON.obj [("sdGenerationJob",
            JSON.obj [("generationId", JSON.str "gen-123")])])⟩).Do sampleRequest
          (some CreateGenerationResponse.zero)).v = some CreateGenerationResponse.zero :=
  ⟨Or.inr (by decide),
    (Do_classifies_by_status (sampleClient ⟨300, Body.value (JSON.obj [("sdGenerationJob",
        JSON.obj [("generationId", JSON.str "gen-123")])])⟩) sampleRequest
      (some CreateGenerationResponse.zero) ⟨300, Body.value (JSON.obj [("sdGenerationJob",
        JSON.obj [("generationId", JSON.str "gen-123")])])⟩ rfl).1 (Or.inr (by decide))⟩

/-- C7: for a status in [200,300) and a non-nil destination, when decoding the body into
the destination returns an error, `Client.Do` returns that error, not nil. -/
theorem Do_success_decode_failure {α : Type} [Unmarshaler α] (c : Client) (req : http.Request)
    (dst : α) (resp : http.Response) (e : GoError)
    (hresp : c.HTTPClient.Do req = Except.ok resp)
    (hlo : 200 ≤ resp.StatusCode) (hhi : resp.StatusCode < 300)
    (hdec : (Decode resp.Body dst).2 = some e) :
    (c.Do req (some dst)).err = some e ∧ (c.Do req (some dst)).err ≠ none := by
  have hstatus : ¬ (resp.StatusCode < 200 ∨ resp.StatusCode ≥ 300) := by omega
  have h : (c.Do req (some dst)).err = some e := by
    simp only [Client.Do, hresp, if_neg hstatus, hdec]
  exact ⟨h, by rw [h]; simp⟩

/-- Witness of C7: status 200 with a JSON array as body. -/
theorem Do_success_decode_failure_witness :
    ((sampleClient ⟨200, Body.value (JSON.arr [])⟩).Do sampleRequest
        (some CreateGenerationResponse.zero)).err ≠ none :=
  (Do_success_decode_failure (sampleClient ⟨200, Body.value (JSON.arr [])⟩) sampleRequest
    CreateGenerationResponse.zero ⟨200, Body.value (JSON.arr [])⟩
    (GoError.unmarshalTypeError "array" "leonardo.CreateGenerationResponse" "" "")
    rfl (by decide) (by decide) rfl).2

/-- C8: for a status in [200,300) and a nil destination, `Client.Do` returns nil whatever
the body is, and no decoder reads the body: the events of the call are the round trip and
the closing of the body. -/
theorem Do_nil_destination {α : Type} [Unmarshaler α] (c : Client) (req : http.Request)
    (resp : http.Response)
    (hresp : c.HTTPClient.Do req = Except.ok resp)
    (hlo : 200 ≤ resp.StatusCode) (hhi : resp.StatusCode < 300) :
    (c.Do req (none : Option α)).err = none
      ∧ (c.Do req (none : Option α)).trace = [Event.send req, Event.closeBody] := by
  have hstatus : ¬ (resp.StatusCode < 200 ∨ resp.StatusCode ≥ 300) := by omega
  simp only [Client.Do, hresp, if_neg hstatus, and_self]

/-- Witness of C8: status 204 with a body that has the shape of an API error. -/
theorem Do_nil_destination_witness :
    ((sampleClient ⟨204, notFoundBody⟩).Do sampleRequest
        (none : Option CreateGenerationResponse)).err = none :=
  (Do_nil_destination (sampleClient ⟨204, notFoundBody⟩) sampleRequest ⟨204, notFoundBody⟩
    rfl (by decide) (by decide)).1

/-- A request accepted by `http.NewRequestWithContext` has the URL the parser made of the
target it was given, without an empty port, and an empty header map. -/
theorem NewRequestWithContext_ok (urlParse : String → Except GoError url.URL)
    (ctx : Option http.Context) (method url : String) (body : Option JSON) (r : http.Request)
    (h : http.NewRequestWithContext urlParse ctx method url body = Except.ok r) :
    (∃ u, urlParse url = Except.ok u
        ∧ r.URL = { u with Host := http.removeEmptyPort u.Host })
      ∧ r.Header = [] ∧ r.Body = body := by
  unfold http.NewRequestWithContext at h
  simp only at h
  by_cases hv : (!http.validMethod (if method = "" then "GET" else method)) = true
  · rw [if_pos hv] at h; cases h
  · rw [if_neg hv] at h
    cases ctx with
    | none => cases h
    | some ctx' =>
      simp only at h
      cases hu : urlParse url with
      | error e => rw [hu] at h; cases h
      | ok u =>
        rw [hu] at h
        cases h
        exact ⟨⟨u, rfl, rfl⟩, rfl, rfl⟩

/-- The canonical forms of the two header keys the client sets differ. -/
theorem canonical_keys_ne :
    http.CanonicalMIMEHeaderKey "Authorization" ≠ http.CanonicalMIMEHeaderKey "Content-Type" := by
  decide

/-- Shape of a successful `Client.NewRequest`: the parser accepted the target
`c.BaseURL ++ path`, and the result is the request of the library with the headers set. -/
theorem NewRequest_shape {β : Type} [Marshaler β] (urlParse : String → Except GoError url.URL)
    (c : Client) (ctx : Option http.Context) (method path : String) (body : Option β)
    (req : http.Request)
    (h : c.NewRequest urlParse ctx method path body = Except.ok req) :
    ∃ r₀ : http.Request,
      (∃ u, urlParse (c.BaseURL ++ path) = Except.ok u
        ∧ r₀.URL = { u with Host := http.removeEmptyPort u.Host })
      ∧ r₀.Header = []
      ∧ req = (if body.isSome then
          { r₀ with Header := ((r₀.Header.Set "Authorization" ("Bearer " ++ c.APIKey)).Set
              "Content-Type" "application/json") }
        else { r₀ with Header := r₀.Header.Set "Authorization" ("Bearer " ++ c.APIKey) }) := by
  unfold Client.NewRequest at h
  simp only at h
  split at h
  · cases h
  · split at h
    · cases h
    · next r hr =>
      have hr₀ := NewRequestWithContext_ok urlParse ctx method _ _ r hr
      refine ⟨r, hr₀.1, hr₀.2.1, ?_⟩
      cases h
      split <;> rfl

/-- The URL of a request `Client.NewRequest` returns: what the parser made of
`c.BaseURL ++ path`, without an empty port. -/
theorem NewRequest_url {β : Type} [Marshaler β] (urlParse : String → Except GoError url.URL)
    (c : Client) (ctx : Option http.Context) (method path : String) (body : Option β)
    (req : http.Request)
    (h : c.NewRequest urlParse ctx method path body = Except.ok req) :
    ∃ u, urlParse (c.BaseURL ++ path) = Except.ok u
      ∧ req.URL = { u with Host := http.removeEmptyPort u.Host } := by
  obtain ⟨r₀, ⟨u, hu, hurl⟩, _, hreq⟩ := NewRequest_shape urlParse c ctx method path body req h
  refine ⟨u, hu, ?_⟩
  rw [hreq, ← hurl]
  split <;> rfl

/-- The bytes of two strings one after the other. -/
theorem bytes_append (a b : String) : url.bytes (a ++ b) = url.bytes a ++ url.bytes b := by
  unfold url.bytes
  rw [String.data_append, List.flatMap_append]

/-- The request `Client.NewRequest` returns when nothing stops it: the method is a token,
the context is not nil, the payload, if any, can be serialised, and the parser accepts the
target. -/
theorem NewRequest_ok {β : Type} [Marshaler β] (urlParse : String → Except GoError url.URL)
    (c : Client) (ctx : http.Context) (method path : String) (body : Option β)
    (u : url.URL)
    (hmethod : http.validMethod method = true) (hne : method ≠ "")
    (hbody : ∀ b, body = some b → ∃ j, Marshaler.marshal b = Except.ok j)
    (hparse : urlParse (c.BaseURL ++ path) = Except.ok u) :
    ∃ r, c.NewRequest urlParse (some ctx) method path body = Except.ok r
      ∧ r.ctx = ctx ∧ r.Method = method
      ∧ r.URL = { u with Host := http.removeEmptyPort u.Host } := by
  cases body with
  | none =>
    simp [Client.NewRequest, http.NewRequestWithContext, hmethod, hne, hparse]
  | some b =>
    obtain ⟨j, hj⟩ := hbody b rfl
    simp [Client.NewRequest, http.NewRequestWithContext, hmethod, hne, hparse, hj]

/-- The URL of the request `Client.NewRequest` returns for a target in written form. -/
theorem NewRequest_written {β : Type} [Marshaler β] (c : Client) (ctx : http.Context)
    (method path : String) (body : Option β) (scheme name port basePath p query : List Nat)
    (hbase : WrittenBase c.BaseURL scheme name port basePath)
    (hmethod : http.validMethod method = true) (hne : method ≠ "")
    (hbody : ∀ b, body = some b → ∃ j, Marshaler.marshal b = Except.ok j)
    (hpath : url.bytes path = p ++ query)
    (hw : url.Written scheme name port (basePath ++ p) query) :
    ∃ r, c.NewRequest url.Parse (some ctx) method path body = Except.ok r
      ∧ r.ctx = ctx ∧ r.Method = method
      ∧ r.URL = url.writtenURL scheme name port (basePath ++ p) query
      ∧ r.URL.String = url.bytes (c.BaseURL ++ path)
      ∧ r.URL.EscapedPath = basePath ++ p
      ∧ r.URL.ForceQuery = decide (query = [63]) ∧ r.URL.RawQuery = query.drop 1 := by
  have hs : url.bytes (c.BaseURL ++ path)
      = url.written scheme name port (basePath ++ p) query := by
    rw [bytes_append, hbase.1, hpath]
    simp [url.written]
  have hparse := url.Parse_written (c.BaseURL ++ path) scheme name port (basePath ++ p) query
    hs hw
  obtain ⟨r, hr, hctx, hm, hurl⟩ :=
    NewRequest_ok url.Parse c ctx method path body _ hmethod hne hbody hparse
  have hport : http.removeEmptyPort (name ++ port) = name ++ port :=
    url.removeEmptyPort_written name port hw.2.2.2.1 hw.2.2.2.2.1
  have hurl' : r.URL = url.writtenURL scheme name port (basePath ++ p) query := by
    rw [hurl]
    show ({ url.writtenURL scheme name port (basePath ++ p) query with
      Host := http.removeEmptyPort (name ++ port) } : url.URL) = _
    rw [hport]
    rfl
  refine ⟨r, hr, hctx, hm, hurl', ?_, ?_, ?_, ?_⟩
  · rw [hurl', url.String_written _ _ _ _ _ hw, hs]
  · rw [hurl', url.EscapedPath_written _ _ _ _ _ hw]
  · rw [hurl']; rfl
  · rw [hurl']; rfl

/-- C9, the claim as stated fails: for the path `/a b` the request `Client.NewRequest`
returns has the target `.../a%20b`, which is not the string `c.BaseURL ++ path`; the
parser of the library has unescaped the path and the URL is written with the space
escaped. -/
theorem NewRequest_target_escapes_space :
    ∃ req, (sampleClient ⟨200, Body.empty⟩).NewRequest url.Parse (some ⟨0⟩) "GET" "/a b"
        (none : Option NoBody) = Except.ok req
      ∧ req.URL.Path = url.bytes "/api/rest/v1/a b"
      ∧ req.URL.String = url.bytes "https://cloud.leonardo.ai/api/rest/v1/a%20b"
      ∧ req.URL.String ≠ url.bytes ((sampleClient ⟨200, Body.empty⟩).BaseURL ++ "/a b") :=
  ⟨_, rfl, by decide, by decide, by decide⟩

/-- C9 as amended: the URL of a request `Client.NewRequest` returns is what `url.Parse`
makes of the string `c.BaseURL ++ path` (with an empty port removed by `net/http`), so
`NewRequest` itself inserts, escapes and removes nothing; and when that string is a URL
text in written form (lower-case scheme, `://`, host name with optional numeric port, a
path of bytes that stand for themselves and of well-formed escapes, optionally `?` and a
query without `#`), the target the URL is written as is exactly `c.BaseURL ++ path`,
query string included. -/
theorem NewRequest_target {β : Type} [Marshaler β] (c : Client) (ctx : Option http.Context)
    (method path : String) (body : Option β) (req : http.Request)
    (h : c.NewRequest url.Parse ctx method path body = Except.ok req) :
    (∃ u, url.Parse (c.BaseURL ++ path) = Except.ok u
        ∧ req.URL = { u with Host := http.removeEmptyPort u.Host })
      ∧ ∀ scheme name port p query,
          url.bytes (c.BaseURL ++ path) = url.written scheme name port p query →
          url.Written scheme name port p query →
          req.URL = url.writtenURL scheme name port p query
            ∧ req.URL.String = url.bytes (c.BaseURL ++ path) := by
  obtain ⟨u, hu, hurl⟩ := NewRequest_url url.Parse c ctx method path body req h
  refine ⟨⟨u, hu, hurl⟩, ?_⟩
  intro scheme name port p query hs hw
  have hparse := url.Parse_written (c.BaseURL ++ path) scheme name port p query hs hw
  rw [hu] at hparse
  cases hparse
  have hport : http.removeEmptyPort (name ++ port) = name ++ port :=
    url.removeEmptyPort_written name port hw.2.2.2.1 hw.2.2.2.2.1
  have hurl' : req.URL = url.writtenURL scheme name port p query := by
    rw [hurl]
    show ({ url.writtenURL scheme name port p query with
      Host := http.removeEmptyPort (name ++ port) } : url.URL) = _
    rw [hport]
    rfl
  exact ⟨hurl', by rw [hurl', url.String_written _ _ _ _ _ hw, hs]⟩

/-- Witness of C9 as amended: a path that carries a query string. -/
theorem NewRequest_target_witness :
    (sampleClient ⟨200, Body.empty⟩).NewRequest url.Parse (some ⟨0⟩) "GET"
        "/generations/gen-123?limit=10" (none : Option MotionRequest) = Except.ok sampleBuilt
      ∧ sampleBuilt.URL.String
        = url.bytes ((sampleClient ⟨200, Body.empty⟩).BaseURL ++ "/generations/gen-123?limit=10") :=
  ⟨rfl, ((NewRequest_target (sampleClient ⟨200, Body.empty⟩) (some ⟨0⟩) "GET"
    "/generations/gen-123?limit=10" (none : Option MotionRequest) sampleBuilt rfl).2
    (url.bytes "https") (url.bytes "cloud.leonardo.ai") []
    (url.bytes "/api/rest/v1/generations/gen-123") (url.bytes "?limit=10")
    (by decide) (by decide)).2⟩

/-- C10: a request returned by `Client.NewRequest` has exactly one value under the header
key `Authorization`, the string `"Bearer " ++ c.APIKey`, with or without a body. -/
theorem NewRequest_authorization {β : Type} [Marshaler β] (urlParse : String → Except GoError url.URL)
    (c : Client) (ctx : Option http.Context) (method path : String) (body : Option β)
    (req : http.Request)
    (h : c.NewRequest urlParse ctx method path body = Except.ok req) :
    req.Header.Values "Authorization" = ["Bearer " ++ c.APIKey] := by
  obtain ⟨r₀, _, hhdr, hreq⟩ := NewRequest_shape urlParse c ctx method path body req h
  rw [hreq]
  split
  · simp [http.Header.Values, http.Header.Set, hhdr, List.find?, canonical_keys_ne,
      Ne.symm canonical_keys_ne]
  · simp [http.Header.Values, http.Header.Set, hhdr, List.find?]

/-- Witness of C10: a request with a body. -/
theorem NewRequest_authorization_witness :
    (sampleClient ⟨200, Body.empty⟩).NewRequest url.Parse (some ⟨0⟩) "POST"
        "/generations-motion-svd" (some ({} : MotionRequest)) = Except.ok sampleBuiltPost
      ∧ sampleBuiltPost.Header.Values "Authorization"
        = ["Bearer " ++ (sampleClient ⟨200, Body.empty⟩).APIKey] :=
  ⟨rfl, NewRequest_authorization url.Parse (sampleClient ⟨200, Body.empty⟩) (some ⟨0⟩)
    "POST" "/generations-motion-svd" (some ({} : MotionRequest)) sampleBuiltPost rfl⟩

/-- C4: decoding an error body reads the code from the key `code` and the message from the
key `error`: for all `c` and `m` the object with `code` being `c` and `error` being `m`
decodes without error to `Code = c` and `Message = m`, while the same text under the key
`message` is skipped and leaves `Message` empty. -/
theorem APIErrorResponse_wire_keys (c m : String) :
    Decode (Body.value (JSON.obj [("code", JSON.str c), ("error", JSON.str m)]))
        APIErrorResponse.zero = (⟨c, m, ""⟩, none)
      ∧ Decode (Body.value (JSON.obj [("code", JSON.str c), ("message", JSON.str m)]))
        APIErrorResponse.zero = (⟨c, "", ""⟩, none) := by
  have hcode : findField APIErrorResponse.fields "code"
      = some (Field.lens "code" (fun v => v.Code) (fun v x => { v with Code := x })
          unmarshalString) := by
    simp [findField, APIErrorResponse.fields, List.find?, Field.lens]
  have herror : findField APIErrorResponse.fields "error"
      = some (Field.lens "error" (fun v => v.Message) (fun v x => { v with Message := x })
          unmarshalString) := by
    simp [findField, APIErrorResponse.fields, List.find?, Field.lens]
  have hmessage : findField APIErrorResponse.fields "message" = none := by
    rfl
  constructor
  · simp [Decode, Unmarshaler.unmarshal, unmarshalStruct, objectInto, hcode, herror,
      Field.lens, unmarshalString, firstError, APIErrorResponse.zero]
  · simp [Decode, Unmarshaler.unmarshal, unmarshalStruct, objectInto, hcode, hmessage,
      Field.lens, unmarshalString, firstError, APIErrorResponse.zero]

/-- C2, the code at the input of `TestCreateSVDMotionGenerationError`: for status 400 and
the mock server's error body, `CreateSVDMotionGeneration` returns a nil result and an
error whose message puts the code of the body, not the status, after `API Error`, so the
message does not end with the text the test expects; likewise `Client.Do` at the input of
`TestGetImageGeneration` (status 404). -/
theorem CreateSVDMotionGeneration_error_names_code :
    (MotionService.CreateSVDMotionGeneration url.Parse
        ⟨sampleClient ⟨400, badRequestBody⟩⟩ (some ⟨0⟩) {}).2.map GoError.Error
      = some "creating SVD motion generation failed: API Error bad-request: Bad Request: Invalid parameters."
      ∧ HasSuffix
          "creating SVD motion generation failed: API Error bad-request: Bad Request: Invalid parameters."
          "API Error 400: Bad Request: Invalid parameters." = false
      ∧ ((sampleClient ⟨404, notFoundBody⟩).Do sampleRequest
            (some CreateGenerationResponse.zero)).err.map GoError.Error
        = some "API Error not-found: Generation not found."
      ∧ HasSuffix "getting image generation failed: API Error not-found: Generation not found."
          "API Error 404: Generation not found." = false := by
  refine ⟨by rfl, by decide, by rfl, by decide⟩

/-- The field of the generation job a key is stored in. -/
theorem findField_job (key : String) :
    findField SDGenerationJob.fields key
      = if foldName key = foldName "apiCreditCost" then
          some (Field.lens "apiCreditCost" (fun v => v.APICreditCost)
            (fun v x => { v with APICreditCost := x }) (unmarshalPtr 0 unmarshalInt))
        else if foldName key = foldName "generationId" then
          some (Field.lens "generationId" (fun v => v.GenerationID)
            (fun v x => { v with GenerationID := x }) (unmarshalPtr "" unmarshalString))
        else none := by
  by_cases h1 : key = "apiCreditCost"
  · subst h1; rfl
  · by_cases h2 : key = "generationId"
    · subst h2; rfl
    · have h1' : ¬ "apiCreditCost" = key := fun h => h1 h.symm
      have h2' : ¬ "generationId" = key := fun h => h2 h.symm
      simp only [findField, SDGenerationJob.fields, List.find?, Field.lens, h1', h2',
        decide_False]
      by_cases h3 : foldName key = foldName "apiCreditCost"
      · simp [h3]
      · have h3' : ¬ foldName "apiCreditCost" = foldName key := fun h => h3 h.symm
        by_cases h4 : foldName key = foldName "generationId"
        · have hne : ¬ foldName "apiCreditCost" = foldName "generationId" := by decide
          have hne' : ¬ foldName "generationId" = foldName "apiCreditCost" := by decide
          simp [h4, hne, hne']
        · have h4' : ¬ foldName "generationId" = foldName key := fun h => h4 h.symm
          simp [h3, h3', h4, h4']

/-- The values for a field, member by member. -/
theorem membersFor_cons (name key : String) (j : JSON) (rest : List (String × JSON)) :
    membersFor name ((key, j) :: rest)
      = if foldName key = foldName name then j :: membersFor name rest
        else membersFor name rest := by
  unfold membersFor
  by_cases h : foldName key = foldName name <;> simp [List.filter_cons, h]

/-- Decoding an object whose values fit into the generation job: no error, and each field
is what the values for it make of it in turn. -/
theorem objectInto_job (inner : List (String × JSON)) :
    ∀ v : SDGenerationJob,
      (∀ y ∈ membersFor "apiCreditCost" inner,
        y = JSON.null ∨ ∃ lit n, y = JSON.num lit ∧ parseInt64 lit = some n) →
      (∀ y ∈ membersFor "generationId" inner, y = JSON.null ∨ ∃ s, y = JSON.str s) →
      objectInto "" SDGenerationJob.fields inner v
        = (⟨(membersFor "apiCreditCost" inner).foldl (fun _ y => y.asIntPtr) v.APICreditCost,
            (membersFor "generationId" inner).foldl (fun _ y => y.asStringPtr) v.GenerationID⟩,
           none) := by
  induction inner with
  | nil => intro v _ _; rfl
  | cons kv rest ih =>
    obtain ⟨key, j⟩ := kv
    intro v hint hstr
    have hne : ¬ foldName "apiCreditCost" = foldName "generationId" := by decide
    rw [membersFor_cons] at hint hstr
    rw [membersFor_cons, membersFor_cons, objectInto, findField_job]
    by_cases h1 : foldName key = foldName "apiCreditCost"
    · have h2 : ¬ foldName key = foldName "generationId" := fun h => hne (h1.symm.trans h)
      rw [if_pos h1] at hint
      rw [if_neg h2] at hstr
      rw [if_pos h1, if_neg h2, if_pos h1]
      have hj := hint j (List.mem_cons_self _ _)
      simp only []
      rw [ih _ (fun y hy => hint y (List.mem_cons_of_mem _ hy)) hstr]
      rcases hj with hj | ⟨lit, n, hj, hn⟩
      · subst hj
        simp [Field.lens, unmarshalPtr, firstError, JSON.asIntPtr]
      · subst hj
        simp [Field.lens, unmarshalPtr, unmarshalInt, hn, firstError, JSON.asIntPtr]
    · by_cases h2 : foldName key = foldName "generationId"
      · rw [if_neg h1] at hint
        rw [if_pos h2] at hstr
        rw [if_neg h1, if_pos h2, if_neg h1, if_pos h2]
        have hj := hstr j (List.mem_cons_self _ _)
        simp only []
        rw [ih _ hint (fun y hy => hstr y (List.mem_cons_of_mem _ hy))]
        rcases hj with hj | ⟨t, hj⟩
        · subst hj
          simp [Field.lens, unmarshalPtr, firstError, JSON.asStringPtr]
        · subst hj
          simp [Field.lens, unmarshalPtr, unmarshalString, firstError, JSON.asStringPtr]
      · rw [if_neg h1] at hint
        rw [if_neg h2] at hstr
        rw [if_neg h1, if_neg h2, if_neg h1, if_neg h2]
        exact ih v hint hstr

/-- The field of `CreateGenerationResponse` a key is stored in. -/
theorem findField_response (key : String) :
    findField CreateGenerationResponse.fields key
      = if foldName key = foldName "sdGenerationJob" then
          some (Field.lens "sdGenerationJob" (fun v => v.SDGenerationJob)
            (fun v x => { v with SDGenerationJob := x })
            (unmarshalStruct "" SDGenerationJob.goType SDGenerationJob.fields))
        else none := by
  by_cases h1 : key = "sdGenerationJob"
  · subst h1; rfl
  · have h1' : ¬ "sdGenerationJob" = key := fun h => h1 h.symm
    simp only [findField, CreateGenerationResponse.fields, List.find?, Field.lens, h1',
      decide_False]
    by_cases h3 : foldName key = foldName "sdGenerationJob"
    · simp [h3]
    · have h3' : ¬ foldName "sdGenerationJob" = foldName key := fun h => h3 h.symm
      simp [h3, h3']

/-- The values for a field of the generation job, member by member. -/
theorem jobValues_cons (field key : String) (j : JSON) (rest : List (String × JSON)) :
    jobValues field ((key, j) :: rest)
      = if foldName key = foldName "sdGenerationJob" then
          (match j with
            | JSON.obj inner => membersFor field inner
            | _ => []) ++ jobValues field rest
        else jobValues field rest := by
  unfold jobValues
  rw [membersFor_cons]
  by_cases h : foldName key = foldName "sdGenerationJob"
  · rw [if_pos h, if_pos h]
    cases j <;> rfl
  · rw [if_neg h, if_neg h]

/-- Decoding an object that matches the shape of `CreateGenerationResponse`: no error, and
each field of the job is what the body's values for it make of it in turn. -/
theorem objectInto_response (members : List (String × JSON)) :
    ∀ v : CreateGenerationResponse,
      (∀ x ∈ membersFor "sdGenerationJob" members, ∃ inner, x = JSON.obj inner) →
      (∀ y ∈ jobValues "apiCreditCost" members,
        y = JSON.null ∨ ∃ lit n, y = JSON.num lit ∧ parseInt64 lit = some n) →
      (∀ y ∈ jobValues "generationId" members, y = JSON.null ∨ ∃ s, y = JSON.str s) →
      objectInto "CreateGenerationResponse" CreateGenerationResponse.fields members v
        = (⟨⟨(jobValues "apiCreditCost" members).foldl (fun _ y => y.asIntPtr)
              v.SDGenerationJob.APICreditCost,
            (jobValues "generationId" members).foldl (fun _ y => y.asStringPtr)
              v.SDGenerationJob.GenerationID⟩⟩, none) := by
  induction members with
  | nil => intro v _ _ _; rfl
  | cons kv rest ih =>
    obtain ⟨key, j⟩ := kv
    intro v hobj hint hstr
    rw [membersFor_cons] at hobj
    rw [jobValues_cons] at hint hstr
    rw [jobValues_cons, jobValues_cons, objectInto, findField_response]
    by_cases h1 : foldName key = foldName "sdGenerationJob"
    · rw [if_pos h1] at hobj hint hstr
      rw [if_pos h1, if_pos h1, if_pos h1]
      obtain ⟨inner, hj⟩ := hobj j (List.mem_cons_self _ _)
      subst hj
      simp only [] at hint hstr ⊢
      rw [ih _ (fun x hx => hobj x (List.mem_cons_of_mem _ hx))
        (fun y hy => hint y (List.mem_append_right _ hy))
        (fun y hy => hstr y (List.mem_append_right _ hy))]
      simp [Field.lens, unmarshalStruct, firstError, List.foldl_append,
        objectInto_job inner v.SDGenerationJob
          (fun y hy => hint y (List.mem_append_left _ hy))
          (fun y hy => hstr y (List.mem_append_left _ hy))]
    · rw [if_neg h1] at hobj hint hstr
      rw [if_neg h1, if_neg h1, if_neg h1]
      exact ih v hobj hint hstr

/-- Taking in turn what each value stands for ends with what the last value stands for. -/
theorem foldl_read_eq_fieldAfter {τ : Type} (read : JSON → Option τ) (values : List JSON) :
    ∀ before : Option τ,
      values.foldl (fun _ y => read y) before = fieldAfter read values before := by
  induction values with
  | nil => intro before; rfl
  | cons y rest ih =>
    intro before
    rw [List.foldl_cons, ih]
    unfold fieldAfter
    rw [List.getLast?_cons]
    cases rest.getLast? <;> rfl

/-- A key that names a field is stored in that field, when no two fields have the same
name after folding. -/
theorem findField_named {σ : Type} (fields : List (Field σ))
    (hnodup : (fields.map (fun f => foldName f.name)).Nodup) (F : Field σ) (hF : F ∈ fields)
    (key : String) (hkey : foldName key = foldName F.name) : findField fields key = some F := by
  have hinj := List.inj_on_of_nodup_map hnodup
  unfold findField
  cases h1 : fields.find? (fun f => f.name = key) with
  | some f =>
    have hf : f.name = key := by simpa using List.find?_some h1
    have hmem : f ∈ fields := List.mem_of_find?_eq_some h1
    have : f = F := hinj hmem hF (by rw [hf, hkey])
    rw [this]
  | none =>
    simp only []
    cases h2 : fields.find? (fun f => foldName f.name = foldName key) with
    | some f =>
      have hf : foldName f.name = foldName key := by simpa using List.find?_some h2
      have hmem : f ∈ fields := List.mem_of_find?_eq_some h2
      have : f = F := hinj hmem hF (by rw [hf, hkey])
      rw [this]
    | none =>
      exfalso
      have := List.find?_eq_none.mp h2 F hF
      simp [hkey] at this

/-- The field a key is stored in is one of the fields, named by the key. -/
theorem findField_some {σ : Type} (fields : List (Field σ)) (key : String) (g : Field σ)
    (h : findField fields key = some g) : g ∈ fields ∧ foldName g.name = foldName key := by
  unfold findField at h
  cases h1 : fields.find? (fun f => f.name = key) with
  | some f =>
    rw [h1] at h
    simp only [Option.some.injEq] at h
    subst h
    have hf : f.name = key := by simpa using List.find?_some h1
    exact ⟨List.mem_of_find?_eq_some h1, by rw [hf]⟩
  | none =>
    rw [h1] at h
    simp only [] at h
    have hf : foldName g.name = foldName key := by simpa using List.find?_some h
    exact ⟨List.mem_of_find?_eq_some h, hf⟩

/-- Decoding the members of an object into a struct: a field whose getter reads what its
setter stored, and which the decoders of the other fields leave alone, ends as what the
values for it make of it in turn. -/
theorem objectInto_field {σ τ : Type} (struct : String) (fields : List (Field σ))
    (hnodup : (fields.map (fun f => foldName f.name)).Nodup)
    (name : String) (get : σ → τ) (set : σ → τ → σ) (elem : JSON → τ → Decoded τ)
    (hF : Field.lens name get set elem ∈ fields)
    (hget : ∀ v x, get (set v x) = x)
    (hframe : ∀ g ∈ fields, foldName g.name ≠ foldName name →
      ∀ j v, get (g.decode j v).1 = get v)
    (members : List (String × JSON)) :
    ∀ v, get (objectInto struct fields members v).1
      = (membersFor name members).foldl (fun cur y => (elem y cur).1) (get v) := by
  induction members with
  | nil => intro v; rfl
  | cons kv rest ih =>
    obtain ⟨key, j⟩ := kv
    intro v
    rw [membersFor_cons, objectInto]
    by_cases hk : foldName key = foldName name
    · rw [findField_named fields hnodup _ hF key hk, if_pos hk]
      simp only [List.foldl_cons]
      rw [ih]
      simp only [Field.lens, hget]
    · rw [if_neg hk]
      cases hg : findField fields key with
      | none => exact ih v
      | some g =>
        obtain ⟨hmem, hname⟩ := findField_some fields key g hg
        simp only []
        rw [ih, hframe g hmem (by rw [hname]; exact hk)]

/-- Decoding the members of an object into a struct gives no error when every value fits
the field it is stored in. -/
theorem objectInto_fits {σ : Type} (struct : String) (fields : List (Field σ))
    (members : List (String × JSON))
    (hfit : ∀ key j f, (key, j) ∈ members → findField fields key = some f →
      ∀ v, (f.decode j v).2 = none) :
    ∀ v, (objectInto struct fields members v).2 = none := by
  induction members with
  | nil => intro v; rfl
  | cons kv rest ih =>
    obtain ⟨key, j⟩ := kv
    intro v
    have ih' := ih (fun key j f hm hf => hfit key j f (List.mem_cons_of_mem _ hm) hf)
    rw [objectInto]
    cases hg : findField fields key with
    | none => exact ih' v
    | some g =>
      simp only []
      rw [hfit key j g (List.mem_cons_self _ _) hg v, ih']
      rfl

/-- The last of the values that say something says what they make of the field in turn. -/
theorem fieldSays_of_fieldAfter {τ : Type} (read : JSON → Option τ)
    (meaning : JSON → Option τ → Prop) (values : List JSON) (before : Option τ)
    (h : ∀ y ∈ values, ∃ x, meaning y x) (hread : ∀ y x, meaning y x → read y = x) :
    fieldSays meaning values before (fieldAfter read values before) := by
  unfold fieldSays fieldAfter
  cases hl : values.getLast? with
  | none => rfl
  | some y =>
    obtain ⟨x, hx⟩ := h y (List.mem_of_getLast?_eq_some hl)
    simp only []
    rw [hread y x hx]
    exact hx

/-- What a value says for a `*int` is what the decoder stores for it. -/
theorem asIntPtr_of_says (y : JSON) (x : Option Int) (h : y.saysIntPtr x) : y.asIntPtr = x := by
  rcases h with ⟨hy, hx⟩ | ⟨n, hlo, hhi, hy, hx⟩
  · subst hy; subst hx; rfl
  · subst hy; subst hx
    exact parseInt64_fmtInt n hlo hhi

/-- What a value says for a `*string` is what the decoder stores for it. -/
theorem asStringPtr_of_says (y : JSON) (x : Option String) (h : y.saysStringPtr x) :
    y.asStringPtr = x := by
  rcases h with ⟨hy, hx⟩ | ⟨s, hy, hx⟩
  · subst hy; subst hx; rfl
  · subst hy; subst hx; rfl

/-- C6: for a status in [200,300) and a body that is a JSON object matching the shape of
the destination, `Client.Do` returns nil and the destination then holds the decoded
fields.  First, for any struct destination whose field names differ after folding and
whose values all fit their fields: each field ends as what the body's values for it make
of it in turn, and a field the body gives no value for is unchanged.  Second, the decoders
of the field types: a string stores that string, the decimal writing of an integer that
fits in 64 bits stores that integer, `null` stores nil in a pointer and any other value
stores a pointer to what the value is decoded to.  Third, for `CreateGenerationResponse`:
each field of the job holds what the last value for it says (nil for `null`, a pointer to
the string or to the written integer otherwise), and what it held before when the body
gives no value for it, which is nil for a fresh destination. -/
theorem Do_decodes_matching_body (c : Client) (req : http.Request) (resp : http.Response)
    (members : List (String × JSON))
    (hresp : c.HTTPClient.Do req = Except.ok resp)
    (hlo : 200 ≤ resp.StatusCode) (hhi : resp.StatusCode < 300)
    (hbody : resp.Body = Body.value (JSON.obj members)) :
    (∀ (σ : Type) [Unmarshaler σ] (v₀ : σ) (struct type : String) (fields : List (Field σ)),
        (∀ j (v : σ), Unmarshaler.unmarshal j v = unmarshalStruct struct type fields j v) →
        (fields.map (fun f => foldName f.name)).Nodup →
        (∀ key j f, (key, j) ∈ members → findField fields key = some f →
          ∀ v, (f.decode j v).2 = none) →
        (c.Do req (some v₀)).err = none
          ∧ ∃ d, (c.Do req (some v₀)).v = some d
            ∧ ∀ (τ : Type) (name : String) (get : σ → τ) (set : σ → τ → σ)
                (elem : JSON → τ → Decoded τ),
                Field.lens name get set elem ∈ fields →
                (∀ v x, get (set v x) = x) →
                (∀ g ∈ fields, foldName g.name ≠ foldName name →
                  ∀ j v, get (g.decode j v).1 = get v) →
                get d = (membersFor name members).foldl (fun cur y => (elem y cur).1) (get v₀)
                  ∧ (membersFor name members = [] → get d = get v₀))
      ∧ ((∀ s cur, unmarshalString (JSON.str s) cur = (s, none))
          ∧ (∀ (n cur : Int), -9223372036854775808 ≤ n → n ≤ 9223372036854775807 →
              unmarshalInt (JSON.num (fmtInt n)) cur = (n, none))
          ∧ (∀ (τ : Type) (zero : τ) (elem : JSON → τ → Decoded τ) (p : Option τ),
              unmarshalPtr zero elem JSON.null p = (none, none)
                ∧ ∀ y, y ≠ JSON.null →
                    unmarshalPtr zero elem y p
                      = (some (elem y (p.getD zero)).1, (elem y (p.getD zero)).2)))
      ∧ (∀ v₀ : CreateGenerationResponse, MatchesCreateGenerationResponse members →
          ∃ d : CreateGenerationResponse,
            (c.Do req (some v₀)).err = none ∧ (c.Do req (some v₀)).v = some d
              ∧ fieldSays JSON.saysStringPtr (jobValues "generationId" members)
                  v₀.SDGenerationJob.GenerationID d.SDGenerationJob.GenerationID
              ∧ fieldSays JSON.saysIntPtr (jobValues "apiCreditCost" members)
                  v₀.SDGenerationJob.APICreditCost d.SDGenerationJob.APICreditCost) := by
  have hstatus : ¬ (resp.StatusCode < 200 ∨ resp.StatusCode ≥ 300) := by omega
  refine ⟨?_, ⟨?_, ?_, ?_⟩, ?_⟩
  · intro σ _ v₀ struct type fields hσ hnodup hfit
    have hdec : Decode resp.Body v₀ = objectInto struct fields members v₀ := by
      rw [hbody]
      exact hσ _ _
    refine ⟨?_, (Decode resp.Body v₀).1, ?_, ?_⟩
    · simp only [Client.Do, hresp, if_neg hstatus]
      rw [hdec]
      exact objectInto_fits struct fields members hfit v₀
    · simp only [Client.Do, hresp, if_neg hstatus]
    · intro τ name get set elem hF hget hframe
      have hfield := objectInto_field struct fields hnodup name get set elem hF hget hframe
        members v₀
      rw [hdec]
      refine ⟨hfield, ?_⟩
      intro hnone
      rw [hfield, hnone]
      rfl
  · intro s cur; rfl
  · intro n cur hlo hhi
    simp only [unmarshalInt, parseInt64_fmtInt n hlo hhi]
  · intro τ zero elem p
    refine ⟨rfl, ?_⟩
    intro y hy
    cases y <;> first | exact absurd rfl hy | rfl
  · intro v₀ hshape
    have hint : ∀ y ∈ jobValues "apiCreditCost" members,
        y = JSON.null ∨ ∃ lit n, y = JSON.num lit ∧ parseInt64 lit = some n := by
      intro y hy
      obtain ⟨x, hx⟩ := hshape.2.1 y hy
      rcases hx with ⟨hy, _⟩ | ⟨n, hlo, hhi, hy, _⟩
      · exact Or.inl hy
      · exact Or.inr ⟨_, n, hy, parseInt64_fmtInt n hlo hhi⟩
    have hstr : ∀ y ∈ jobValues "generationId" members, y = JSON.null ∨ ∃ s, y = JSON.str s := by
      intro y hy
      obtain ⟨x, hx⟩ := hshape.2.2 y hy
      rcases hx with ⟨hy, _⟩ | ⟨s, hy, _⟩
      · exact Or.inl hy
      · exact Or.inr ⟨s, hy⟩
    have hdec : Decode resp.Body v₀
        = (⟨⟨fieldAfter JSON.asIntPtr (jobValues "apiCreditCost" members)
                v₀.SDGenerationJob.APICreditCost,
              fieldAfter JSON.asStringPtr (jobValues "generationId" members)
                v₀.SDGenerationJob.GenerationID⟩⟩, none) := by
      rw [hbody, ← foldl_read_eq_fieldAfter, ← foldl_read_eq_fieldAfter]
      exact objectInto_response members v₀ hshape.1 hint hstr
    refine ⟨(Decode resp.Body v₀).1, ?_, ?_, ?_, ?_⟩
    · simp only [Client.Do, hresp, if_neg hstatus, hdec]
    · simp only [Client.Do, hresp, if_neg hstatus, hdec]
    · rw [hdec]
      exact fieldSays_of_fieldAfter _ _ _ _ hshape.2.2 asStringPtr_of_says
    · rw [hdec]
      exact fieldSays_of_fieldAfter _ _ _ _ hshape.2.1 asIntPtr_of_says

/-- The body of the mock server of `TestCreateImageGeneration` matches the shape of
`CreateGenerationResponse`. -/
theorem generationMembersFull_matches :
    MatchesCreateGenerationResponse generationMembersFull := by
  refine ⟨?_, ?_, ?_⟩
  · intro x hx
    have hx' : x ∈ [JSON.obj [("apiCreditCost", JSON.num "2"),
        ("generationId", JSON.str "gen-123")]] := hx
    exact ⟨_, List.mem_singleton.mp hx'⟩
  · intro y hy
    have hy' : y ∈ [JSON.num "2"] := hy
    exact ⟨some 2, Or.inr ⟨2, by decide, by decide, List.mem_singleton.mp hy', rfl⟩⟩
  · intro y hy
    have hy' : y ∈ [JSON.str "gen-123"] := hy
    exact ⟨some "gen-123", Or.inr ⟨_, List.mem_singleton.mp hy', rfl⟩⟩

/-- The sample body with only `generationId` under `sdGenerationJob` matches the shape of
`CreateGenerationResponse`. -/
theorem generationMembers_matches : MatchesCreateGenerationResponse generationMembers := by
  refine ⟨?_, ?_, ?_⟩
  · intro x hx
    have hx' : x ∈ [JSON.obj [("generationId", JSON.str "gen-123")]] := hx
    exact ⟨_, List.mem_singleton.mp hx'⟩
  · intro y hy
    have hy' : y ∈ ([] : List JSON) := hy
    cases hy'
  · intro y hy
    have hy' : y ∈ [JSON.str "gen-123"] := hy
    exact ⟨some "gen-123", Or.inr ⟨_, List.mem_singleton.mp hy', rfl⟩⟩

/-- Witness of C6: status 200 and the body of the mock server of
`TestCreateImageGeneration`, decoded into a fresh destination, give `APICreditCost`
pointing to 2 and `GenerationID` pointing to `gen-123`, as the test expects; the body with
only `generationId` under `sdGenerationJob` gives `GenerationID` pointing to `gen-123` and
`APICreditCost` nil; and the part for any struct destination, taken at
`CreateGenerationResponse` and its field `sdGenerationJob`. -/
theorem Do_decodes_matching_body_witness :
    (MatchesCreateGenerationResponse generationMembersFull
      ∧ ∃ d : CreateGenerationResponse,
        ((sampleClient ⟨200, Body.value (JSON.obj generationMembersFull)⟩).Do sampleRequest
            (some CreateGenerationResponse.zero)).err = none
          ∧ ((sampleClient ⟨200, Body.value (JSON.obj generationMembersFull)⟩).Do sampleRequest
            (some CreateGenerationResponse.zero)).v = some d
          ∧ fieldSays JSON.saysStringPtr (jobValues "generationId" generationMembersFull)
              none d.SDGenerationJob.GenerationID
          ∧ fieldSays JSON.saysIntPtr (jobValues "apiCreditCost" generationMembersFull)
              none d.SDGenerationJob.APICreditCost
          ∧ d = ⟨⟨some 2, some "gen-123"⟩⟩)
      ∧ (MatchesCreateGenerationResponse generationMembers
        ∧ ∃ d : CreateGenerationResponse,
          ((sampleClient ⟨200, Body.value (JSON.obj generationMembers)⟩).Do sampleRequest
              (some CreateGenerationResponse.zero)).err = none
            ∧ ((sampleClient ⟨200, Body.value (JSON.obj generationMembers)⟩).Do sampleRequest
              (some CreateGenerationResponse.zero)).v = some d
            ∧ d = ⟨⟨none, some "gen-123"⟩⟩)
      ∧ (((sampleClient ⟨200, Body.value (JSON.obj generationMembersFull)⟩).Do sampleRequest
            (some CreateGenerationResponse.zero)).err = none
        ∧ ∃ d : CreateGenerationResponse,
          ((sampleClient ⟨200, Body.value (JSON.obj generationMembersFull)⟩).Do sampleRequest
              (some CreateGenerationResponse.zero)).v = some d
            ∧ d.SDGenerationJob
              = (membersFor "sdGenerationJob" generationMembersFull).foldl
                  (fun cur y =>
                    (unmarshalStruct "" SDGenerationJob.goType SDGenerationJob.fields y cur).1)
                  CreateGenerationResponse.zero.SDGenerationJob) := by
  refine ⟨?_, ?_, ?_⟩
  rotate_left 2
  · obtain ⟨herr, d, hv, hfields⟩ :=
      (Do_decodes_matching_body
        (sampleClient ⟨200, Body.value (JSON.obj generationMembersFull)⟩)
        sampleRequest ⟨200, Body.value (JSON.obj generationMembersFull)⟩
        generationMembersFull rfl (by decide) (by decide) rfl).1
        CreateGenerationResponse CreateGenerationResponse.zero "CreateGenerationResponse"
        "leonardo.CreateGenerationResponse" CreateGenerationResponse.fields
        (fun _ _ => rfl) (by decide)
        (by
          intro key j f hm hf v
          have hm' : (key, j) = ("sdGenerationJob",
              JSON.obj [("apiCreditCost", JSON.num "2"), ("generationId", JSON.str "gen-123")]) :=
            List.mem_singleton.mp hm
          cases hm'
          cases hf
          rfl)
    refine ⟨herr, d, hv, ?_⟩
    exact (hfields _ "sdGenerationJob" (fun v => v.SDGenerationJob)
      (fun v x => { v with SDGenerationJob := x })
      (unmarshalStruct "" SDGenerationJob.goType SDGenerationJob.fields)
      (List.mem_singleton.mpr rfl) (fun _ _ => rfl)
      (by
        intro g hg hne
        have hg' : g = Field.lens "sdGenerationJob" (fun v => v.SDGenerationJob)
            (fun v x => { v with SDGenerationJob := x })
            (unmarshalStruct "" SDGenerationJob.goType SDGenerationJob.fields) :=
          List.mem_singleton.mp hg
        subst hg'
        exact absurd rfl hne)).1
  · obtain ⟨d, herr, hv, hs, hi⟩ :=
      (Do_decodes_matching_body
        (sampleClient ⟨200, Body.value (JSON.obj generationMembersFull)⟩)
        sampleRequest ⟨200, Body.value (JSON.obj generationMembersFull)⟩
        generationMembersFull rfl (by decide) (by decide) rfl).2.2
        CreateGenerationResponse.zero generationMembersFull_matches
    refine ⟨generationMembersFull_matches, d, herr, hv, hs, hi, ?_⟩
    have h2 : ((sampleClient ⟨200, Body.value (JSON.obj generationMembersFull)⟩).Do
        sampleRequest (some CreateGenerationResponse.zero)).v
          = some ⟨⟨some 2, some "gen-123"⟩⟩ := by
      decide
    rw [h2] at hv
    exact (Option.some.inj hv).symm
  · obtain ⟨d, herr, hv, _, _⟩ :=
      (Do_decodes_matching_body (sampleClient ⟨200, Body.value (JSON.obj generationMembers)⟩)
        sampleRequest ⟨200, Body.value (JSON.obj generationMembers)⟩
        generationMembers rfl (by decide) (by decide) rfl).2.2
        CreateGenerationResponse.zero generationMembers_matches
    refine ⟨generationMembers_matches, d, herr, hv, ?_⟩
    have h2 : ((sampleClient ⟨200, Body.value (JSON.obj generationMembers)⟩).Do
        sampleRequest (some CreateGenerationResponse.zero)).v
          = some ⟨⟨none, some "gen-123"⟩⟩ := by
      decide
    rw [h2] at hv
    exact (Option.some.inj hv).symm

/-- The body of a request returned by `Client.NewRequest`: none without a payload, and the
serialisation of the payload otherwise. -/
theorem NewRequest_body {β : Type} [Marshaler β] (urlParse : String → Except GoError url.URL)
    (c : Client) (ctx : Option http.Context) (method path : String) (body : Option β)
    (req : http.Request)
    (h : c.NewRequest urlParse ctx method path body = Except.ok req) :
    (body = none → req.Body = none)
      ∧ (∀ b, body = some b → ∃ j, Marshaler.marshal b = Except.ok j ∧ req.Body = some j) := by
  unfold Client.NewRequest at h
  simp only at h
  split at h
  · cases h
  · next buf hbuf =>
    split at h
    · cases h
    · next r hr =>
      have hr₀ := (NewRequestWithContext_ok urlParse ctx method _ _ r hr).2.2
      have hreq : req.Body = buf := by
        cases h
        split <;> exact hr₀
      constructor
      · intro hnone
        subst hnone
        simp only at hbuf
        cases hbuf
        exact hreq
      · intro b hb
        subst hb
        simp only at hbuf
        split at hbuf
        · cases hbuf
        · next j hj =>
          cases hbuf
          exact ⟨j, hj, hreq⟩

/-- C11: a request returned by `Client.NewRequest` has a `Content-Type` header exactly
when a payload was supplied, and then its single value is `application/json`; without a
payload the request has no `Content-Type` value and no body, and with a payload its body
is the JSON serialisation of that payload. -/
theorem NewRequest_content_type {β : Type} [Marshaler β] (urlParse : String → Except GoError url.URL)
    (c : Client) (ctx : Option http.Context) (method path : String) (body : Option β)
    (req : http.Request)
    (h : c.NewRequest urlParse ctx method path body = Except.ok req) :
    (req.Header.Has "Content-Type" = true ↔ body ≠ none)
      ∧ (body ≠ none → req.Header.Values "Content-Type" = ["application/json"])
      ∧ (body = none → req.Header.Values "Content-Type" = [] ∧ req.Body = none)
      ∧ (∀ b, body = some b → ∃ j, Marshaler.marshal b = Except.ok j ∧ req.Body = some j) := by
  obtain ⟨r₀, _, hhdr, hreq⟩ := NewRequest_shape urlParse c ctx method path body req h
  obtain ⟨hnobody, hbody⟩ := NewRequest_body urlParse c ctx method path body req h
  cases body with
  | none =>
    have hreq' : req = { r₀ with Header := r₀.Header.Set "Authorization" ("Bearer " ++ c.APIKey) } := by
      simpa using hreq
    have hval : req.Header.Values "Content-Type" = [] := by
      rw [hreq']
      simp [http.Header.Values, http.Header.Set, hhdr, List.find?, canonical_keys_ne]
    have hhas : req.Header.Has "Content-Type" = false := by
      rw [hreq']
      simp [http.Header.Has, http.Header.Set, hhdr, canonical_keys_ne]
    refine ⟨?_, ?_, ?_, hbody⟩
    · simp [hhas]
    · intro hne; exact absurd rfl hne
    · intro _; exact ⟨hval, hnobody rfl⟩
  | some b =>
    have hreq' : req = { r₀ with Header := ((r₀.Header.Set "Authorization"
        ("Bearer " ++ c.APIKey)).Set "Content-Type" "application/json") } := by
      simpa using hreq
    have hval : req.Header.Values "Content-Type" = ["application/json"] := by
      rw [hreq']
      simp [http.Header.Values, http.Header.Set, hhdr, List.find?]
    have hhas : req.Header.Has "Content-Type" = true := by
      rw [hreq']
      simp [http.Header.Has, http.Header.Set, hhdr]
    refine ⟨?_, ?_, ?_, hbody⟩
    · simp [hhas]
    · intro _; exact hval
    · intro hnone; cases hnone

/-- Witness of C11: the request of `GenerateRandomPrompt`, a `POST` without payload, has no
`Content-Type` value and no body. -/
theorem NewRequest_content_type_witness :
    (sampleClient ⟨200, Body.empty⟩).NewRequest url.Parse (some ⟨0⟩) "POST"
        "/prompt/random" (none : Option NoBody) = Except.ok sampleBuiltRandomPrompt
      ∧ sampleBuiltRandomPrompt.Header.Values "Content-Type" = []
      ∧ sampleBuiltRandomPrompt.Body = none :=
  ⟨rfl, (NewRequest_content_type url.Parse (sampleClient ⟨200, Body.empty⟩) (some ⟨0⟩)
    "POST" "/prompt/random" (none : Option NoBody) sampleBuiltRandomPrompt rfl).2.2.1 rfl⟩

/-- C12: when `json.Marshal` fails on the payload, `Client.NewRequest` returns that error
and no request: the HTTP library is not asked to build one, whatever the method, the path
and the context are. -/
theorem NewRequest_marshal_failure {β : Type} [Marshaler β]
    (urlParse : String → Except GoError url.URL) (c : Client) (ctx : Option http.Context)
    (method path : String) (b : β) (err : GoError)
    (h : Marshaler.marshal b = Except.error err) :
    c.NewRequest urlParse ctx method path (some b) = Except.error err := by
  simp only [Client.NewRequest, h]

/-- Witness of C12: a pricing request whose parameters hold a channel. -/
theorem NewRequest_marshal_failure_witness :
    Marshaler.marshal unserialisableRequest
        = Except.error (GoError.library "json: unsupported type: chan int")
      ∧ (sampleClient ⟨200, Body.empty⟩).NewRequest url.Parse (some ⟨0⟩) "POST"
          "/pricing-calculator" (some unserialisableRequest)
        = Except.error (GoError.library "json: unsupported type: chan int") :=
  ⟨rfl, NewRequest_marshal_failure url.Parse (sampleClient ⟨200, Body.empty⟩) (some ⟨0⟩)
    "POST" "/pricing-calculator" unserialisableRequest
    (GoError.library "json: unsupported type: chan int") rfl⟩

set_option maxRecDepth 100000 in
/-- What escaping in a path segment does to each byte: an escaped byte is written as `%`
and two hexadecimal digits that give the byte back, a byte that is kept is not `%`; all
characters written are ASCII, and none of them is `/`, `?`, `#` or a space. -/
theorem escapeByte_facts :
    ∀ b, b < 256 →
      ((url.escapeByte url.encoding.encodePathSegment b).flatMap url.utf8
          = if url.shouldEscape b url.encoding.encodePathSegment then
              [37, (url.upperhex (b / 16)).toNat, (url.upperhex (b % 16)).toNat]
            else [b])
        ∧ (url.shouldEscape b url.encoding.encodePathSegment = true →
            url.ishex (url.upperhex (b / 16)).toNat = true
              ∧ url.ishex (url.upperhex (b % 16)).toNat = true
              ∧ url.unhex (url.upperhex (b / 16)).toNat * 16
                  + url.unhex (url.upperhex (b % 16)).toNat = b)
        ∧ (url.shouldEscape b url.encoding.encodePathSegment = false → b ≠ 37)
        ∧ (∀ c ∈ url.escapeByte url.encoding.encodePathSegment b,
            c ≠ '/' ∧ c ≠ '?' ∧ c ≠ '#' ∧ c ≠ ' ') := by
  decide

/-- The bytes of a character are bytes. -/
theorem utf8_lt (c : Char) : ∀ b ∈ url.utf8 c, b < 256 := by
  have hv : c.toNat < 1114112 := by
    have h := c.valid
    simp only [Char.toNat]
    rcases h with h | h
    · have : c.val.toNat < 55296 := h
      omega
    · have : c.val.toNat < 1114112 := h.2
      omega
  intro b hb
  unfold url.utf8 at hb
  split at hb
  · simp at hb; omega
  · split at hb
    · simp at hb; omega
    · split at hb
      · simp at hb; omega
      · simp at hb; omega

/-- The bytes of a string are bytes. -/
theorem bytes_lt (s : String) : ∀ b ∈ url.bytes s, b < 256 := by
  intro b hb
  unfold url.bytes at hb
  obtain ⟨c, _, hc⟩ := List.mem_flatMap.mp hb
  exact utf8_lt c b hc

/-- Unescaping what escaping in a path segment wrote gives the bytes back. -/
theorem unescapeBytes_escape (bs : List Nat) (h : ∀ b ∈ bs, b < 256) :
    url.unescapeBytes ((bs.flatMap (url.escapeByte url.encoding.encodePathSegment)).flatMap
      url.utf8) = some bs := by
  induction bs with
  | nil => rfl
  | cons b rest ih =>
    have hb : b < 256 := h b (List.mem_cons_self _ _)
    have ih' := ih (fun x hx => h x (List.mem_cons_of_mem _ hx))
    obtain ⟨hbytes, hesc, hkeep, _⟩ := escapeByte_facts b hb
    rw [List.flatMap_cons, List.flatMap_append, hbytes]
    cases hs : url.shouldEscape b url.encoding.encodePathSegment with
    | true =>
      obtain ⟨h1, h2, h3⟩ := hesc hs
      simp [url.unescapeBytes, h1, h2, h3, ih']
    | false =>
      have hne := hkeep hs
      rw [if_neg (by simp), List.singleton_append]
      unfold url.unescapeBytes
      simp only [if_neg hne, ih']
      rfl

/-- Escaping leaves a string of unreserved characters as it is. -/
theorem escape_unreserved (cs : List Char) (h : ∀ c ∈ cs, unreservedChar c = true) :
    (cs.flatMap url.utf8).flatMap (url.escapeByte url.encoding.encodePathSegment) = cs := by
  have hbyte : ∀ n, n < 128 →
      ((97 ≤ n ∧ n ≤ 122) ∨ (65 ≤ n ∧ n ≤ 90) ∨ (48 ≤ n ∧ n ≤ 57)
          ∨ n = 45 ∨ n = 95 ∨ n = 46 ∨ n = 126) →
      url.shouldEscape n url.encoding.encodePathSegment = false := by
    decide
  induction cs with
  | nil => rfl
  | cons c rest ih =>
    have hc := h c (List.mem_cons_self _ _)
    have hn : (97 ≤ c.toNat ∧ c.toNat ≤ 122) ∨ (65 ≤ c.toNat ∧ c.toNat ≤ 90)
        ∨ (48 ≤ c.toNat ∧ c.toNat ≤ 57) ∨ c.toNat = 45 ∨ c.toNat = 95 ∨ c.toNat = 46
        ∨ c.toNat = 126 := by
      simp only [unreservedChar, Bool.decide_or, Bool.or_eq_true, decide_eq_true_eq] at hc
      rcases hc with hc | hc | hc | hc | hc | hc | hc
      · exact Or.inl hc
      · exact Or.inr (Or.inl hc)
      · exact Or.inr (Or.inr (Or.inl hc))
      · subst hc; decide
      · subst hc; decide
      · subst hc; decide
      · subst hc; decide
    have hlt : c.toNat < 128 := by omega
    have hutf : url.utf8 c = [c.toNat] := by simp [url.utf8, hlt]
    have hkeep := hbyte c.toNat hlt hn
    rw [List.flatMap_cons, List.flatMap_append, ih (fun x hx => h x (List.mem_cons_of_mem _ hx)),
      hutf]
    simp [url.escapeByte, hkeep, Char.ofNat_toNat]

/-- Unescaping an escaped path segment gives back the bytes of the string. -/
theorem PathUnescape_PathEscape (s : String) :
    url.PathUnescape (url.PathEscape s) = some (url.bytes s) :=
  unescapeBytes_escape (url.bytes s) (bytes_lt s)

/-- An escaped path segment has no `/`, `?`, `#` or space. -/
theorem PathEscape_chars (s : String) :
    ∀ c ∈ (url.PathEscape s).data, c ≠ '/' ∧ c ≠ '?' ∧ c ≠ '#' ∧ c ≠ ' ' := by
  intro c hc
  have hc' : c ∈ (url.bytes s).flatMap (url.escapeByte url.encoding.encodePathSegment) := hc
  obtain ⟨b, hb, hcb⟩ := List.mem_flatMap.mp hc'
  exact (escapeByte_facts b (bytes_lt s b hb)).2.2.2 c hcb

/-- A string of unreserved characters is its own escaped path segment. -/
theorem PathEscape_unreserved (s : String) (h : ∀ c ∈ s.data, unreservedChar c = true) :
    url.PathEscape s = s := by
  have hd : (url.PathEscape s).data = s.data := escape_unreserved s.data h
  exact String.ext hd

/-- The call `Client.Do` hands exactly its request to the HTTP client. -/
theorem Do_sentRequests {α : Type} [Unmarshaler α] (c : Client) (req : http.Request)
    (v : Option α) : sentRequests (c.Do req v).trace = [req] := by
  unfold Client.Do
  split
  · rfl
  · split
    · simp only []
      split <;> rfl
    · split <;> rfl

/-- An endpoint wrapper that could build its request sends exactly that request. -/
theorem endpoint_sends {β ρ : Type} [Marshaler β] [Unmarshaler ρ]
    (urlParse : String → Except GoError url.URL) (c : Client) (ctx : Option http.Context)
    (method path : String) (body : Option β) (resp : ρ) (requestFailed doFailed : String)
    (r : http.Request) (h : c.NewRequest urlParse ctx method path body = Except.ok r) :
    sentRequests (endpoint urlParse c ctx method path body resp requestFailed doFailed).trace
      = [r] := by
  have htrace := Do_sentRequests c r (some resp)
  unfold endpoint
  rw [h]
  simp only
  split <;> exact htrace

/-- An endpoint wrapper returns exactly one of a result and an error. -/
theorem endpoint_result {β ρ : Type} [Marshaler β] [Unmarshaler ρ]
    (urlParse : String → Except GoError url.URL) (c : Client) (ctx : Option http.Context)
    (method path : String) (body : Option β) (resp : ρ) (requestFailed doFailed : String) :
    (∀ e, c.NewRequest urlParse ctx method path body = Except.error e →
        (endpoint urlParse c ctx method path body resp requestFailed doFailed).resp = none
          ∧ (endpoint urlParse c ctx method path body resp requestFailed doFailed).err
            = some (wrapf requestFailed e))
      ∧ (∀ r e, c.NewRequest urlParse ctx method path body = Except.ok r →
          (c.Do r (some resp)).err = some e →
          (endpoint urlParse c ctx method path body resp requestFailed doFailed).resp = none
            ∧ (endpoint urlParse c ctx method path body resp requestFailed doFailed).err
              = some (wrapf doFailed e))
      ∧ (∀ r, c.NewRequest urlParse ctx method path body = Except.ok r →
          (c.Do r (some resp)).err = none →
          (endpoint urlParse c ctx method path body resp requestFailed doFailed).resp
              = (c.Do r (some resp)).v
            ∧ (endpoint urlParse c ctx method path body resp requestFailed doFailed).resp ≠ none
            ∧ (endpoint urlParse c ctx method path body resp requestFailed doFailed).err = none) := by
  refine ⟨?_, ?_, ?_⟩
  · intro e he
    simp only [endpoint, he, and_self]
  · intro r e hr he
    simp only [endpoint, hr, he, and_self]
  · intro r hr he
    have hv : (c.Do r (some resp)).v ≠ none := by
      unfold Client.Do
      split
      · simp
      · split
        · simp only []
          split <;> simp
        · simp
    simp only [endpoint, hr, he, and_true, true_and]
    exact hv

/-- A path text in written form followed by another is in written form. -/
theorem wellEscaped_append (a b : List Nat) :
    url.wellEscaped a = true → url.wellEscaped b = true → url.wellEscaped (a ++ b) = true := by
  induction a using url.wellEscaped.induct with
  | case1 => intro _ hb; exact hb
  | case2 x y rest ih =>
    intro ha hb
    unfold url.wellEscaped at ha
    rw [if_pos rfl] at ha
    simp only [Bool.and_eq_true] at ha
    show url.wellEscaped (37 :: x :: y :: (rest ++ b)) = true
    unfold url.wellEscaped
    rw [if_pos rfl]
    simp only [Bool.and_eq_true]
    exact ⟨ha.1, ih ha.2 hb⟩
  | case3 rest hrest =>
    intro ha
    unfold url.wellEscaped at ha
    rw [if_pos rfl] at ha
    cases rest with
    | nil => cases ha
    | cons x r =>
      cases r with
      | nil => cases ha
      | cons y r₂ => exact (hrest x y r₂ rfl).elim
  | case4 c rest hc ih =>
    intro ha hb
    unfold url.wellEscaped at ha
    rw [if_neg hc] at ha
    simp only [Bool.and_eq_true] at ha
    show url.wellEscaped (c :: (rest ++ b)) = true
    unfold url.wellEscaped
    rw [if_neg hc]
    simp only [Bool.and_eq_true]
    exact ⟨ha.1, ih ha.2 hb⟩

set_option maxRecDepth 100000 in
/-- A byte a path segment keeps stands for itself in a path, and the digits of an escape
are hexadecimal. -/
theorem segment_byte_facts :
    ∀ b, b < 256 →
      (url.shouldEscape b url.encoding.encodePathSegment = false →
        url.pathByte b = true ∧ b ≠ 37 ∧ b ≠ 47)
      ∧ url.ishex (url.upperhex (b / 16)).toNat = true
      ∧ url.ishex (url.upperhex (b % 16)).toNat = true := by
  decide

/-- The bytes of an escaped path segment are a path text in written form without `/`. -/
theorem wellEscaped_escape (bs : List Nat) (h : ∀ b ∈ bs, b < 256) :
    url.wellEscaped ((bs.flatMap (url.escapeByte url.encoding.encodePathSegment)).flatMap
      url.utf8) = true := by
  induction bs with
  | nil => rfl
  | cons b rest ih =>
    have hb : b < 256 := h b (List.mem_cons_self _ _)
    have ih' := ih (fun x hx => h x (List.mem_cons_of_mem _ hx))
    obtain ⟨hbytes, _, _, _⟩ := escapeByte_facts b hb
    obtain ⟨hkeep, hx1, hx2⟩ := segment_byte_facts b hb
    rw [List.flatMap_cons, List.flatMap_append, hbytes]
    cases hs : url.shouldEscape b url.encoding.encodePathSegment with
    | true =>
      rw [if_pos rfl]
      show url.wellEscaped (37 :: _ :: _ :: _) = true
      unfold url.wellEscaped
      rw [if_pos rfl]
      simp only [Bool.and_eq_true]
      exact ⟨⟨hx1, hx2⟩, ih'⟩
    | false =>
      obtain ⟨hp, hne, _⟩ := hkeep hs
      rw [if_neg (by simp)]
      show url.wellEscaped (b :: _) = true
      unfold url.wellEscaped
      rw [if_neg hne]
      simp only [Bool.and_eq_true]
      exact ⟨hp, ih'⟩

/-- The bytes of the escaped identifier are a path text in written form. -/
theorem wellEscaped_PathEscape (s : String) :
    url.wellEscaped (url.bytes (url.PathEscape s)) = true :=
  wellEscaped_escape (url.bytes s) (bytes_lt s)

/-- A base in written form followed by a path text in written form that starts with `/`
and by a query is a URL text in written form. -/
theorem Written_extend (scheme name port basePath p query : List Nat)
    (h : url.Written scheme name port basePath [])
    (hp : url.wellEscaped p = true) (hhead : p.head? = some 47)
    (hquery : query = [] ∨ (query.head? = some 63
      ∧ ∀ b ∈ query.tail, 32 ≤ b ∧ b ≠ 127 ∧ b ≠ 35)) :
    url.Written scheme name port (basePath ++ p) query := by
  obtain ⟨h1, h2, h3, h4, h5, h6, h7, _⟩ := h
  refine ⟨h1, h2, h3, h4, h5, Or.inr ?_, wellEscaped_append _ _ h7 hp, hquery⟩
  rcases h6 with h6 | h6
  · rw [h6]; exact hhead
  · cases basePath with
    | nil => cases h6
    | cons c rest => exact h6

/-- What an endpoint wrapper sends when the base URL is in written form, the method is a
token, the payload, if any, can be serialised and the path is a path text in written form
followed by a query. -/
theorem endpoint_written {β ρ : Type} [Marshaler β] [Unmarshaler ρ] (c : Client)
    (ctx : http.Context) (method path query full : String) (body : Option β) (resp : ρ)
    (requestFailed doFailed : String) (scheme name port basePath : List Nat)
    (hbase : WrittenBase c.BaseURL scheme name port basePath)
    (hmethod : http.validMethod method = true) (hne : method ≠ "")
    (hbody : ∀ b, body = some b → ∃ j, Marshaler.marshal b = Except.ok j)
    (hp : url.wellEscaped (url.bytes path) = true) (hhead : (url.bytes path).head? = some 47)
    (hquery : ∀ b ∈ url.bytes query, 32 ≤ b ∧ b ≠ 127 ∧ b ≠ 35)
    (hfull : full = path ++ (if query = "" then "" else "?" ++ query)) :
    SendsTo (endpoint url.Parse c (some ctx) method full body resp requestFailed
      doFailed).trace method c.BaseURL basePath path query := by
  have hq : url.bytes (if query = "" then "" else "?" ++ query)
      = if query = "" then [] else 63 :: url.bytes query := by
    split
    · rfl
    · rw [bytes_append]; rfl
  have hqnil : query = "" ↔ url.bytes query = [] := by
    constructor
    · intro h; rw [h]; rfl
    · intro h
      have hd : query.data = [] := by
        cases hdata : query.data with
        | nil => rfl
        | cons ch rest =>
          unfold url.bytes at h
          rw [hdata, List.flatMap_cons] at h
          have hch : url.utf8 ch ≠ [] := by
            unfold url.utf8
            split
            · simp
            · split
              · simp
              · split <;> simp
          exact absurd (List.append_eq_nil.mp h).1 hch
      exact String.ext hd
  have hw : url.Written scheme name port (basePath ++ url.bytes path)
      (if query = "" then [] else 63 :: url.bytes query) := by
    apply Written_extend _ _ _ _ _ _ hbase.2 hp hhead
    split
    · exact Or.inl rfl
    · exact Or.inr ⟨rfl, hquery⟩
  have hpath : url.bytes full
      = url.bytes path ++ (if query = "" then [] else 63 :: url.bytes query) := by
    rw [hfull, bytes_append, hq]
  obtain ⟨r, hr, _, hm, _, hstr, hesc, hforce, hraw⟩ :=
    NewRequest_written c ctx method full body scheme name port basePath (url.bytes path) _
      hbase hmethod hne hbody hpath hw
  refine ⟨r, endpoint_sends _ _ _ _ _ _ _ _ _ r hr, hm, hesc, ?_, ?_, ?_⟩
  · rw [hraw]
    split
    · next h => rw [h]; rfl
    · rfl
  · rw [hforce]
    split
    · rfl
    · next h =>
      have hne' : url.bytes query ≠ [] := fun h' => h (hqnil.mpr h')
      simp [hne']
  · rw [hstr, hfull, String.append_assoc]

/-- C19: with a base URL in written form, each by-id wrapper sends exactly one request, to
the base URL followed by its fixed prefix, the escaped identifier and its fixed suffix, and
the escaped path of the request's URL ends with just that; the escaped identifier has no
`/`, `?`, `#` or space and unescapes to the bytes of the identifier; `a/b c` is escaped to
`a%2Fb%20c`, and an identifier of letters, digits, `-`, `_`, `.` and `~` is sent as it
is. -/
theorem byID_wrappers_escape_id {β ρ : Type} [Marshaler β] [Unmarshaler ρ] (c : Client)
    (ctx : http.Context) (id : String) (req : β) (resp : ρ) (j : JSON)
    (scheme name port basePath : List Nat)
    (hbase : WrittenBase c.BaseURL scheme name port basePath)
    (hreq : Marshaler.marshal req = Except.ok j) :
    SendsTo (ImagesService.GetImageGeneration url.Parse ⟨c⟩ (some ctx) id resp).trace
        "GET" c.BaseURL basePath ("/generations/" ++ urlPathEscape id) ""
      ∧ SendsTo (ImagesService.DeleteGeneration url.Parse ⟨c⟩ (some ctx) id resp).trace
        "DELETE" c.BaseURL basePath ("/generations/" ++ urlPathEscape id) ""
      ∧ SendsTo (DatasetsService.GetDataset url.Parse ⟨c⟩ (some ctx) id resp).trace
        "GET" c.BaseURL basePath ("/datasets/" ++ urlPathEscape id) ""
      ∧ SendsTo (DatasetsService.UploadDatasetImage url.Parse ⟨c⟩ (some ctx) id req
          resp).trace
        "POST" c.BaseURL basePath ("/datasets/" ++ urlPathEscape id ++ "/upload") ""
      ∧ SendsTo (ModelsService.GetCustomModel url.Parse ⟨c⟩ (some ctx) id resp).trace
        "GET" c.BaseURL basePath ("/models/" ++ urlPathEscape id) ""
      ∧ SendsTo (ThreeDModelAssetsService.Get3DModelByID url.Parse ⟨c⟩ (some ctx) id
          resp).trace
        "GET" c.BaseURL basePath ("/models-3d/" ++ urlPathEscape id) ""
      ∧ SendsTo (VariationService.GetVariation url.Parse ⟨c⟩ (some ctx) id resp).trace
        "GET" c.BaseURL basePath ("/variations/" ++ urlPathEscape id) ""
      ∧ SendsTo (InitImagesService.GetSingleInitImage url.Parse ⟨c⟩ (some ctx) id
          resp).trace
        "GET" c.BaseURL basePath ("/init-image/" ++ urlPathEscape id) ""
      ∧ (∀ ch ∈ (urlPathEscape id).data, ch ≠ '/' ∧ ch ≠ '?' ∧ ch ≠ '#' ∧ ch ≠ ' ')
      ∧ url.PathUnescape (urlPathEscape id) = some (url.bytes id)
      ∧ urlPathEscape "a/b c" = "a%2Fb%20c"
      ∧ ((∀ ch ∈ id.data, unreservedChar ch = true) → urlPathEscape id = id) := by
  have hnone : ∀ b, (none : Option NoBody) = some b → ∃ j, Marshaler.marshal b = Except.ok j :=
    fun b h => by cases h
  have hsome : ∀ b, some req = some b → ∃ j, Marshaler.marshal b = Except.ok j :=
    fun b h => by cases h; exact ⟨j, hreq⟩
  have hq : ∀ b ∈ url.bytes "", 32 ≤ b ∧ b ≠ 127 ∧ b ≠ 35 := fun b hb => by cases hb
  have hpre : ∀ (pre : String), url.wellEscaped (url.bytes pre) = true →
      url.wellEscaped (url.bytes (pre ++ urlPathEscape id)) = true := by
    intro pre hpre
    rw [bytes_append]
    exact wellEscaped_append _ _ hpre (wellEscaped_PathEscape id)
  have hhead : ∀ (pre rest : String), (url.bytes pre).head? = some 47 →
      (url.bytes (pre ++ rest)).head? = some 47 := by
    intro pre rest h
    rw [bytes_append]
    cases hb : url.bytes pre with
    | nil => rw [hb] at h; cases h
    | cons x xs => rw [hb] at h; exact h
  have hfull : ∀ p : String, p = p ++ (if ("" : String) = "" then "" else "?" ++ "") := by
    intro p; simp
  refine ⟨?_, ?_, ?_, ?_, ?_, ?_, ?_, ?_, PathEscape_chars id, PathUnescape_PathEscape id,
    by decide, PathEscape_unreserved id⟩
  · exact endpoint_written c ctx "GET" _ "" _ _ resp _ _ scheme name port basePath hbase
      (by decide) (by decide) hnone (hpre "/generations/" (by decide))
      (hhead "/generations/" _ (by decide)) hq (hfull _)
  · exact endpoint_written c ctx "DELETE" _ "" _ _ resp _ _ scheme name port basePath hbase
      (by decide) (by decide) hnone (hpre "/generations/" (by decide))
      (hhead "/generations/" _ (by decide)) hq (hfull _)
  · exact endpoint_written c ctx "GET" _ "" _ _ resp _ _ scheme name port basePath hbase
      (by decide) (by decide) hnone (hpre "/datasets/" (by decide))
      (hhead "/datasets/" _ (by decide)) hq (hfull _)
  · refine endpoint_written c ctx "POST" _ "" _ _ resp _ _ scheme name port basePath hbase
      (by decide) (by decide) hsome ?_ ?_ hq (hfull _)
    · rw [bytes_append]
      exact wellEscaped_append _ _ (hpre "/datasets/" (by decide)) (by decide)
    · rw [String.append_assoc]
      exact hhead "/datasets/" _ (by decide)
  · exact endpoint_written c ctx "GET" _ "" _ _ resp _ _ scheme name port basePath hbase
      (by decide) (by decide) hnone (hpre "/models/" (by decide))
      (hhead "/models/" _ (by decide)) hq (hfull _)
  · exact endpoint_written c ctx "GET" _ "" _ _ resp _ _ scheme name port basePath hbase
      (by decide) (by decide) hnone (hpre "/models-3d/" (by decide))
      (hhead "/models-3d/" _ (by decide)) hq (hfull _)
  · exact endpoint_written c ctx "GET" _ "" _ _ resp _ _ scheme name port basePath hbase
      (by decide) (by decide) hnone (hpre "/variations/" (by decide))
      (hhead "/variations/" _ (by decide)) hq (hfull _)
  · exact endpoint_written c ctx "GET" _ "" _ _ resp _ _ scheme name port basePath hbase
      (by decide) (by decide) hnone (hpre "/init-image/" (by decide))
      (hhead "/init-image/" _ (by decide)) hq (hfull _)

/-- Witness of C19: with the default base URL, `GetImageGeneration` for the identifier
`a/b c` sends one request, whose URL has the escaped identifier as the last segment of its
escaped path, and `gen-123` is sent as it is. -/
theorem byID_wrappers_escape_id_witness :
    sentRequests (ImagesService.GetImageGeneration url.Parse
        ⟨sampleClient ⟨200, Body.empty⟩⟩ (some ⟨0⟩) "a/b c"
        CreateGenerationResponse.zero).trace = [sampleBuiltEscaped]
      ∧ sampleBuiltEscaped.URL.EscapedPath = url.bytes "/api/rest/v1/generations/a%2Fb%20c"
      ∧ SendsTo (DatasetsService.GetDataset url.Parse ⟨sampleClient ⟨200, Body.empty⟩⟩
          (some ⟨0⟩) "gen-123" CreateGenerationResponse.zero).trace
        "GET" "https://cloud.leonardo.ai/api/rest/v1" (url.bytes "/api/rest/v1")
        ("/datasets/" ++ urlPathEscape "gen-123") ""
      ∧ urlPathEscape "gen-123" = "gen-123" :=
  ⟨rfl, by decide,
    (byID_wrappers_escape_id (sampleClient ⟨200, Body.empty⟩) ⟨0⟩ "gen-123"
      ({} : MotionRequest) CreateGenerationResponse.zero (JSON.obj []) (url.bytes "https")
      (url.bytes "cloud.leonardo.ai") [] (url.bytes "/api/rest/v1") (by decide) rfl).2.2.1,
    (byID_wrappers_escape_id (sampleClient ⟨200, Body.empty⟩) ⟨0⟩ "gen-123"
      ({} : MotionRequest) CreateGenerationResponse.zero (JSON.obj []) (url.bytes "https")
      (url.bytes "cloud.leonardo.ai") [] (url.bytes "/api/rest/v1") (by decide)
      rfl).2.2.2.2.2.2.2.2.2.2.2 (by decide)⟩

/-- An endpoint wrapper returns a nil result with an error, or a result with a nil error. -/
theorem endpoint_exclusive {β ρ : Type} [Marshaler β] [Unmarshaler ρ]
    (urlParse : String → Except GoError url.URL) (c : Client) (ctx : Option http.Context)
    (method path : String) (body : Option β) (resp : ρ) (requestFailed doFailed : String) :
    ((endpoint urlParse c ctx method path body resp requestFailed doFailed).resp = none
        ∧ (endpoint urlParse c ctx method path body resp requestFailed doFailed).err ≠ none)
      ∨ ((endpoint urlParse c ctx method path body resp requestFailed doFailed).resp ≠ none
        ∧ (endpoint urlParse c ctx method path body resp requestFailed doFailed).err = none) := by
  obtain ⟨h1, h2, h3⟩ :=
    endpoint_result urlParse c ctx method path body resp requestFailed doFailed
  cases hreq : c.NewRequest urlParse ctx method path body with
  | error e =>
    obtain ⟨ha, hb⟩ := h1 e hreq
    exact Or.inl ⟨ha, by rw [hb]; simp⟩
  | ok r =>
    cases hdo : (c.Do r (some resp)).err with
    | some e =>
      obtain ⟨ha, hb⟩ := h2 r e hreq hdo
      exact Or.inl ⟨ha, by rw [hb]; simp⟩
    | none =>
      obtain ⟨_, ha, hb⟩ := h3 r hreq hdo
      exact Or.inr ⟨ha, hb⟩

/-- C20: `GetImageGeneration` and `CreateDataset` return exactly one of a result and an
error.  When the request cannot be built, or when `Client.Do` returns an error (also after
it has filled part of the response variable), the result is nil and the error is the
wrapped failure; when both succeed the result is the response variable, not nil, and the
error is nil. -/
theorem wrappers_result_xor_error {ρ : Type} [Unmarshaler ρ]
    (urlParse : String → Except GoError url.URL) (c : Client) (ctx : Option http.Context)
    (id : String) (resp : ρ) (req : CreateDatasetRequest) :
    (((ImagesService.GetImageGeneration urlParse ⟨c⟩ ctx id resp).resp = none
          ∧ (ImagesService.GetImageGeneration urlParse ⟨c⟩ ctx id resp).err ≠ none)
        ∨ ((ImagesService.GetImageGeneration urlParse ⟨c⟩ ctx id resp).resp ≠ none
          ∧ (ImagesService.GetImageGeneration urlParse ⟨c⟩ ctx id resp).err = none))
      ∧ (((DatasetsService.CreateDataset urlParse ⟨c⟩ ctx req).resp = none
          ∧ (DatasetsService.CreateDataset urlParse ⟨c⟩ ctx req).err ≠ none)
        ∨ ((DatasetsService.CreateDataset urlParse ⟨c⟩ ctx req).resp ≠ none
          ∧ (DatasetsService.CreateDataset urlParse ⟨c⟩ ctx req).err = none))
      ∧ (∀ e, c.NewRequest urlParse ctx "GET" ("/generations/" ++ urlPathEscape id)
            (none : Option NoBody) = Except.error e →
          (ImagesService.GetImageGeneration urlParse ⟨c⟩ ctx id resp).resp = none
            ∧ (ImagesService.GetImageGeneration urlParse ⟨c⟩ ctx id resp).err
              = some (wrapf "creating GetImageGeneration request failed" e))
      ∧ (∀ r e, c.NewRequest urlParse ctx "GET" ("/generations/" ++ urlPathEscape id)
            (none : Option NoBody) = Except.ok r →
          (c.Do r (some resp)).err = some e →
          (ImagesService.GetImageGeneration urlParse ⟨c⟩ ctx id resp).resp = none
            ∧ (ImagesService.GetImageGeneration urlParse ⟨c⟩ ctx id resp).err
              = some (wrapf "getting image generation failed" e))
      ∧ (∀ r, c.NewRequest urlParse ctx "GET" ("/generations/" ++ urlPathEscape id)
            (none : Option NoBody) = Except.ok r →
          (c.Do r (some resp)).err = none →
          (ImagesService.GetImageGeneration urlParse ⟨c⟩ ctx id resp).resp
              = (c.Do r (some resp)).v
            ∧ (ImagesService.GetImageGeneration urlParse ⟨c⟩ ctx id resp).resp ≠ none
            ∧ (ImagesService.GetImageGeneration urlParse ⟨c⟩ ctx id resp).err = none)
      ∧ (∀ e, c.NewRequest urlParse ctx "POST" "/datasets" (some req) = Except.error e →
          (DatasetsService.CreateDataset urlParse ⟨c⟩ ctx req).resp = none
            ∧ (DatasetsService.CreateDataset urlParse ⟨c⟩ ctx req).err
              = some (wrapf "creating CreateDataset request failed" e))
      ∧ (∀ r e, c.NewRequest urlParse ctx "POST" "/datasets" (some req) = Except.ok r →
          (c.Do r (some CreateDatasetResponse.zero)).err = some e →
          (DatasetsService.CreateDataset urlParse ⟨c⟩ ctx req).resp = none
            ∧ (DatasetsService.CreateDataset urlParse ⟨c⟩ ctx req).err
              = some (wrapf "creating dataset failed" e))
      ∧ (∀ r, c.NewRequest urlParse ctx "POST" "/datasets" (some req) = Except.ok r →
          (c.Do r (some CreateDatasetResponse.zero)).err = none →
          (DatasetsService.CreateDataset urlParse ⟨c⟩ ctx req).resp
              = (c.Do r (some CreateDatasetResponse.zero)).v
            ∧ (DatasetsService.CreateDataset urlParse ⟨c⟩ ctx req).resp ≠ none
            ∧ (DatasetsService.CreateDataset urlParse ⟨c⟩ ctx req).err = none) := by
  obtain ⟨g1, g2, g3⟩ := endpoint_result urlParse c ctx "GET"
    ("/generations/" ++ urlPathEscape id) (none : Option NoBody) resp
    "creating GetImageGeneration request failed" "getting image generation failed"
  obtain ⟨d1, d2, d3⟩ := endpoint_result urlParse c ctx "POST" "/datasets" (some req)
    CreateDatasetResponse.zero "creating CreateDataset request failed" "creating dataset failed"
  exact ⟨endpoint_exclusive _ _ _ _ _ _ _ _ _, endpoint_exclusive _ _ _ _ _ _ _ _ _,
    g1, g2, g3, d1, d2, d3⟩

/-- Witness of C20: `CreateDataset` answered with status 200 and a body whose identifier
is a number.  `Client.Do` allocates the identifier before it reports the type error, and
the wrapper returns nil with the wrapped error. -/
theorem wrappers_result_xor_error_witness :
    (sampleClient ⟨200, numericIdBody⟩).NewRequest url.Parse (some ⟨0⟩) "POST"
        "/datasets" (some (⟨"cats", none⟩ : CreateDatasetRequest)) = Except.ok sampleBuiltDataset
      ∧ ((sampleClient ⟨200, numericIdBody⟩).Do sampleBuiltDataset
          (some CreateDatasetResponse.zero)).v = some ⟨⟨some ""⟩⟩
      ∧ (DatasetsService.CreateDataset url.Parse ⟨sampleClient ⟨200, numericIdBody⟩⟩
          (some ⟨0⟩) ⟨"cats", none⟩).resp = none
      ∧ (DatasetsService.CreateDataset url.Parse ⟨sampleClient ⟨200, numericIdBody⟩⟩
          (some ⟨0⟩) ⟨"cats", none⟩).err
        = some (wrapf "creating dataset failed"
            (GoError.unmarshalTypeError "number" "string" "" "insert_datasets_one.id")) :=
  ⟨rfl, rfl,
    (wrappers_result_xor_error url.Parse (sampleClient ⟨200, numericIdBody⟩) (some ⟨0⟩)
      "gen-123" CreateGenerationResponse.zero ⟨"cats", none⟩).2.2.2.2.2.2.1 sampleBuiltDataset
      (GoError.unmarshalTypeError "number" "string" "" "insert_datasets_one.id") rfl rfl⟩

/-- The digits `Nat.toDigitsCore` writes in base ten are decimal digits. -/
theorem toDigitsCore_digits (fuel : Nat) :
    ∀ (n : Nat) (ds : List Char), (∀ c ∈ ds, 48 ≤ c.toNat ∧ c.toNat ≤ 57) →
      ∀ c ∈ Nat.toDigitsCore 10 fuel n ds, 48 ≤ c.toNat ∧ c.toNat ≤ 57 := by
  have hdigit : ∀ d, d < 10 → 48 ≤ (Nat.digitChar d).toNat ∧ (Nat.digitChar d).toNat ≤ 57 := by
    decide
  induction fuel with
  | zero => intro n ds hds c hc; exact hds c hc
  | succ fuel ih =>
    intro n ds hds c hc
    have hcons : ∀ x ∈ Nat.digitChar (n % 10) :: ds, 48 ≤ x.toNat ∧ x.toNat ≤ 57 := by
      intro x hx
      rcases List.mem_cons.mp hx with hx | hx
      · subst hx; exact hdigit _ (Nat.mod_lt _ (by decide))
      · exact hds x hx
    simp only [Nat.toDigitsCore] at hc
    split at hc
    · exact hcons c hc
    · exact ih _ _ hcons c hc

/-- The verb `%d` writes a positive integer in decimal digits only. -/
theorem fmtInt_digits (n : Int) (h : n > 0) :
    ∀ c ∈ (fmtInt n).data, 48 ≤ c.toNat ∧ c.toNat ≤ 57 := by
  cases n with
  | ofNat m =>
    intro c hc
    have hc' : c ∈ Nat.toDigitsCore 10 (m + 1) m [] := hc
    exact toDigitsCore_digits _ _ _ (fun x hx => by cases hx) c hc'
  | negSucc m => exact absurd h (by simp [Int.negSucc_lt_zero])

/-- Escaping a query component leaves decimal digits as they are. -/
theorem QueryEscape_digits (s : String) (h : ∀ c ∈ s.data, 48 ≤ c.toNat ∧ c.toNat ≤ 57) :
    url.QueryEscape s = s := by
  have hbyte : ∀ n, n < 128 → 48 ≤ n ∧ n ≤ 57 →
      url.shouldEscape n url.encoding.encodeQueryComponent = false := by
    decide
  have hlist : ∀ cs : List Char, (∀ c ∈ cs, 48 ≤ c.toNat ∧ c.toNat ≤ 57) →
      (cs.flatMap url.utf8).flatMap (url.escapeByte url.encoding.encodeQueryComponent) = cs := by
    intro cs
    induction cs with
    | nil => intro _; rfl
    | cons c rest ih =>
      intro hcs
      have hc := hcs c (List.mem_cons_self _ _)
      have hlt : c.toNat < 128 := by omega
      have hutf : url.utf8 c = [c.toNat] := by simp [url.utf8, hlt]
      have hkeep := hbyte c.toNat hlt hc
      rw [List.flatMap_cons, List.flatMap_append,
        ih (fun x hx => hcs x (List.mem_cons_of_mem _ hx)), hutf]
      simp [url.escapeByte, hkeep, Char.ofNat_toNat]
  exact String.ext (hlist s.data h)

/-- The query string of the list-by-user wrappers, case by case. -/
theorem userListQuery_eq (limit offset : Int) :
    userListQuery limit offset
      = if limit > 0 then
          (if offset > 0 then "?limit=" ++ fmtInt limit ++ "&offset=" ++ fmtInt offset
           else "?limit=" ++ fmtInt limit)
        else (if offset > 0 then "?offset=" ++ fmtInt offset else "") := by
  have hkl : url.QueryEscape "limit" = "limit" := by decide
  have hko : url.QueryEscape "offset" = "offset" := by decide
  have hnlt : ¬ (['o', 'f', 'f', 's', 'e', 't'] < ['l', 'i', 'm', 'i', 't']) := by decide
  have hne : ¬ "limit" = "offset" := by decide
  have h1 : ∀ x : String, "?" ++ ("limit=" ++ x) = "?limit=" ++ x := by
    intro x; rw [← String.append_assoc]; rfl
  have h2 : ∀ x : String, "?" ++ ("offset=" ++ x) = "?offset=" ++ x := by
    intro x; rw [← String.append_assoc]; rfl
  have hlen : 0 < "limit".length := by decide
  have e1 : "?limit=" = "?" ++ ("limit" ++ "=") := by decide
  have e2 : "&offset=" = "&" ++ ("offset" ++ "=") := by decide
  by_cases hl : limit > 0
  · have hql := QueryEscape_digits _ (fmtInt_digits limit hl)
    by_cases ho : offset > 0
    · have hqo := QueryEscape_digits _ (fmtInt_digits offset ho)
      simp [userListQuery, hl, ho, url.Values.Set, url.Values.Encode, sortByKey, insertByKey,
        hkl, hko, hql, hqo, hnlt, hne, String.append_assoc, hlen]
      rw [e1, e2]
      simp only [String.append_assoc]
    · simp [userListQuery, hl, ho, url.Values.Set, url.Values.Encode, sortByKey, insertByKey,
        hkl, hql, h1]
  · by_cases ho : offset > 0
    · have hqo := QueryEscape_digits _ (fmtInt_digits offset ho)
      simp [userListQuery, hl, ho, url.Values.Set, url.Values.Encode, sortByKey, insertByKey,
        hko, hqo, h2]
    · simp [userListQuery, hl, ho]

/-- The bytes of a string of ASCII characters are the codes of its characters. -/
theorem bytes_ascii (cs : List Char) (h : ∀ ch ∈ cs, ch.toNat < 128) :
    cs.flatMap url.utf8 = cs.map Char.toNat := by
  induction cs with
  | nil => rfl
  | cons ch rest ih =>
    have hc := h ch (List.mem_cons_self _ _)
    rw [List.flatMap_cons, List.map_cons, ih (fun x hx => h x (List.mem_cons_of_mem _ hx))]
    simp [url.utf8, hc]

/-- The bytes of a positive integer written by the verb `%d` are decimal digits. -/
theorem fmtInt_bytes (n : Int) (h : n > 0) :
    ∀ b ∈ url.bytes (fmtInt n), 48 ≤ b ∧ b ≤ 57 := by
  intro b hb
  unfold url.bytes at hb
  rw [bytes_ascii _ (fun ch hch => by have := fmtInt_digits n h ch hch; omega)] at hb
  obtain ⟨ch, hch, rfl⟩ := List.mem_map.mp hb
  exact fmtInt_digits n h ch hch

/-- The query of the list-by-user wrappers after its `?`, case by case. -/
theorem userListQuery_params (limit offset : Int) :
    userListQuery limit offset
      = (if (if limit > 0 then
              (if offset > 0 then "limit=" ++ fmtInt limit ++ "&offset=" ++ fmtInt offset
               else "limit=" ++ fmtInt limit)
            else (if offset > 0 then "offset=" ++ fmtInt offset else "")) = "" then ""
         else "?" ++ (if limit > 0 then
              (if offset > 0 then "limit=" ++ fmtInt limit ++ "&offset=" ++ fmtInt offset
               else "limit=" ++ fmtInt limit)
            else (if offset > 0 then "offset=" ++ fmtInt offset else ""))) := by
  have hne : ∀ (pre x : String), pre.data ≠ [] → ¬ (pre ++ x = "") := by
    intro pre x hpre h
    have hd := congrArg String.data h
    rw [String.data_append] at hd
    exact hpre (List.append_eq_nil.mp hd).1
  have h1 : ∀ x : String, "?limit=" ++ x = "?" ++ ("limit=" ++ x) := by
    intro x; rw [← String.append_assoc]; rfl
  have h2 : ∀ x : String, "?offset=" ++ x = "?" ++ ("offset=" ++ x) := by
    intro x; rw [← String.append_assoc]; rfl
  rw [userListQuery_eq]
  by_cases hl : limit > 0
  · by_cases ho : offset > 0
    · rw [if_pos hl, if_pos ho, if_pos hl, if_pos ho,
        if_neg (by
          rw [String.append_assoc, String.append_assoc]
          exact hne "limit=" _ (by decide)),
        String.append_assoc, String.append_assoc, h1, String.append_assoc, String.append_assoc]
    · rw [if_pos hl, if_neg ho, if_pos hl, if_neg ho, if_neg (hne "limit=" _ (by decide)), h1]
  · by_cases ho : offset > 0
    · rw [if_neg hl, if_pos ho, if_neg hl, if_pos ho, if_neg (hne "offset=" _ (by decide)), h2]
    · rw [if_neg hl, if_neg ho, if_neg hl, if_neg ho, if_pos rfl]

/-- C17: with a base URL in written form, `GetGenerationsByUserID` and `Get3DModelsByUser`
send exactly one request, to the user's path, which has no `?`, with the query that is
`limit=<limit>` when the limit is positive, `offset=<offset>` when the offset is positive,
both joined by `&` when both are, and no query and no `?` when neither is; so the query
contains `limit=<limit>` exactly when the limit is positive and `offset=<offset>` exactly
when the offset is positive, and limit 10 with offset 0 gives `limit=10`. -/
theorem userList_query {ρ : Type} [Unmarshaler ρ] (c : Client) (ctx : http.Context)
    (userID : String) (limit offset : Int) (resp : ρ) (query : String)
    (scheme name port basePath : List Nat)
    (hbase : WrittenBase c.BaseURL scheme name port basePath)
    (hquery : query = if limit > 0 then
        (if offset > 0 then "limit=" ++ fmtInt limit ++ "&offset=" ++ fmtInt offset
         else "limit=" ++ fmtInt limit)
      else (if offset > 0 then "offset=" ++ fmtInt offset else "")) :
    SendsTo (ImagesService.GetGenerationsByUserID url.Parse ⟨c⟩ (some ctx) userID limit
        offset resp).trace
        "GET" c.BaseURL basePath ("/generations/user/" ++ url.PathEscape userID) query
      ∧ SendsTo (ThreeDModelAssetsService.Get3DModelsByUser url.Parse ⟨c⟩ (some ctx) userID
        limit offset resp).trace
        "GET" c.BaseURL basePath ("/models-3d/user/" ++ url.PathEscape userID) query
      ∧ 63 ∉ url.bytes ("/generations/user/" ++ url.PathEscape userID)
      ∧ 63 ∉ url.bytes ("/models-3d/user/" ++ url.PathEscape userID)
      ∧ (url.bytes ("limit=" ++ fmtInt limit) <:+: url.bytes query ↔ limit > 0)
      ∧ (url.bytes ("offset=" ++ fmtInt offset) <:+: url.bytes query ↔ offset > 0)
      ∧ (¬ limit > 0 → ¬ offset > 0 → query = "")
      ∧ (limit = 10 → offset = 0 → query = "limit=10") := by
  have hnone : ∀ b, (none : Option NoBody) = some b → ∃ j, Marshaler.marshal b = Except.ok j :=
    fun b h => by cases h
  have hwell : ∀ (pre : String), url.wellEscaped (url.bytes pre) = true →
      url.wellEscaped (url.bytes (pre ++ url.PathEscape userID)) = true := by
    intro pre hpre
    rw [bytes_append]
    exact wellEscaped_append _ _ hpre (wellEscaped_PathEscape userID)
  have hhead : ∀ (pre rest : String), (url.bytes pre).head? = some 47 →
      (url.bytes (pre ++ rest)).head? = some 47 := by
    intro pre rest h
    rw [bytes_append]
    cases hb : url.bytes pre with
    | nil => rw [hb] at h; cases h
    | cons x xs => rw [hb] at h; exact h
  have h63 : ∀ (pre : String), url.wellEscaped (url.bytes pre) = true →
      63 ∉ url.bytes (pre ++ url.PathEscape userID) := by
    intro pre hpre hm
    exact ((url.wellEscaped_facts _ (hwell pre hpre)).2.2 63 hm).2.2.1 rfl
  have hbytes : ∀ b ∈ url.bytes query, 32 ≤ b ∧ b ≠ 127 ∧ b ≠ 35 := by
    have hlit : ∀ (lit : String), (∀ b ∈ url.bytes lit, 32 ≤ b ∧ b ≠ 127 ∧ b ≠ 35) →
        ∀ (n : Int), n > 0 → ∀ b ∈ url.bytes (lit ++ fmtInt n), 32 ≤ b ∧ b ≠ 127 ∧ b ≠ 35 := by
      intro lit hl n hn b hb
      rw [bytes_append] at hb
      rcases List.mem_append.mp hb with hb | hb
      · exact hl b hb
      · have := fmtInt_bytes n hn b hb; omega
    intro b hb
    rw [hquery] at hb
    by_cases hl : limit > 0
    · by_cases ho : offset > 0
      · rw [if_pos hl, if_pos ho, bytes_append, bytes_append] at hb
        rcases List.mem_append.mp hb with hb | hb
        · rcases List.mem_append.mp hb with hb | hb
          · exact hlit "limit=" (by decide) limit hl b hb
          · exact (by decide : ∀ x ∈ url.bytes "&offset=", 32 ≤ x ∧ x ≠ 127 ∧ x ≠ 35) b hb
        · have := fmtInt_bytes offset ho b hb; omega
      · rw [if_pos hl, if_neg ho] at hb
        exact hlit "limit=" (by decide) limit hl b hb
    · by_cases ho : offset > 0
      · rw [if_neg hl, if_pos ho] at hb
        exact hlit "offset=" (by decide) offset ho b hb
      · rw [if_neg hl, if_neg ho] at hb
        cases hb
  have hfull : ∀ p : String, p ++ userListQuery limit offset
      = p ++ (if query = "" then "" else "?" ++ query) := by
    intro p
    rw [userListQuery_params, ← hquery]
  refine ⟨?_, ?_, h63 "/generations/user/" (by decide), h63 "/models-3d/user/" (by decide),
    ?_, ?_, ?_, ?_⟩
  · exact endpoint_written c ctx "GET" _ query _ _ resp _ _ scheme name port basePath hbase
      (by decide) (by decide) hnone (hwell "/generations/user/" (by decide))
      (hhead "/generations/user/" _ (by decide)) hbytes (hfull _)
  · exact endpoint_written c ctx "GET" _ query _ _ resp _ _ scheme name port basePath hbase
      (by decide) (by decide) hnone (hwell "/models-3d/user/" (by decide))
      (hhead "/models-3d/user/" _ (by decide)) hbytes (hfull _)
  · constructor
    · intro h
      by_contra hl
      have hmem : 108 ∈ url.bytes ("limit=" ++ fmtInt limit) := by
        rw [bytes_append]
        exact List.mem_append_left _ (by decide)
      have hq := h.subset hmem
      rw [hquery, if_neg hl] at hq
      by_cases ho : offset > 0
      · rw [if_pos ho, bytes_append] at hq
        rcases List.mem_append.mp hq with hq | hq
        · exact absurd hq (by decide)
        · have := fmtInt_bytes offset ho _ hq; omega
      · rw [if_neg ho] at hq
        cases hq
    · intro hl
      rw [hquery, if_pos hl]
      by_cases ho : offset > 0
      · rw [if_pos ho]
        refine ⟨[], url.bytes ("&offset=" ++ fmtInt offset), ?_⟩
        rw [List.nil_append, String.append_assoc, bytes_append ("limit=" ++ fmtInt limit)]
      · rw [if_neg ho]
  · constructor
    · intro h
      by_contra ho
      have hmem : 111 ∈ url.bytes ("offset=" ++ fmtInt offset) := by
        rw [bytes_append]
        exact List.mem_append_left _ (by decide)
      have hq := h.subset hmem
      rw [hquery] at hq
      by_cases hl : limit > 0
      · rw [if_pos hl, if_neg ho, bytes_append] at hq
        rcases List.mem_append.mp hq with hq | hq
        · exact absurd hq (by decide)
        · have := fmtInt_bytes limit hl _ hq; omega
      · rw [if_neg hl, if_neg ho] at hq
        cases hq
    · intro ho
      rw [hquery]
      by_cases hl : limit > 0
      · rw [if_pos hl, if_pos ho]
        refine ⟨url.bytes ("limit=" ++ fmtInt limit ++ "&"), [], ?_⟩
        rw [List.append_nil, ← bytes_append]
        congr 1
        simp only [String.append_assoc]
        rfl
      · rw [if_neg hl, if_pos ho]
  · intro hl ho
    rw [hquery, if_neg hl, if_neg ho]
  · intro hl ho
    rw [hquery, hl, ho]
    decide

/-- Witness of C17: the call of `TestGet3DModelsByUser`, limit 10 and offset 0, with the
default base URL sends one request, whose URL has the query `limit=10` and no offset. -/
theorem userList_query_witness :
    sentRequests (ThreeDModelAssetsService.Get3DModelsByUser url.Parse
        ⟨sampleClient ⟨200, Body.empty⟩⟩ (some ⟨0⟩) "user-123" 10 0
        CreateGenerationResponse.zero).trace = [sampleBuiltUserList]
      ∧ SendsTo (ThreeDModelAssetsService.Get3DModelsByUser url.Parse
          ⟨sampleClient ⟨200, Body.empty⟩⟩ (some ⟨0⟩) "user-123" 10 0
          CreateGenerationResponse.zero).trace
        "GET" "https://cloud.leonardo.ai/api/rest/v1" (url.bytes "/api/rest/v1")
        ("/models-3d/user/" ++ url.PathEscape "user-123") "limit=10"
      ∧ ¬ url.bytes ("offset=" ++ fmtInt 0) <:+: url.bytes "limit=10" :=
  ⟨rfl,
    (userList_query (sampleClient ⟨200, Body.empty⟩) ⟨0⟩ "user-123" 10 0
      CreateGenerationResponse.zero "limit=10" (url.bytes "https")
      (url.bytes "cloud.leonardo.ai") [] (url.bytes "/api/rest/v1") (by decide)
      (by decide)).2.1,
    by decide⟩

/-- C18, the code at the zero value of `PaginationParams`: `ListPlatformModels` sends its
request to a target that carries both `limit=0` and `offset=0`; the format of its path
writes both parameters whatever their values are. -/
theorem ListPlatformModels_sends_zero :
    sentRequests (ModelsService.ListPlatformModels url.Parse
        ⟨sampleClient ⟨200, Body.empty⟩⟩ (some ⟨0⟩) ⟨0, 0⟩
        CreateGenerationResponse.zero).trace = [sampleBuiltPlatformModels]
      ∧ sampleBuiltPlatformModels.URL.String
        = url.bytes "https://cloud.leonardo.ai/api/rest/v1/platformModels?limit=0&offset=0"
      ∧ url.bytes "limit=0" <:+: sampleBuiltPlatformModels.URL.RawQuery
      ∧ url.bytes "offset=0" <:+: sampleBuiltPlatformModels.URL.RawQuery :=
  ⟨rfl, by decide, by decide, by decide⟩

/-! ## The timestamp codec -/

section
open time

/-- The character `digit n` is the decimal digit of the units of `n`. -/
theorem digit_toNat (n : Nat) : (digit n).toNat = 48 + n % 10 := by
  have h : ∀ k, k < 10 → (Char.ofNat (48 + k)).toNat = 48 + k := by decide
  exact h (n % 10) (Nat.mod_lt _ (by decide))

/-- A digit written by `digit` is a digit. -/
theorem isDig_digit (n : Nat) : isDig (digit n) = true := by
  simp [isDig, digit_toNat]
  omega

/-- The value of a digit written by `digit`. -/
theorem digitVal_digit (n : Nat) : digitVal (digit n) = n % 10 := by
  simp [digitVal, digit_toNat]

/-- Writing the digit a character stands for gives the character back. -/
theorem digit_of_digitVal (c : Char) (n : Nat) (hc : isDig c = true) (hn : n % 10 = digitVal c) :
    digit n = c := by
  simp only [isDig, decide_eq_true_eq] at hc
  have h48 : 48 + n % 10 = c.toNat := by
    rw [hn]; simp only [digitVal]; omega
  unfold digit
  rw [h48, Char.ofNat_toNat]

/-- The function `atoi` on characters that start with a digit has no sign to read. -/
theorem atoi_of_digit (c : Char) (cs : List Char) (hc : isDig c = true) :
    atoi (c :: cs) = (digitsValue (c :: cs)).map (fun n => (n : Int)) := by
  unfold atoi
  split
  · next h => cases h; exact absurd hc (by decide)
  · next h => cases h; exact absurd hc (by decide)
  · rfl

/-- Parsing a text of the shape `YYYY-MM-DDTHH:MM:SS.mmm` whose numbers are in range gives
the date and time of day it denotes, in UTC. -/
theorem parseLayout_exact (y₁ y₂ y₃ y₄ m₁ m₂ d₁ d₂ h₁ h₂ n₁ n₂ s₁ s₂ f₁ f₂ f₃ : Char)
    (hy₁ : isDig y₁ = true) (hy₂ : isDig y₂ = true) (hy₃ : isDig y₃ = true)
    (hy₄ : isDig y₄ = true) (hm₁ : isDig m₁ = true) (hm₂ : isDig m₂ = true)
    (hd₁ : isDig d₁ = true) (hd₂ : isDig d₂ = true) (hh₁ : isDig h₁ = true)
    (hh₂ : isDig h₂ = true) (hn₁ : isDig n₁ = true) (hn₂ : isDig n₂ = true)
    (hs₁ : isDig s₁ = true) (hs₂ : isDig s₂ = true) (hf₁ : isDig f₁ = true)
    (hf₂ : isDig f₂ = true) (hf₃ : isDig f₃ = true)
    (hmonth : 1 ≤ digitVal m₁ * 10 + digitVal m₂ ∧ digitVal m₁ * 10 + digitVal m₂ ≤ 12)
    (hhour : digitVal h₁ * 10 + digitVal h₂ < 24)
    (hmin : digitVal n₁ * 10 + digitVal n₂ < 60)
    (hsec : digitVal s₁ * 10 + digitVal s₂ < 60)
    (hday : 1 ≤ digitVal d₁ * 10 + digitVal d₂
      ∧ digitVal d₁ * 10 + digitVal d₂ ≤ daysIn (digitVal m₁ * 10 + digitVal m₂)
          ((((digitVal y₁ * 10 + digitVal y₂) * 10 + digitVal y₃) * 10 + digitVal y₄ : Nat) : Int)) :
    parseLayout [y₁, y₂, y₃, y₄, '-', m₁, m₂, '-', d₁, d₂, 'T', h₁, h₂, ':', n₁, n₂, ':', s₁, s₂,
        '.', f₁, f₂, f₃]
      = some ⟨((((digitVal y₁ * 10 + digitVal y₂) * 10 + digitVal y₃) * 10 + digitVal y₄ : Nat) : Int),
          digitVal m₁ * 10 + digitVal m₂, digitVal d₁ * 10 + digitVal d₂,
          digitVal h₁ * 10 + digitVal h₂, digitVal n₁ * 10 + digitVal n₂,
          digitVal s₁ * 10 + digitVal s₂,
          ((digitVal f₁ * 10 + digitVal f₂) * 10 + digitVal f₃) * 1000000, 0⟩ := by
  have hdate : parseDate [y₁, y₂, y₃, y₄, '-', m₁, m₂, '-', d₁, d₂, 'T', h₁, h₂, ':', n₁, n₂,
      ':', s₁, s₂, '.', f₁, f₂, f₃]
      = some (((((digitVal y₁ * 10 + digitVal y₂) * 10 + digitVal y₃) * 10 + digitVal y₄ : Nat) : Int),
          digitVal m₁ * 10 + digitVal m₂, digitVal d₁ * 10 + digitVal d₂,
          [h₁, h₂, ':', n₁, n₂, ':', s₁, s₂, '.', f₁, f₂, f₃]) := by
    have hm : ¬ (digitVal m₁ * 10 + digitVal m₂ < 1 ∨ 12 < digitVal m₁ * 10 + digitVal m₂) := by
      omega
    simp [parseDate, getYear, atoi_of_digit, digitsValue, skip, getnum, hy₁, hy₂, hy₃, hy₄,
      hm₁, hm₂, hd₁, hd₂, hm]
    try omega
  have hclock : parseClock [h₁, h₂, ':', n₁, n₂, ':', s₁, s₂, '.', f₁, f₂, f₃]
      = some (digitVal h₁ * 10 + digitVal h₂, digitVal n₁ * 10 + digitVal n₂,
          digitVal s₁ * 10 + digitVal s₂, ['.', f₁, f₂, f₃]) := by
    simp [parseClock, skip, getnum, hh₁, hh₂, hn₁, hn₂, hs₁, hs₂, hhour, hmin, hsec]
    try omega
  have hfrac : getFraction ['.', f₁, f₂, f₃]
      = some (((digitVal f₁ * 10 + digitVal f₂) * 10 + digitVal f₃) * 1000000, []) := by
    simp [getFraction, atoi_of_digit, digitsValue, hf₁, hf₂, hf₃]
    try omega
  have hd : ¬ (digitVal d₁ * 10 + digitVal d₂ < 1
      ∨ daysIn (digitVal m₁ * 10 + digitVal m₂)
          ((((digitVal y₁ * 10 + digitVal y₂) * 10 + digitVal y₃) * 10 + digitVal y₄ : Nat) : Int)
        < digitVal d₁ * 10 + digitVal d₂) := by
    omega
  simp only [parseLayout, hdate, hclock, hfrac]
  rw [if_neg (by simp), if_neg hd]

/-- The text `Format` writes for a value whose year has at most four digits. -/
theorem Format_data (t : time.Time) (hv : t.Valid) (hlo : 0 ≤ t.year) (hhi : t.year ≤ 9999) :
    t.Format.data
      = [digit (t.year.natAbs / 1000), digit (t.year.natAbs / 100), digit (t.year.natAbs / 10),
          digit t.year.natAbs, '-', digit (t.month / 10), digit t.month, '-', digit (t.day / 10),
          digit t.day, 'T', digit (t.hour / 10), digit t.hour, ':', digit (t.min / 10),
          digit t.min, ':', digit (t.sec / 10), digit t.sec, '.', digit (t.nsec / 100000000),
          digit (t.nsec / 10000000), digit (t.nsec / 1000000)] := by
  obtain ⟨_, hm, _, hd, hh, hn, hs, _⟩ := hv
  have hdays : daysIn t.month t.year ≤ 31 := by
    unfold daysIn; split
    · split <;> decide
    · split <;> decide
  have hy : ¬ t.year < 0 := by omega
  have hyn : t.year.natAbs < 10000 := by omega
  have hmo : t.month < 100 := by omega
  have hda : t.day < 100 := by omega
  have hho : t.hour < 100 := by omega
  have hmi : t.min < 100 := by omega
  have hse : t.sec < 100 := by omega
  have hcast : ∀ n : Nat, ¬ ((n : Int) < 0) := fun n => by omega
  simp [Time.Format, appendInt, hy, hyn, hmo, hda, hho, hmi, hse, hcast]

/-- Trimming the quotes of a quoted text that neither starts nor ends with a quote. -/
theorem stringsTrim_quoted (c : Char) (mid : List Char) (d : Char) (hc : c ≠ '"')
    (hd : d ≠ '"') :
    stringsTrim ("\"" ++ String.mk (c :: (mid ++ [d])) ++ "\"") '"'
      = String.mk (c :: (mid ++ [d])) := by
  have hdata : ("\"" ++ String.mk (c :: (mid ++ [d])) ++ "\"").data
      = '"' :: c :: (mid ++ [d]) ++ ['"'] := by
    simp [String.data_append]
  unfold stringsTrim
  rw [hdata]
  have h1 : List.dropWhile (fun x => decide (x = '"')) ('"' :: c :: (mid ++ [d]) ++ ['"'])
      = (c :: mid ++ [d]) ++ ['"'] := by
    simp [List.dropWhile, hc]
  rw [h1, List.rdropWhile_concat_pos _ _ _ (by simp)]
  have h2 : c :: mid ++ [d] = (c :: mid) ++ [d] := rfl
  rw [h2, List.rdropWhile_concat_neg _ _ _ (by simpa using hd)]
  rfl

/-- Two digits written by `digit` are read back as the number below one hundred. -/
theorem two_digits (n : Nat) (h : n < 100) :
    digitVal (digit (n / 10)) * 10 + digitVal (digit n) = n := by
  simp only [digitVal_digit]; omega

/-- Decoding the quoted text `Format` writes gives the reading of the value, cut to
milliseconds, in UTC. -/
theorem UnmarshalJSON_Format (t : time.Time) (t₀ : Leonardo.Time) (hv : t.Valid)
    (hlo : 0 ≤ t.year) (hhi : t.year ≤ 9999) :
    Time.UnmarshalJSON t₀ ("\"" ++ t.Format ++ "\"")
      = (⟨{ t.truncMilli with offset := 0 }⟩, none) := by
  have hdata := Format_data t hv hlo hhi
  obtain ⟨hm1, hm, hd1, hd, hh, hn, hs, hns⟩ := hv
  have hdays : daysIn t.month t.year ≤ 31 := by
    unfold daysIn; split
    · split <;> decide
    · split <;> decide
  have hfmt : t.Format = String.mk (digit (t.year.natAbs / 1000) ::
      ([digit (t.year.natAbs / 100), digit (t.year.natAbs / 10),
          digit t.year.natAbs, '-', digit (t.month / 10), digit t.month, '-', digit (t.day / 10),
          digit t.day, 'T', digit (t.hour / 10), digit t.hour, ':', digit (t.min / 10),
          digit t.min, ':', digit (t.sec / 10), digit t.sec, '.', digit (t.nsec / 100000000),
          digit (t.nsec / 10000000)] ++ [digit (t.nsec / 1000000)])) := String.ext hdata
  have hq : ∀ n, digit n ≠ '"' := by
    intro n h
    have := isDig_digit n
    rw [h] at this
    exact absurd this (by decide)
  have hyear : (((((digitVal (digit (t.year.natAbs / 1000)) * 10
      + digitVal (digit (t.year.natAbs / 100))) * 10 + digitVal (digit (t.year.natAbs / 10))) * 10
      + digitVal (digit t.year.natAbs) : Nat)) : Int) = t.year := by
    simp only [digitVal_digit]; omega
  have hfrac : ((digitVal (digit (t.nsec / 100000000)) * 10
      + digitVal (digit (t.nsec / 10000000))) * 10 + digitVal (digit (t.nsec / 1000000))) * 1000000
      = t.nsec / 1000000 * 1000000 := by
    simp only [digitVal_digit]; omega
  have hparse := parseLayout_exact (digit (t.year.natAbs / 1000)) (digit (t.year.natAbs / 100))
    (digit (t.year.natAbs / 10)) (digit t.year.natAbs) (digit (t.month / 10)) (digit t.month)
    (digit (t.day / 10)) (digit t.day) (digit (t.hour / 10)) (digit t.hour) (digit (t.min / 10))
    (digit t.min) (digit (t.sec / 10)) (digit t.sec) (digit (t.nsec / 100000000))
    (digit (t.nsec / 10000000)) (digit (t.nsec / 1000000))
    (isDig_digit _) (isDig_digit _) (isDig_digit _) (isDig_digit _) (isDig_digit _)
    (isDig_digit _) (isDig_digit _) (isDig_digit _) (isDig_digit _) (isDig_digit _)
    (isDig_digit _) (isDig_digit _) (isDig_digit _) (isDig_digit _) (isDig_digit _)
    (isDig_digit _) (isDig_digit _)
    (by rw [two_digits _ (by omega)]; omega) (by rw [two_digits _ (by omega)]; omega)
    (by rw [two_digits _ (by omega)]; omega) (by rw [two_digits _ (by omega)]; omega)
    (by rw [two_digits _ (by omega), two_digits _ (by omega), hyear]; omega)
  rw [two_digits _ (by omega), two_digits _ (by omega), two_digits _ (by omega),
    two_digits _ (by omega), two_digits _ (by omega), hyear, hfrac] at hparse
  unfold Time.UnmarshalJSON
  simp only [hfmt, stringsTrim_quoted _ _ _ (hq _) (hq _), time.Parse]
  have hlist : (digit (t.year.natAbs / 1000) ::
      ([digit (t.year.natAbs / 100), digit (t.year.natAbs / 10),
          digit t.year.natAbs, '-', digit (t.month / 10), digit t.month, '-', digit (t.day / 10),
          digit t.day, 'T', digit (t.hour / 10), digit t.hour, ':', digit (t.min / 10),
          digit t.min, ':', digit (t.sec / 10), digit t.sec, '.', digit (t.nsec / 100000000),
          digit (t.nsec / 10000000)] ++ [digit (t.nsec / 1000000)]))
      = [digit (t.year.natAbs / 1000), digit (t.year.natAbs / 100), digit (t.year.natAbs / 10),
          digit t.year.natAbs, '-', digit (t.month / 10), digit t.month, '-', digit (t.day / 10),
          digit t.day, 'T', digit (t.hour / 10), digit t.hour, ':', digit (t.min / 10),
          digit t.min, ':', digit (t.sec / 10), digit t.sec, '.', digit (t.nsec / 100000000),
          digit (t.nsec / 10000000), digit (t.nsec / 1000000)] := rfl
  rw [hlist, hparse]
  rfl

/-- C13, where it fails: a value at 12:00 in a location one hour east of UTC is written
without its zone and read back as 12:00 UTC, an instant one hour later than the value. -/
theorem roundtrip_changes_instant :
    (⟨2024, 1, 1, 12, 0, 0, 0, 3600⟩ : time.Time).Valid
      ∧ ¬ ((Time.UnmarshalJSON zeroTime
              (Time.MarshalJSON ⟨⟨2024, 1, 1, 12, 0, 0, 0, 3600⟩⟩).1).2 = none
          ∧ (Time.UnmarshalJSON zeroTime
              (Time.MarshalJSON ⟨⟨2024, 1, 1, 12, 0, 0, 0, 3600⟩⟩).1).1.Time.UnixNano
            = (⟨2024, 1, 1, 12, 0, 0, 0, 3600⟩ : time.Time).truncMilli.UnixNano) := by
  decide

/-- C13 as amended: for a value whose year is within 0..9999, decoding what `MarshalJSON`
wrote succeeds and gives the reading of the value, cut to whole milliseconds, in UTC; for
a value in UTC this is the value itself cut to whole milliseconds, the same instant. -/
theorem roundtrip_utc (t : time.Time) (t₀ : Leonardo.Time) (hv : t.Valid) (hlo : 0 ≤ t.year)
    (hhi : t.year ≤ 9999) :
    Time.UnmarshalJSON t₀ (Time.MarshalJSON ⟨t⟩).1 = (⟨{ t.truncMilli with offset := 0 }⟩, none)
      ∧ (t.offset = 0 →
          Time.UnmarshalJSON t₀ (Time.MarshalJSON ⟨t⟩).1 = (⟨t.truncMilli⟩, none)
            ∧ (Time.UnmarshalJSON t₀ (Time.MarshalJSON ⟨t⟩).1).1.Time.UnixNano
              = t.truncMilli.UnixNano) := by
  have h : Time.UnmarshalJSON t₀ (Time.MarshalJSON ⟨t⟩).1
      = (⟨{ t.truncMilli with offset := 0 }⟩, none) :=
    UnmarshalJSON_Format t t₀ hv hlo hhi
  refine ⟨h, fun hoff => ?_⟩
  have ht : ({ t.truncMilli with offset := 0 } : time.Time) = t.truncMilli := by
    cases t
    simp only [time.Time.truncMilli] at hoff ⊢
    subst hoff
    rfl
  rw [h, ht]
  exact ⟨rfl, rfl⟩

/-- Witness of C13 as amended: a value in UTC with a part below the millisecond. -/
theorem roundtrip_utc_witness :
    (⟨2024, 2, 29, 23, 59, 58, 123456789, 0⟩ : time.Time).Valid
      ∧ Time.UnmarshalJSON zeroTime
          (Time.MarshalJSON ⟨⟨2024, 2, 29, 23, 59, 58, 123456789, 0⟩⟩).1
        = (⟨(⟨2024, 2, 29, 23, 59, 58, 123456789, 0⟩ : time.Time).truncMilli⟩, none) :=
  ⟨by decide,
    ((roundtrip_utc ⟨2024, 2, 29, 23, 59, 58, 123456789, 0⟩ zeroTime (by decide) (by decide)
      (by decide)).2 rfl).1⟩

/-- The text `Format` writes: the year, then nineteen characters for the rest. -/
theorem Format_after_year (t : time.Time) (hv : t.Valid) :
    t.Format.data
      = appendInt t.year 4 ++ ['-', digit (t.month / 10), digit t.month, '-', digit (t.day / 10),
          digit t.day, 'T', digit (t.hour / 10), digit t.hour, ':', digit (t.min / 10),
          digit t.min, ':', digit (t.sec / 10), digit t.sec, '.', digit (t.nsec / 100000000),
          digit (t.nsec / 10000000), digit (t.nsec / 1000000)] := by
  obtain ⟨_, hm, _, hd, hh, hn, hs, _⟩ := hv
  have hdays : daysIn t.month t.year ≤ 31 := by
    unfold daysIn; split
    · split <;> decide
    · split <;> decide
  have hmo : t.month < 100 := by omega
  have hda : t.day < 100 := by omega
  have hho : t.hour < 100 := by omega
  have hmi : t.min < 100 := by omega
  have hse : t.sec < 100 := by omega
  have hcast : ∀ n : Nat, ¬ ((n : Int) < 0) := fun n => by omega
  have h2 : ∀ n : Nat, n < 100 → appendInt (n : Int) 2 = [digit (n / 10), digit n] := by
    intro n hn
    simp [appendInt, hcast, hn]
  simp only [Time.Format, h2 _ hmo, h2 _ hda, h2 _ hho, h2 _ hmi, h2 _ hse]
  simp

/-- C15, where it fails: the year 10000 is written with five digits, so the content is
not of the shape `YYYY-MM-DDTHH:MM:SS.mmm`. -/
theorem MarshalJSON_year_10000 :
    (⟨10000, 1, 1, 0, 0, 0, 0, 0⟩ : time.Time).Valid
      ∧ Time.MarshalJSON ⟨⟨10000, 1, 1, 0, 0, 0, 0, 0⟩⟩
        = ("\"" ++ "10000-01-01T00:00:00.000" ++ "\"", none)
      ∧ exactForm "10000-01-01T00:00:00.000".data = false := by
  decide

/-- C15 as amended: `MarshalJSON` never fails and returns, between double quotes, the
year followed by `-MM-DDTHH:MM:SS.mmm` with exactly three digits of fraction and nothing
after them, whatever the offset and the part below the millisecond are; when the year is
within 0..9999 it has four digits and the content has the shape
`YYYY-MM-DDTHH:MM:SS.mmm`. -/
theorem MarshalJSON_shape (t : time.Time) (hv : t.Valid) :
    (Time.MarshalJSON ⟨t⟩).2 = none
      ∧ ∃ rest : List Char,
          (Time.MarshalJSON ⟨t⟩).1 = "\"" ++ String.mk (appendInt t.year 4 ++ rest) ++ "\""
            ∧ afterYearForm rest = true
            ∧ (0 ≤ t.year → t.year ≤ 9999 → exactForm (appendInt t.year 4 ++ rest) = true) := by
  refine ⟨rfl, ['-', digit (t.month / 10), digit t.month, '-', digit (t.day / 10),
    digit t.day, 'T', digit (t.hour / 10), digit t.hour, ':', digit (t.min / 10),
    digit t.min, ':', digit (t.sec / 10), digit t.sec, '.', digit (t.nsec / 100000000),
    digit (t.nsec / 10000000), digit (t.nsec / 1000000)], ?_, ?_, ?_⟩
  · show "\"" ++ t.Format ++ "\"" = _
    rw [show t.Format = String.mk _ from String.ext (Format_after_year t hv)]
  · simp [afterYearForm, isDig_digit]
  · intro hlo hhi
    have hy : ¬ t.year < 0 := by omega
    have hyn : t.year.natAbs < 10000 := by omega
    simp [appendInt, hy, hyn, exactForm, afterYearForm, isDig_digit]

/-- Witness of C15 as amended: a value in a location east of UTC with a part below the
millisecond. -/
theorem MarshalJSON_shape_witness :
    (⟨2024, 1, 2, 3, 4, 5, 123456789, 19800⟩ : time.Time).Valid
      ∧ (Time.MarshalJSON ⟨⟨2024, 1, 2, 3, 4, 5, 123456789, 19800⟩⟩).2 = none
      ∧ (Time.MarshalJSON ⟨⟨2024, 1, 2, 3, 4, 5, 123456789, 19800⟩⟩).1
        = "\"2024-01-02T03:04:05.123\"" :=
  ⟨by decide, (MarshalJSON_shape ⟨2024, 1, 2, 3, 4, 5, 123456789, 19800⟩ (by decide)).1,
    by decide⟩

/-- C16: for every string of the shape `YYYY-MM-DDTHH:MM:SS.mmm` that denotes a valid date
and time of day, `UnmarshalJSON` on the quoted string succeeds with the value it denotes,
and `MarshalJSON` of that value returns the quoted string again. -/
theorem decode_then_encode (s : String) (t : time.Time) (t₀ : Leonardo.Time)
    (hform : exactForm s.data = true) (hden : denotes s.data = some t) (hv : t.Valid) :
    Time.UnmarshalJSON t₀ ("\"" ++ s ++ "\"") = (⟨t⟩, none)
      ∧ Time.MarshalJSON ⟨t⟩ = ("\"" ++ s ++ "\"", none) := by
  obtain ⟨cs⟩ := s
  simp only at hform hden
  unfold exactForm at hform
  split at hform
  · next y₁ y₂ y₃ y₄ rest =>
    unfold afterYearForm at hform
    split at hform
    · next c₁ m₁ m₂ c₂ d₁ d₂ c₃ h₁ h₂ c₄ n₁ n₂ c₅ s₁ s₂ c₆ f₁ f₂ f₃ =>
      simp only [Bool.and_eq_true, decide_eq_true_eq] at hform
      obtain ⟨⟨⟨⟨hy₁, hy₂⟩, hy₃⟩, hy₄⟩, ⟨⟨⟨⟨⟨⟨⟨⟨⟨⟨⟨⟨⟨⟨⟨⟨⟨⟨hc₁, hm₁⟩, hm₂⟩, hc₂⟩, hd₁⟩, hd₂⟩, hc₃⟩,
        hh₁⟩, hh₂⟩, hc₄⟩, hn₁⟩, hn₂⟩, hc₅⟩, hs₁⟩, hs₂⟩, hc₆⟩, hf₁⟩, hf₂⟩, hf₃⟩⟩ := hform
      subst hc₁ hc₂ hc₃ hc₄ hc₅ hc₆
      simp only [denotes, Option.some.injEq] at hden
      have hyear : t.year = ((((digitVal y₁ * 10 + digitVal y₂) * 10 + digitVal y₃) * 10
          + digitVal y₄ : Nat) : Int) := by rw [← hden]
      have hmonth : t.month = digitVal m₁ * 10 + digitVal m₂ := by rw [← hden]
      have hday : t.day = digitVal d₁ * 10 + digitVal d₂ := by rw [← hden]
      have hhour : t.hour = digitVal h₁ * 10 + digitVal h₂ := by rw [← hden]
      have hminute : t.min = digitVal n₁ * 10 + digitVal n₂ := by rw [← hden]
      have hsecond : t.sec = digitVal s₁ * 10 + digitVal s₂ := by rw [← hden]
      have hnsec : t.nsec = ((digitVal f₁ * 10 + digitVal f₂) * 10 + digitVal f₃) * 1000000 := by
        rw [← hden]
      obtain ⟨hmo1, hmo, hda1, hda, hho, hmi, hse, hns⟩ := id hv
      have hq : ∀ c, isDig c = true → c ≠ '"' := by
        intro c hc h
        rw [h] at hc
        exact absurd hc (by decide)
      have hb : ∀ c, isDig c = true → digitVal c < 10 := by
        intro c hc
        simp only [isDig, decide_eq_true_eq] at hc
        simp only [digitVal]; omega
      have hparse := parseLayout_exact y₁ y₂ y₃ y₄ m₁ m₂ d₁ d₂ h₁ h₂ n₁ n₂ s₁ s₂ f₁ f₂ f₃
        hy₁ hy₂ hy₃ hy₄ hm₁ hm₂ hd₁ hd₂ hh₁ hh₂ hn₁ hn₂ hs₁ hs₂ hf₁ hf₂ hf₃
        (by rw [← hmonth]; exact ⟨hmo1, hmo⟩) (by rw [← hhour]; exact hho)
        (by rw [← hminute]; exact hmi) (by rw [← hsecond]; exact hse)
        (by rw [← hmonth, ← hday, ← hyear]; exact ⟨hda1, hda⟩)
      rw [hden] at hparse
      have hlist : [y₁, y₂, y₃, y₄, '-', m₁, m₂, '-', d₁, d₂, 'T', h₁, h₂, ':', n₁, n₂, ':',
          s₁, s₂, '.', f₁, f₂, f₃]
          = y₁ :: ([y₂, y₃, y₄, '-', m₁, m₂, '-', d₁, d₂, 'T', h₁, h₂, ':', n₁, n₂, ':',
              s₁, s₂, '.', f₁, f₂] ++ [f₃]) := rfl
      have b₁ := hb _ hy₁; have b₂ := hb _ hy₂; have b₃ := hb _ hy₃; have b₄ := hb _ hy₄
      have b₅ := hb _ hm₁; have b₆ := hb _ hm₂; have b₇ := hb _ hd₁; have b₈ := hb _ hd₂
      have b₉ := hb _ hh₁; have b₁₀ := hb _ hh₂; have b₁₁ := hb _ hn₁; have b₁₂ := hb _ hn₂
      have b₁₃ := hb _ hs₁; have b₁₄ := hb _ hs₂; have b₁₅ := hb _ hf₁; have b₁₆ := hb _ hf₂
      have b₁₇ := hb _ hf₃
      constructor
      · unfold Time.UnmarshalJSON
        rw [hlist, stringsTrim_quoted _ _ _ (hq _ hy₁) (hq _ hf₃), ← hlist]
        simp only [time.Parse, hparse]
      · have hfmt := Format_data t hv (by omega) (by omega)
        rw [digit_of_digitVal y₁ _ hy₁ (by omega), digit_of_digitVal y₂ _ hy₂ (by omega),
          digit_of_digitVal y₃ _ hy₃ (by omega), digit_of_digitVal y₄ _ hy₄ (by omega),
          digit_of_digitVal m₁ _ hm₁ (by omega), digit_of_digitVal m₂ _ hm₂ (by omega),
          digit_of_digitVal d₁ _ hd₁ (by omega), digit_of_digitVal d₂ _ hd₂ (by omega),
          digit_of_digitVal h₁ _ hh₁ (by omega), digit_of_digitVal h₂ _ hh₂ (by omega),
          digit_of_digitVal n₁ _ hn₁ (by omega), digit_of_digitVal n₂ _ hn₂ (by omega),
          digit_of_digitVal s₁ _ hs₁ (by omega), digit_of_digitVal s₂ _ hs₂ (by omega),
          digit_of_digitVal f₁ _ hf₁ (by omega), digit_of_digitVal f₂ _ hf₂ (by omega),
          digit_of_digitVal f₃ _ hf₃ (by omega)] at hfmt
        unfold Time.MarshalJSON
        rw [show time.Time.Format _ = String.mk _ from String.ext hfmt]
    · exact absurd hform (by simp)
  · exact absurd hform (by simp)

/-- Witness of C16: the last second of a leap day. -/
theorem decode_then_encode_witness :
    exactForm "2024-02-29T23:59:59.999".data = true
      ∧ (⟨2024, 2, 29, 23, 59, 59, 999000000, 0⟩ : time.Time).Valid
      ∧ Time.UnmarshalJSON zeroTime ("\"" ++ "2024-02-29T23:59:59.999" ++ "\"")
        = (⟨⟨2024, 2, 29, 23, 59, 59, 999000000, 0⟩⟩, none)
      ∧ Time.MarshalJSON ⟨⟨2024, 2, 29, 23, 59, 59, 999000000, 0⟩⟩
        = ("\"" ++ "2024-02-29T23:59:59.999" ++ "\"", none) :=
  ⟨by decide, by decide,
    decode_then_encode "2024-02-29T23:59:59.999" ⟨2024, 2, 29, 23, 59, 59, 999000000, 0⟩
      zeroTime (by decide) (by decide) (by decide)⟩

/-- The characters `digitsValue` accepts are digits. -/
theorem digitsValue_isDig (cs : List Char) :
    ∀ acc : Option Nat, (cs.foldl (fun acc c =>
        match acc with
        | none => none
        | some n => if isDig c then some (n * 10 + digitVal c) else none) acc).isSome = true →
      ∀ c ∈ cs, isDig c = true := by
  induction cs with
  | nil => intro _ _ c hc; cases hc
  | cons x rest ih =>
    intro acc h c hc
    rw [List.foldl_cons] at h
    have hnone : ∀ l : List Char, (l.foldl (fun acc c =>
        match acc with
        | none => none
        | some n => if isDig c then some (n * 10 + digitVal c) else none)
        (none : Option Nat)) = none := by
      intro l
      induction l with
      | nil => rfl
      | cons y l ihl => rw [List.foldl_cons]; exact ihl
    cases acc with
    | none => rw [hnone] at h; cases h
    | some n =>
      by_cases hx : isDig x = true
      · rcases List.mem_cons.mp hc with hc | hc
        · subst hc; exact hx
        · exact ih _ h c hc
      · dsimp only at h
        rw [if_neg hx, hnone] at h; cases h

/-- What `atoi` accepts: digits, after a sign or without one. -/
theorem atoi_some (c : Char) (cs : List Char) (n : Int) (h : atoi (c :: cs) = some n) :
    (isDig c = true ∨ c = '+' ∨ c = '-') ∧ ∀ x ∈ cs, isDig x = true := by
  unfold atoi at h
  split at h
  · next rest heq =>
    cases heq
    refine ⟨Or.inr (Or.inr rfl), digitsValue_isDig _ (some 0) ?_⟩
    cases hd : digitsValue cs with
    | none => rw [hd] at h; cases h
    | some _ => exact (congrArg Option.isSome hd).trans rfl
  · next rest heq =>
    cases heq
    refine ⟨Or.inr (Or.inl rfl), digitsValue_isDig _ (some 0) ?_⟩
    cases hd : digitsValue cs with
    | none => rw [hd] at h; cases h
    | some _ => exact (congrArg Option.isSome hd).trans rfl
  · have hall : ∀ x ∈ c :: cs, isDig x = true := by
      refine digitsValue_isDig _ (some 0) ?_
      cases hd : digitsValue (c :: cs) with
      | none => rw [hd] at h; cases h
      | some _ => exact (congrArg Option.isSome hd).trans rfl
    exact ⟨Or.inl (hall c (List.mem_cons_self _ _)),
      fun x hx => hall x (List.mem_cons_of_mem _ hx)⟩

/-- What `getYear` accepts: four digits. -/
theorem getYear_some (v : List Char) (y : Int) (r : List Char) (h : getYear v = some (y, r)) :
    ∃ y₁ y₂ y₃ y₄, v = y₁ :: y₂ :: y₃ :: y₄ :: r ∧ isDig y₁ = true ∧ isDig y₂ = true
      ∧ isDig y₃ = true ∧ isDig y₄ = true := by
  unfold getYear at h
  split at h
  · next y₁ y₂ y₃ y₄ rest =>
    split at h
    · cases h
    · next hy₁ =>
      cases ha : atoi [y₁, y₂, y₃, y₄] with
      | none => rw [ha] at h; cases h
      | some n =>
        rw [ha] at h
        simp only [Option.map_some', Option.some.injEq, Prod.mk.injEq] at h
        obtain ⟨_, hr⟩ := h
        subst hr
        have hs := (atoi_some _ _ _ ha).2
        refine ⟨y₁, y₂, y₃, y₄, rfl, by simpa using hy₁, hs _ (by simp), hs _ (by simp),
          hs _ (by simp)⟩
  · cases h

/-- What `skip` accepts: the character, then the rest. -/
theorem skip_some (v : List Char) (c : Char) (r : List Char) (h : skip v c = some r) :
    v = c :: r := by
  unfold skip at h
  split at h
  · split at h
    · next heq => cases h; rw [heq]
    · cases h
  · cases h

/-- What `getnum` accepts when the number is fixed: two digits. -/
theorem getnum_fixed_some (v : List Char) (n : Nat) (r : List Char)
    (h : getnum v true = some (n, r)) :
    ∃ a b, v = a :: b :: r ∧ isDig a = true ∧ isDig b = true := by
  unfold getnum at h
  split at h
  · cases h
  · next a rest =>
    split at h
    · cases h
    · next ha =>
      split at h
      · simp at h
      · next b rest₁ =>
        split at h
        · simp at h
        · next hb =>
          simp only [Option.some.injEq, Prod.mk.injEq] at h
          obtain ⟨_, hr⟩ := h
          subst hr
          exact ⟨a, b, rfl, by simpa using ha, by simpa using hb⟩

/-- What `getnum` accepts when the number is not fixed: one digit or two. -/
theorem getnum_free_some (v : List Char) (n : Nat) (r : List Char)
    (h : getnum v false = some (n, r)) :
    ∃ a, isDig a = true ∧ (v = a :: r ∨ ∃ b, isDig b = true ∧ v = a :: b :: r) := by
  unfold getnum at h
  split at h
  · cases h
  · next a rest =>
    split at h
    · cases h
    · next ha =>
      split at h
      · simp only [Bool.false_eq_true, if_false, Option.some.injEq, Prod.mk.injEq] at h
        obtain ⟨_, hr⟩ := h
        subst hr
        exact ⟨a, by simpa using ha, Or.inl rfl⟩
      · next b rest₁ =>
        split at h
        · simp only [Bool.false_eq_true, if_false, Option.some.injEq, Prod.mk.injEq] at h
          obtain ⟨_, hr⟩ := h
          subst hr
          exact ⟨a, by simpa using ha, Or.inl rfl⟩
        · next hb =>
          simp only [Option.some.injEq, Prod.mk.injEq] at h
          obtain ⟨_, hr⟩ := h
          subst hr
          exact ⟨a, by simpa using ha, Or.inr ⟨b, by simpa using hb, rfl⟩⟩

/-- What `getFraction` accepts: a period or a comma and three characters, digits but for a
sign in the first place. -/
theorem getFraction_some (v : List Char) (n : Nat) (r : List Char)
    (h : getFraction v = some (n, r)) :
    ∃ x f₁ f₂ f₃, v = x :: f₁ :: f₂ :: f₃ :: r ∧ (x = '.' ∨ x = ',')
      ∧ (isDig f₁ = true ∨ f₁ = '+' ∨ f₁ = '-') ∧ isDig f₂ = true ∧ isDig f₃ = true := by
  unfold getFraction at h
  split at h
  · next x f₁ f₂ f₃ rest =>
    split at h
    · cases h
    · next hx =>
      split at h
      · cases h
      · next ns ha =>
        split at h
        · cases h
        · simp only [Option.some.injEq, Prod.mk.injEq] at h
          obtain ⟨_, hr⟩ := h
          subst hr
          obtain ⟨h1, hs⟩ := atoi_some _ _ _ ha
          have hx' : x = '.' ∨ x = ',' := by
            simp at hx
            by_cases hp : x = '.'
            · exact Or.inl hp
            · exact Or.inr (hx hp)
          exact ⟨x, f₁, f₂, f₃, rfl, hx', h1, hs _ (by simp), hs _ (by simp)⟩
  · cases h

/-- What `parseDate` accepts: `YYYY-MM-DDT`. -/
theorem parseDate_some (v : List Char) (y : Int) (m d : Nat) (r : List Char)
    (h : parseDate v = some (y, m, d, r)) :
    ∃ y₁ y₂ y₃ y₄ m₁ m₂ d₁ d₂,
      v = y₁ :: y₂ :: y₃ :: y₄ :: '-' :: m₁ :: m₂ :: '-' :: d₁ :: d₂ :: 'T' :: r
        ∧ isDig y₁ = true ∧ isDig y₂ = true ∧ isDig y₃ = true ∧ isDig y₄ = true
        ∧ isDig m₁ = true ∧ isDig m₂ = true ∧ isDig d₁ = true ∧ isDig d₂ = true := by
  unfold parseDate at h
  split at h
  · cases h
  · next year v₁ hyear =>
    split at h
    · cases h
    · next v₂ hs₁ =>
      split at h
      · cases h
      · next month v₃ hmonth =>
        split at h
        · cases h
        · split at h
          · cases h
          · next v₄ hs₂ =>
            split at h
            · cases h
            · next day v₅ hday =>
              split at h
              · cases h
              · next v₆ hs₃ =>
                simp only [Option.some.injEq, Prod.mk.injEq] at h
                obtain ⟨_, _, _, hr⟩ := h
                subst hr
                obtain ⟨y₁, y₂, y₃, y₄, e₁, hy₁, hy₂, hy₃, hy₄⟩ := getYear_some _ _ _ hyear
                have e₂ := skip_some _ _ _ hs₁
                obtain ⟨m₁, m₂, e₃, hm₁, hm₂⟩ := getnum_fixed_some _ _ _ hmonth
                have e₄ := skip_some _ _ _ hs₂
                obtain ⟨d₁, d₂, e₅, hd₁, hd₂⟩ := getnum_fixed_some _ _ _ hday
                have e₆ := skip_some _ _ _ hs₃
                refine ⟨y₁, y₂, y₃, y₄, m₁, m₂, d₁, d₂, ?_, hy₁, hy₂, hy₃, hy₄, hm₁, hm₂, hd₁,
                  hd₂⟩
                rw [e₁, e₂, e₃, e₄, e₅, e₆]

/-- What `parseClock` accepts: an hour of one or two digits, then `:MM:SS`. -/
theorem parseClock_some (v : List Char) (hh mm ss : Nat) (r : List Char)
    (h : parseClock v = some (hh, mm, ss, r)) :
    ∃ h₁ n₁ n₂ s₁ s₂, isDig h₁ = true ∧ isDig n₁ = true ∧ isDig n₂ = true ∧ isDig s₁ = true
      ∧ isDig s₂ = true
      ∧ (v = h₁ :: ':' :: n₁ :: n₂ :: ':' :: s₁ :: s₂ :: r
        ∨ ∃ h₂, isDig h₂ = true ∧ v = h₁ :: h₂ :: ':' :: n₁ :: n₂ :: ':' :: s₁ :: s₂ :: r) := by
  unfold parseClock at h
  split at h
  · cases h
  · next hour v₁ hhour =>
    split at h
    · cases h
    · split at h
      · cases h
      · next v₂ hs₁ =>
        split at h
        · cases h
        · next minute v₃ hminute =>
          split at h
          · cases h
          · split at h
            · cases h
            · next v₄ hs₂ =>
              split at h
              · cases h
              · next second v₅ hsecond =>
                split at h
                · cases h
                · simp only [Option.some.injEq, Prod.mk.injEq] at h
                  obtain ⟨_, _, _, hr⟩ := h
                  subst hr
                  obtain ⟨h₁, hh₁, e₁⟩ := getnum_free_some _ _ _ hhour
                  have e₂ := skip_some _ _ _ hs₁
                  obtain ⟨n₁, n₂, e₃, hn₁, hn₂⟩ := getnum_fixed_some _ _ _ hminute
                  have e₄ := skip_some _ _ _ hs₂
                  obtain ⟨s₁, s₂, e₅, hs₁', hs₂'⟩ := getnum_fixed_some _ _ _ hsecond
                  refine ⟨h₁, n₁, n₂, s₁, s₂, hh₁, hn₁, hn₂, hs₁', hs₂', ?_⟩
                  rcases e₁ with e₁ | ⟨h₂, hh₂, e₁⟩
                  · left; rw [e₁, e₂, e₃, e₄, e₅]
                  · right; exact ⟨h₂, hh₂, by rw [e₁, e₂, e₃, e₄, e₅]⟩

/-- What `time.Parse` accepts has the shape as `time.Parse` takes it. -/
theorem parseLayout_lenient (v : List Char) (t : time.Time) (h : parseLayout v = some t) :
    lenientForm v = true := by
  unfold parseLayout at h
  split at h
  · cases h
  · next year month day v₁ hdate =>
    split at h
    · cases h
    · next hour minute second v₂ hclock =>
      split at h
      · cases h
      · next nsec v₃ hfrac =>
        split at h
        · cases h
        · next hnil =>
          have hv₃ : v₃ = [] := by simpa using hnil
          subst hv₃
          obtain ⟨y₁, y₂, y₃, y₄, m₁, m₂, d₁, d₂, e₁, hy₁, hy₂, hy₃, hy₄, hm₁, hm₂, hd₁, hd₂⟩ :=
            parseDate_some _ _ _ _ _ hdate
          obtain ⟨h₁, n₁, n₂, s₁, s₂, hh₁, hn₁, hn₂, hs₁, hs₂, e₂⟩ :=
            parseClock_some _ _ _ _ _ hclock
          obtain ⟨x, f₁, f₂, f₃, e₃, hx, hf₁, hf₂, hf₃⟩ := getFraction_some _ _ _ hfrac
          have hsep : (decide (x = '.') || decide (x = ',')) = true := by
            rcases hx with hx | hx <;> simp [hx]
          have hfirst : (isDig f₁ || decide (f₁ = '+') || decide (f₁ = '-')) = true := by
            rcases hf₁ with hf | hf | hf <;> simp [hf]
          have htail : lenientTail [':', n₁, n₂, ':', s₁, s₂, x, f₁, f₂, f₃] = true := by
            simp only [lenientTail, hn₁, hn₂, hs₁, hs₂, hsep, hfirst, hf₂, hf₃, decide_True,
              Bool.and_self]
          rcases e₂ with e₂ | ⟨h₂, hh₂, e₂⟩
          · rw [e₁, e₂, e₃]
            simp only [lenientForm, hy₁, hy₂, hy₃, hy₄, hm₁, hm₂, hd₁, hd₂, hh₁, htail,
              decide_True, Bool.and_self, Bool.true_or]
          · rw [e₁, e₂, e₃]
            simp only [lenientForm, hy₁, hy₂, hy₃, hy₄, hm₁, hm₂, hd₁, hd₂, hh₁, hh₂, htail,
              decide_True, Bool.and_self, Bool.or_true]

/-- C14, where it fails: `time.Parse` takes an hour of one digit for the chunk `15`, and a
comma for the period before the fraction, so `UnmarshalJSON` accepts `2024-01-02T3:04:05.000`
and `2024-01-02T03:04:05,000`, which are not of the shape `YYYY-MM-DDTHH:MM:SS.mmm`. -/
theorem UnmarshalJSON_accepts_other_shapes :
    exactForm (stringsTrim "\"2024-01-02T3:04:05.000\"" '"').data = false
      ∧ Time.UnmarshalJSON zeroTime "\"2024-01-02T3:04:05.000\""
        = (⟨⟨2024, 1, 2, 3, 4, 5, 0, 0⟩⟩, none)
      ∧ exactForm (stringsTrim "\"2024-01-02T03:04:05,000\"" '"').data = false
      ∧ Time.UnmarshalJSON zeroTime "\"2024-01-02T03:04:05,000\""
        = (⟨⟨2024, 1, 2, 3, 4, 5, 0, 0⟩⟩, none) := by
  decide

/-- C14 as amended: `UnmarshalJSON` returns an error and leaves the receiver as it was for
every input whose content, without the surrounding quotes, is not of the shape
`YYYY-MM-DDTHH:MM:SS.mmm` as `time.Parse` takes it, that is, with an hour of one or two
digits, a period or a comma before the fraction, and three characters of fraction that are
digits but for a sign in the first place. -/
theorem UnmarshalJSON_rejects (t₀ : Leonardo.Time) (data : String)
    (h : lenientForm (stringsTrim data '"').data = false) :
    (Time.UnmarshalJSON t₀ data).2 ≠ none ∧ (Time.UnmarshalJSON t₀ data).1 = t₀ := by
  have hnone : parseLayout (stringsTrim data '"').data = none := by
    cases hp : parseLayout (stringsTrim data '"').data with
    | none => rfl
    | some t =>
      have := parseLayout_lenient _ t hp
      rw [h] at this
      cases this
  simp [Time.UnmarshalJSON, time.Parse, hnone]

/-- Witness of C14 as amended: a trailing `Z`, fewer and more than three digits of fraction,
and a missing fraction are not of that shape, and the input with the trailing `Z` is
rejected. -/
theorem UnmarshalJSON_rejects_witness :
    lenientForm (stringsTrim "\"2024-01-02T03:04:05.000Z\"" '"').data = false
      ∧ lenientForm (stringsTrim "\"2024-01-02T03:04:05.00\"" '"').data = false
      ∧ lenientForm (stringsTrim "\"2024-01-02T03:04:05.0000\"" '"').data = false
      ∧ lenientForm (stringsTrim "\"2024-01-02T03:04:05\"" '"').data = false
      ∧ lenientForm (stringsTrim "\"2024-01-02T03:04:05.000+01:00\"" '"').data = false
      ∧ (Time.UnmarshalJSON zeroTime "\"2024-01-02T03:04:05.000Z\"").2 ≠ none :=
  ⟨by decide, by decide, by decide, by decide, by decide,
    (UnmarshalJSON_rejects zeroTime "\"2024-01-02T03:04:05.000Z\"" (by decide)).1⟩

end

/-! ## The client in memory, the round trip and the body -/

/-- The memory `NewClient` leaves: the client at the first address and the thirteen
services after it, in the order of their allocation. -/
theorem NewClient_eq (net : http.Request → Except GoError http.Response) (k : String) :
    NewClient net k = (0, ⟨14, [(0, ⟨"https://cloud.leonardo.ai/api/rest/v1", ⟨30000000000, net⟩, k,
      some 1, some 2, some 3, some 4, some 5, some 6, some 7, some 8, some 9, some 10,
      some 11, some 12, some 13⟩)],
      [(1, ⟨ServiceKind.DatasetsService, 0⟩), (2, ⟨ServiceKind.ImagesService, 0⟩),
       (3, ⟨ServiceKind.ElementsService, 0⟩), (4, ⟨ServiceKind.PromptService, 0⟩),
       (5, ⟨ServiceKind.InitImagesService, 0⟩), (6, ⟨ServiceKind.ModelsService, 0⟩),
       (7, ⟨ServiceKind.PricingCalculatorService, 0⟩),
       (8, ⟨ServiceKind.RealtimeCanvasService, 0⟩), (9, ⟨ServiceKind.TextureService, 0⟩),
       (10, ⟨ServiceKind.ThreeDModelAssetsService, 0⟩), (11, ⟨ServiceKind.UserService, 0⟩),
       (12, ⟨ServiceKind.VariationService, 0⟩), (13, ⟨ServiceKind.MotionService, 0⟩)]⟩) := by
  rfl

/-- Closing the body that was handed out last. -/
theorem closeAt_length (bodies : List BodyState) (b : BodyState) :
    closeAt bodies.length (bodies ++ [b]) = bodies ++ [{ b with closed := true }] := by
  induction bodies with
  | nil => rfl
  | cons x rest ih =>
    show x :: closeAt rest.length (rest ++ [b]) = _
    rw [ih]
    rfl

/-- The body that was handed out last is found at its number. -/
theorem get?_length (bodies : List BodyState) (b : BodyState) :
    (bodies ++ [b]).get? bodies.length = some b := by
  induction bodies with
  | nil => rfl
  | cons x rest ih => exact ih

/-- The requests in a log that continues another. -/
theorem roundTrips_append (l₁ l₂ : List Effect) :
    roundTrips (l₁ ++ l₂) = roundTrips l₁ ++ roundTrips l₂ := by
  induction l₁ with
  | nil => rfl
  | cons e rest ih =>
    cases e with
    | roundTrip req =>
      show req :: roundTrips (rest ++ l₂) = req :: roundTrips rest ++ roundTrips l₂
      rw [ih]
      rfl
    | read b => exact ih
    | close b => exact ih

/-- The requests among the entries the events of a call stand for. -/
theorem roundTrips_effect (body : Nat) (trace : List Event) :
    roundTrips (trace.map (Event.effect body)) = sentRequests trace := by
  induction trace with
  | nil => rfl
  | cons e rest ih =>
    cases e with
    | send req =>
      show req :: roundTrips (rest.map (Event.effect body)) = req :: sentRequests rest
      rw [ih]
    | readBody => exact ih
    | closeBody => exact ih

/-- `Client.NewRequest` through a pointer to a client: it returns what the method returns
on the fields of that client, and the state is as before. -/
theorem InMemory_NewRequest {β : Type} [Marshaler β]
    (urlParse : String → Except GoError url.URL) (w : World) (c : Addr) (cv : ClientValue)
    (ctx : Option http.Context) (method path : String) (body : Option β)
    (hc : w.mem.client c = some cv) :
    InMemory.Client.NewRequest urlParse w c ctx method path body
      = some (cv.toClient.NewRequest urlParse ctx method path body, w) := by
  unfold InMemory.Client.NewRequest Client.NewRequest
  cases body with
  | none =>
    simp only [hc, ClientValue.toClient]
    cases http.NewRequestWithContext urlParse ctx method (cv.BaseURL ++ path) none <;> rfl
  | some b =>
    cases hm : Marshaler.marshal b with
    | error e => simp only [hm]
    | ok j =>
      simp only [hm, hc, ClientValue.toClient]
      cases http.NewRequestWithContext urlParse ctx method (cv.BaseURL ++ path) (some j) <;> rfl

/-- `Client.Do` through a pointer to a client: it returns what the method returns on the
fields of that client, the memory is as before, the log goes on with the entries the events
of the call stand for, and the response body, when there is one, is new and closed. -/
theorem InMemory_Do {α : Type} [Unmarshaler α] (w : World) (c : Addr) (cv : ClientValue)
    (req : http.Request) (v : Option α) (hc : w.mem.client c = some cv) :
    InMemory.Client.Do w c req v
      = some (((cv.toClient.Do req v).err, (cv.toClient.Do req v).v),
          ⟨w.mem, w.log ++ (cv.toClient.Do req v).trace.map (Event.effect w.bodies.length),
            match cv.HTTPClient.Do req with
            | Except.error _ => w.bodies
            | Except.ok resp => w.bodies ++ [⟨resp.Body, true⟩]⟩) := by
  unfold InMemory.Client.Do Client.Do
  simp only [hc, ClientValue.toClient, World.roundTrip]
  cases hresp : cv.HTTPClient.Do req with
  | error e => rfl
  | ok resp =>
    simp only [World.deferred, World.decode, World.close, get?_length, closeAt_length]
    by_cases hstatus : resp.StatusCode < 200 ∨ resp.StatusCode ≥ 300
    · simp only [if_pos hstatus, Bool.false_eq_true, if_false]
      rcases hD : Decode resp.Body APIErrorResponse.zero with ⟨d, e⟩
      cases e <;>
        simp only [closeAt_length, List.append_assoc, List.map, Event.effect,
          List.singleton_append, List.cons_append, List.nil_append]
    · simp only [if_neg hstatus, Bool.false_eq_true, if_false]
      cases v with
      | none =>
        simp only [closeAt_length, List.append_assoc, List.map, Event.effect,
          List.singleton_append, List.cons_append, List.nil_append]
      | some dst =>
        simp only [closeAt_length, List.append_assoc, List.map, Event.effect,
          List.singleton_append, List.cons_append, List.nil_append]

/-- The body of an endpoint wrapper through a pointer to a service: it returns what the
wrapper returns on the fields of the client of that service, the memory is as before, and
the log goes on with the entries the events of the call stand for. -/
theorem InMemory_endpoint {β ρ : Type} [Marshaler β] [Unmarshaler ρ]
    (urlParse : String → Except GoError url.URL) (w : World) (s : Addr) (sv : ServiceValue)
    (scv : ClientValue) (ctx : Option http.Context) (method path : String) (body : Option β)
    (resp : ρ) (requestFailed doFailed : String)
    (hs : w.mem.service s = some sv) (hsc : w.mem.client sv.client = some scv) :
    ∃ after : World,
      InMemory.endpoint urlParse w s ctx method path body resp requestFailed doFailed
        = some (((endpoint urlParse scv.toClient ctx method path body resp requestFailed
              doFailed).resp,
            (endpoint urlParse scv.toClient ctx method path body resp requestFailed
              doFailed).err), after)
        ∧ after.mem = w.mem
        ∧ after.log = w.log
            ++ (endpoint urlParse scv.toClient ctx method path body resp requestFailed
              doFailed).trace.map (Event.effect w.bodies.length) := by
  unfold InMemory.endpoint endpoint
  simp only [hs, InMemory_NewRequest urlParse w sv.client scv ctx method path body hsc]
  cases scv.toClient.NewRequest urlParse ctx method path body with
  | error e => exact ⟨w, rfl, rfl, (List.append_nil _).symm⟩
  | ok httpReq =>
    simp only [hs, InMemory_Do w sv.client scv httpReq (some resp) hsc]
    cases (scv.toClient.Do httpReq (some resp)).err with
    | none => exact ⟨_, rfl, rfl, rfl⟩
    | some e => exact ⟨_, rfl, rfl, rfl⟩

/-- C21: `Client.NewRequest`, `Client.Do` and the endpoint wrappers, called through a
pointer to a client in memory (the wrappers through a pointer to a service of a client in
memory), return, and the memory after the call is the memory before it, whatever the
result: `BaseURL`, `APIKey`, `HTTPClient` and the service fields of every client, and every
service, are as they were.  The values returned are those of the methods on the fields of
the client. -/
theorem calls_leave_configuration {β α ρ : Type} [Marshaler β] [Unmarshaler α]
    [Unmarshaler ρ] (urlParse : String → Except GoError url.URL) (w : World) (c s : Addr)
    (cv : ClientValue) (sv : ServiceValue) (scv : ClientValue) (ctx : Option http.Context)
    (method path id : String) (limit offset : Int) (body : Option β)
    (payload : CreateDatasetRequest) (req : http.Request) (v : Option α) (resp : ρ)
    (requestFailed doFailed : String)
    (hc : w.mem.client c = some cv) (hs : w.mem.service s = some sv)
    (hsc : w.mem.client sv.client = some scv) :
    (∃ after, InMemory.Client.NewRequest urlParse w c ctx method path body
        = some (cv.toClient.NewRequest urlParse ctx method path body, after)
        ∧ after.mem = w.mem)
      ∧ (∃ after, InMemory.Client.Do w c req v
          = some (((cv.toClient.Do req v).err, (cv.toClient.Do req v).v), after)
          ∧ after.mem = w.mem)
      ∧ (∃ after, InMemory.endpoint urlParse w s ctx method path body resp requestFailed
            doFailed
          = some (((endpoint urlParse scv.toClient ctx method path body resp requestFailed
                doFailed).resp,
              (endpoint urlParse scv.toClient ctx method path body resp requestFailed
                doFailed).err), after)
          ∧ after.mem = w.mem)
      ∧ (∃ after, InMemory.ImagesService.DeleteGeneration urlParse w s ctx id resp
          = some (((ImagesService.DeleteGeneration urlParse ⟨scv.toClient⟩ ctx id resp).resp,
              (ImagesService.DeleteGeneration urlParse ⟨scv.toClient⟩ ctx id resp).err), after)
          ∧ after.mem = w.mem)
      ∧ (∃ after, InMemory.DatasetsService.CreateDataset urlParse w s ctx payload
          = some (((DatasetsService.CreateDataset urlParse ⟨scv.toClient⟩ ctx payload).resp,
              (DatasetsService.CreateDataset urlParse ⟨scv.toClient⟩ ctx payload).err), after)
          ∧ after.mem = w.mem)
      ∧ (∃ after, InMemory.ImagesService.GetGenerationsByUserID urlParse w s ctx id limit
            offset resp
          = some (((ImagesService.GetGenerationsByUserID urlParse ⟨scv.toClient⟩ ctx id limit
                offset resp).resp,
              (ImagesService.GetGenerationsByUserID urlParse ⟨scv.toClient⟩ ctx id limit
                offset resp).err), after)
          ∧ after.mem = w.mem) := by
  refine ⟨⟨w, InMemory_NewRequest urlParse w c cv ctx method path body hc, rfl⟩,
    ⟨_, InMemory_Do w c cv req v hc, rfl⟩, ?_, ?_, ?_, ?_⟩
  · obtain ⟨after, h, hmem, _⟩ := InMemory_endpoint urlParse w s sv scv ctx method path body
      resp requestFailed doFailed hs hsc
    exact ⟨after, h, hmem⟩
  · obtain ⟨after, h, hmem, _⟩ := InMemory_endpoint urlParse w s sv scv ctx "DELETE"
      ("/generations/" ++ urlPathEscape id) (none : Option NoBody) resp
      "creating DeleteGeneration request failed" "deleting generation failed" hs hsc
    exact ⟨after, h, hmem⟩
  · obtain ⟨after, h, hmem, _⟩ := InMemory_endpoint urlParse w s sv scv ctx "POST"
      "/datasets" (some payload) CreateDatasetResponse.zero
      "creating CreateDataset request failed" "creating dataset failed" hs hsc
    exact ⟨after, h, hmem⟩
  · obtain ⟨after, h, hmem, _⟩ := InMemory_endpoint urlParse w s sv scv ctx "GET"
      ("/generations/user/" ++ url.PathEscape id ++ userListQuery limit offset)
      (none : Option NoBody) resp "creating GetGenerationsByUserID request failed"
      "retrieving generations by user ID failed" hs hsc
    exact ⟨after, h, hmem⟩

/-- Witness of C21: the client `NewClient` makes, after a `Do` that fails in the transport:
the error comes back, and the client at its address has the fields it had. -/
theorem calls_leave_configuration_witness :
    ∃ after,
      InMemory.Client.Do
          (World.afterNewClient
            (fun _ => Except.error (GoError.library "dial tcp: connection refused"))
            "test-api-key") 0 sampleRequest (none : Option APIErrorResponse)
        = some ((some (GoError.library "dial tcp: connection refused"), none), after)
      ∧ (after.mem.client 0).map (fun v => (v.BaseURL, v.APIKey, v.Images))
        = some ("https://cloud.leonardo.ai/api/rest/v1", "test-api-key", some 2) := by
  obtain ⟨after, h, hmem⟩ := (calls_leave_configuration (β := NoBody) (α := APIErrorResponse)
    (ρ := CreateGenerationResponse) url.Parse
    (World.afterNewClient
      (fun _ => Except.error (GoError.library "dial tcp: connection refused")) "test-api-key")
    0 2 _ ⟨ServiceKind.ImagesService, 0⟩ _ (some ⟨0⟩) "GET" "/me" "gen-123" 10 0
    none ⟨"d", none⟩ sampleRequest none CreateGenerationResponse.zero "a" "b" rfl rfl rfl).2.1
  refine ⟨after, h, ?_⟩
  rw [hmem]
  rfl

/-- C22: a call of `Client.Do` calls the HTTP client exactly once, with its request,
whatever the outcome: the requests on record after the call are those before it and that
one request, which is the first entry the call adds, and no entry after it is a request.
An error of the HTTP client is returned as it is, with the destination untouched, no
response body and nothing more on record. -/
theorem Do_single_round_trip {α : Type} [Unmarshaler α] (w : World) (c : Addr)
    (cv : ClientValue) (req : http.Request) (v : Option α)
    (hc : w.mem.client c = some cv) :
    ∃ (err : Option GoError) (dst : Option α) (after : World),
      InMemory.Client.Do w c req v = some ((err, dst), after)
        ∧ roundTrips after.log = roundTrips w.log ++ [req]
        ∧ (∃ rest, after.log = w.log ++ Effect.roundTrip req :: rest ∧ roundTrips rest = [])
        ∧ (∀ e, cv.HTTPClient.Do req = Except.error e →
            err = some e ∧ dst = v ∧ after.log = w.log ++ [Effect.roundTrip req]
              ∧ after.bodies = w.bodies) := by
  refine ⟨_, _, _, InMemory_Do w c cv req v hc, ?_, ?_, ?_⟩
  · show roundTrips (w.log ++ _) = _
    rw [roundTrips_append, roundTrips_effect, Do_sentRequests]
  · show ∃ rest, w.log ++ _ = w.log ++ Effect.roundTrip req :: rest ∧ roundTrips rest = []
    unfold Client.Do
    cases cv.toClient.HTTPClient.Do req with
    | error e => exact ⟨[], rfl, rfl⟩
    | ok resp =>
      simp only []
      by_cases hstatus : resp.StatusCode < 200 ∨ resp.StatusCode ≥ 300
      · rw [if_pos hstatus]
        cases (Decode resp.Body APIErrorResponse.zero).2 <;> exact ⟨_, rfl, rfl⟩
      · rw [if_neg hstatus]
        cases v <;> exact ⟨_, rfl, rfl⟩
  · intro e he
    have he' : cv.toClient.HTTPClient.Do req = Except.error e := he
    have hD : cv.toClient.Do req v = ⟨some e, v, [Event.send req]⟩ := by
      simp only [Client.Do, he']
    rw [hD]
    refine ⟨rfl, rfl, rfl, ?_⟩
    simp only [he]

/-- Witness of C22: a transport error comes back as it is, after one request. -/
theorem Do_single_round_trip_witness :
    ∃ after,
      InMemory.Client.Do
          (World.afterNewClient
            (fun _ => Except.error (GoError.library "dial tcp: connection refused"))
            "test-api-key") 0 sampleRequest (some CreateGenerationResponse.zero)
        = some ((some (GoError.library "dial tcp: connection refused"),
            some CreateGenerationResponse.zero), after)
      ∧ roundTrips after.log = [sampleRequest] := by
  obtain ⟨err, dst, after, h, hreqs, _, herr⟩ := Do_single_round_trip
    (World.afterNewClient
      (fun _ => Except.error (GoError.library "dial tcp: connection refused")) "test-api-key")
    0 _ sampleRequest (some CreateGenerationResponse.zero) rfl
  obtain ⟨h1, h2, _, _⟩ := herr _ rfl
  subst h1
  subst h2
  exact ⟨after, h, hreqs⟩

/-- C23: when the HTTP client returns a response, its body has been closed by the time
`Client.Do` returns, on every path: the body is new, it is closed after the call and the
bodies handed out before are as they were; the closing is the last entry of the call and
the only closing; the entries are the round trip, one read of the body and the closing on a
status outside [200,300) (whether the error body decodes or not) and on a status inside
with a destination (whether the body decodes or not), and the round trip and the closing on
a status inside without a destination.  The read comes before the closing, so what is
decoded is the content of the body. -/
theorem Do_closes_body {α : Type} [Unmarshaler α] (w : World) (c : Addr) (cv : ClientValue)
    (req : http.Request) (v : Option α) (resp : http.Response)
    (hc : w.mem.client c = some cv) (hresp : cv.HTTPClient.Do req = Except.ok resp) :
    ∃ (err : Option GoError) (dst : Option α) (after : World),
      InMemory.Client.Do w c req v = some ((err, dst), after)
        ∧ after.bodies = w.bodies ++ [⟨resp.Body, true⟩]
        ∧ after.log.getLast? = some (Effect.close w.bodies.length)
        ∧ ((resp.StatusCode < 200 ∨ resp.StatusCode ≥ 300) →
            after.log = w.log ++ [Effect.roundTrip req, Effect.read w.bodies.length,
              Effect.close w.bodies.length])
        ∧ (¬ (resp.StatusCode < 200 ∨ resp.StatusCode ≥ 300) → ∀ d, v = some d →
            after.log = w.log ++ [Effect.roundTrip req, Effect.read w.bodies.length,
                Effect.close w.bodies.length]
              ∧ err = (Decode resp.Body d).2 ∧ dst = some (Decode resp.Body d).1)
        ∧ (¬ (resp.StatusCode < 200 ∨ resp.StatusCode ≥ 300) → v = none →
            after.log = w.log ++ [Effect.roundTrip req, Effect.close w.bodies.length]
              ∧ err = none) := by
  have hresp' : cv.toClient.HTTPClient.Do req = Except.ok resp := hresp
  refine ⟨_, _, _, InMemory_Do w c cv req v hc, ?_, ?_, ?_, ?_, ?_⟩
  · simp only [hresp]
  · show (w.log ++ _).getLast? = _
    by_cases hstatus : resp.StatusCode < 200 ∨ resp.StatusCode ≥ 300
    · simp only [Client.Do, hresp', if_pos hstatus]
      cases (Decode resp.Body APIErrorResponse.zero).2 <;>
        simp [Event.effect]
    · simp only [Client.Do, hresp', if_neg hstatus]
      cases v <;> simp [Event.effect]
  · intro hstatus
    show w.log ++ _ = _
    simp only [Client.Do, hresp', if_pos hstatus]
    cases (Decode resp.Body APIErrorResponse.zero).2 <;> rfl
  · intro hstatus d hv
    subst hv
    have hD : cv.toClient.Do req (some d)
        = ⟨(Decode resp.Body d).2, some (Decode resp.Body d).1,
            [Event.send req, Event.readBody, Event.closeBody]⟩ := by
      simp only [Client.Do, hresp', if_neg hstatus]
    rw [hD]
    exact ⟨rfl, rfl, rfl⟩
  · intro hstatus hv
    subst hv
    have hD : cv.toClient.Do req (none : Option α)
        = ⟨none, none, [Event.send req, Event.closeBody]⟩ := by
      simp only [Client.Do, hresp', if_neg hstatus]
    rw [hD]
    exact ⟨rfl, rfl⟩

/-- Witness of C23: an error body that cannot be decoded, status 500, on the client
`NewClient` makes: the error names the status, the destination is untouched, and the body
is closed after its one read. -/
theorem Do_closes_body_witness :
    ∃ after,
      InMemory.Client.Do
          (World.afterNewClient (fun _ => Except.ok
            ⟨500, Body.invalid (GoError.syntaxError "unexpected end of JSON input")⟩)
            "test-api-key") 0 sampleRequest (some CreateGenerationResponse.zero)
        = some ((some (GoError.errorString "API request failed with status 500"),
            some CreateGenerationResponse.zero), after)
      ∧ after.bodies
        = [⟨Body.invalid (GoError.syntaxError "unexpected end of JSON input"), true⟩]
      ∧ after.log = [Effect.roundTrip sampleRequest, Effect.read 0, Effect.close 0] := by
  obtain ⟨err, dst, after, h, hbodies, _, hlog, _, _⟩ := Do_closes_body
    (World.afterNewClient (fun _ => Except.ok
      ⟨500, Body.invalid (GoError.syntaxError "unexpected end of JSON input")⟩) "test-api-key")
    0 _ sampleRequest (some CreateGenerationResponse.zero)
    ⟨500, Body.invalid (GoError.syntaxError "unexpected end of JSON input")⟩ rfl rfl
  have hval : (InMemory.Client.Do
      (World.afterNewClient (fun _ => Except.ok
        ⟨500, Body.invalid (GoError.syntaxError "unexpected end of JSON input")⟩)
        "test-api-key") 0 sampleRequest (some CreateGenerationResponse.zero)).map
        (fun r => r.1)
      = some (some (GoError.errorString "API request failed with status 500"),
          some CreateGenerationResponse.zero) := rfl
  rw [h] at hval
  have hpair : (err, dst) = (some (GoError.errorString "API request failed with status 500"),
      some CreateGenerationResponse.zero) := Option.some.inj hval
  rw [hpair] at h
  exact ⟨after, h, hbodies, hlog (by decide)⟩

/-- C24: for every key `k`, the client `NewClient` returns has `APIKey = k`, the fixed
`BaseURL` and an HTTP client with a timeout of thirty seconds, and each of its thirteen
service fields points to a service of the type of the field whose `client` is that same
client. -/
theorem NewClient_fields (net : http.Request → Except GoError http.Response) (k : String) :
    ∃ v, (NewClient net k).2.client (NewClient net k).1 = some v
      ∧ v.APIKey = k
      ∧ v.BaseURL = "https://cloud.leonardo.ai/api/rest/v1"
      ∧ v.HTTPClient.Timeout = 30 * 1000000000
      ∧ (∃ a, v.Datasets = some a ∧ (NewClient net k).2.service a
          = some ⟨ServiceKind.DatasetsService, (NewClient net k).1⟩)
      ∧ (∃ a, v.Images = some a ∧ (NewClient net k).2.service a
          = some ⟨ServiceKind.ImagesService, (NewClient net k).1⟩)
      ∧ (∃ a, v.Elements = some a ∧ (NewClient net k).2.service a
          = some ⟨ServiceKind.ElementsService, (NewClient net k).1⟩)
      ∧ (∃ a, v.Prompt = some a ∧ (NewClient net k).2.service a
          = some ⟨ServiceKind.PromptService, (NewClient net k).1⟩)
      ∧ (∃ a, v.InitImages = some a ∧ (NewClient net k).2.service a
          = some ⟨ServiceKind.InitImagesService, (NewClient net k).1⟩)
      ∧ (∃ a, v.Models = some a ∧ (NewClient net k).2.service a
          = some ⟨ServiceKind.ModelsService, (NewClient net k).1⟩)
      ∧ (∃ a, v.PricingCalculator = some a ∧ (NewClient net k).2.service a
          = some ⟨ServiceKind.PricingCalculatorService, (NewClient net k).1⟩)
      ∧ (∃ a, v.RealtimeCanvas = some a ∧ (NewClient net k).2.service a
          = some ⟨ServiceKind.RealtimeCanvasService, (NewClient net k).1⟩)
      ∧ (∃ a, v.Texture = some a ∧ (NewClient net k).2.service a
          = some ⟨ServiceKind.TextureService, (NewClient net k).1⟩)
      ∧ (∃ a, v.ThreeDModelAssets = some a ∧ (NewClient net k).2.service a
          = some ⟨ServiceKind.ThreeDModelAssetsService, (NewClient net k).1⟩)
      ∧ (∃ a, v.User = some a ∧ (NewClient net k).2.service a
          = some ⟨ServiceKind.UserService, (NewClient net k).1⟩)
      ∧ (∃ a, v.Variation = some a ∧ (NewClient net k).2.service a
          = some ⟨ServiceKind.VariationService, (NewClient net k).1⟩)
      ∧ (∃ a, v.Motion = some a ∧ (NewClient net k).2.service a
          = some ⟨ServiceKind.MotionService, (NewClient net k).1⟩) := by
  rw [NewClient_eq]
  exact ⟨_, rfl, rfl, rfl, rfl, ⟨1, rfl, rfl⟩, ⟨2, rfl, rfl⟩, ⟨3, rfl, rfl⟩, ⟨4, rfl, rfl⟩,
    ⟨5, rfl, rfl⟩, ⟨6, rfl, rfl⟩, ⟨7, rfl, rfl⟩, ⟨8, rfl, rfl⟩, ⟨9, rfl, rfl⟩, ⟨10, rfl, rfl⟩,
    ⟨11, rfl, rfl⟩, ⟨12, rfl, rfl⟩, ⟨13, rfl, rfl⟩⟩

/-! ## Optional fields, quotes and errors of the wrappers -/

/-- C25: the serialised `CreateDatasetRequest` is an object that always has the key `name`
with the name as its value, has no key `description` when `Description` is nil, and has
`description` with the string pointed to when it is not, the empty string included; and
decoding that object into a zero `CreateDatasetRequest` gives the request back without
error, with `Description` nil or pointing to the same string as before. -/
theorem CreateDatasetRequest_optional_field (req : CreateDatasetRequest) :
    ∃ members, Marshaler.marshal req = Except.ok (JSON.obj members)
      ∧ members.map Prod.fst
        = (if req.Description = none then ["name"] else ["name", "description"])
      ∧ membersFor "name" members = [JSON.str req.Name]
      ∧ (req.Description = none → membersFor "description" members = [])
      ∧ (∀ d, req.Description = some d → membersFor "description" members = [JSON.str d])
      ∧ (req.Description = some "" → membersFor "description" members = [JSON.str ""])
      ∧ Decode (Body.value (JSON.obj members)) CreateDatasetRequest.zero = (req, none) := by
  have hname : findField CreateDatasetRequest.fields "name"
      = some (Field.lens "name" (fun v => v.Name) (fun v x => { v with Name := x })
          unmarshalString) := by
    simp [findField, CreateDatasetRequest.fields, List.find?, Field.lens]
  have hdesc : findField CreateDatasetRequest.fields "description"
      = some (Field.lens "description" (fun v => v.Description)
          (fun v x => { v with Description := x }) (unmarshalPtr "" unmarshalString)) := by
    simp [findField, CreateDatasetRequest.fields, List.find?, Field.lens]
  have hnd : ¬ foldName "name" = foldName "description" := by decide
  have hdn : ¬ foldName "description" = foldName "name" := by decide
  obtain ⟨name, description⟩ := req
  cases description with
  | none =>
    refine ⟨[("name", JSON.str name)], rfl, rfl, ?_, ?_, ?_, ?_, ?_⟩
    · rw [membersFor_cons, if_pos rfl]; rfl
    · intro _; rw [membersFor_cons, if_neg hnd]; rfl
    · intro d hd; cases hd
    · intro hd; cases hd
    · simp [Decode, Unmarshaler.unmarshal, unmarshalStruct, objectInto, hname, Field.lens,
        unmarshalString, firstError, CreateDatasetRequest.zero]
  | some d =>
    refine ⟨[("name", JSON.str name), ("description", JSON.str d)], rfl, rfl, ?_, ?_, ?_, ?_,
      ?_⟩
    · rw [membersFor_cons, if_pos rfl, membersFor_cons, if_neg hdn]; rfl
    · intro hd; cases hd
    · intro d' hd
      cases hd
      rw [membersFor_cons, if_neg hnd, membersFor_cons, if_pos rfl]; rfl
    · intro hd
      cases hd
      rw [membersFor_cons, if_neg hnd, membersFor_cons, if_pos rfl]; rfl
    · simp [Decode, Unmarshaler.unmarshal, unmarshalStruct, objectInto, hname, hdesc,
        Field.lens, unmarshalString, unmarshalPtr, firstError, CreateDatasetRequest.zero]

/-- Trimming a text wrapped in any number of quotes on either side. -/
theorem stringsTrim_wrapped (cs : List Char) (n m : Nat) (hhead : cs.head? ≠ some '"')
    (hlast : cs.getLast? ≠ some '"') :
    stringsTrim (String.mk (List.replicate n '"' ++ cs ++ List.replicate m '"')) '"'
      = String.mk cs := by
  have hdrop : ∀ (k : Nat) (rest : List Char),
      List.dropWhile (fun c => decide (c = '"')) (List.replicate k '"' ++ rest)
        = List.dropWhile (fun c => decide (c = '"')) rest := by
    intro k rest
    induction k with
    | zero => rfl
    | succ k ih => simp [List.replicate_succ, List.dropWhile]
  have hrdrop : ∀ (k : Nat) (front : List Char),
      List.rdropWhile (fun c => decide (c = '"')) (front ++ List.replicate k '"')
        = List.rdropWhile (fun c => decide (c = '"')) front := by
    intro k front
    induction k with
    | zero => simp
    | succ k ih =>
      rw [List.replicate_succ', ← List.append_assoc,
        List.rdropWhile_concat_pos _ _ _ (by simp)]
      exact ih
  have hfront : List.dropWhile (fun c => decide (c = '"')) (cs ++ List.replicate m '"')
      = cs ++ List.replicate m '"' ∨ cs = [] := by
    cases cs with
    | nil => exact Or.inr rfl
    | cons c rest =>
      left
      have hc : c ≠ '"' := fun h => hhead (by simp [h])
      simp [List.dropWhile, hc]
  have hback : List.rdropWhile (fun c => decide (c = '"')) cs = cs := by
    rcases List.eq_nil_or_concat cs with h | ⟨front, d, h⟩
    · subst h; rfl
    · subst h
      have hd : d ≠ '"' := fun h => hlast (by simp [h])
      rw [List.concat_eq_append]
      exact List.rdropWhile_concat_neg (fun c => decide (c = '"')) front d (by simpa using hd)
  unfold stringsTrim
  show String.mk (List.rdropWhile _ (List.dropWhile _
    (List.replicate n '"' ++ cs ++ List.replicate m '"'))) = String.mk cs
  rw [List.append_assoc, hdrop]
  rcases hfront with h | h
  · rw [h, hrdrop, hback]
  · subst h
    have hall : List.dropWhile (fun c => decide (c = '"')) ([] ++ List.replicate m '"') = [] := by
      have h1 := hdrop m []
      rw [List.append_nil, List.dropWhile_nil] at h1
      rw [List.nil_append]
      exact h1
    rw [hall]
    rfl

/-- C26: `Time.UnmarshalJSON` strips every quote at the start and at the end before it
parses: for a text that neither starts nor ends with a quote, the text wrapped in `n`
quotes before and `m` quotes after is decoded to the same result, value or error, as the
text alone. -/
theorem UnmarshalJSON_strips_quotes (t₀ : Leonardo.Time) (cs : List Char) (n m : Nat)
    (hhead : cs.head? ≠ some '"') (hlast : cs.getLast? ≠ some '"') :
    Time.UnmarshalJSON t₀ (String.mk (List.replicate n '"' ++ cs ++ List.replicate m '"'))
      = Time.UnmarshalJSON t₀ (String.mk cs) := by
  have h0 := stringsTrim_wrapped cs 0 0 hhead hlast
  have hnm := stringsTrim_wrapped cs n m hhead hlast
  simp only [List.replicate_zero, List.nil_append, List.append_nil] at h0
  unfold Time.UnmarshalJSON
  rw [hnm, h0]

/-- Witness of C26: a timestamp without quotes and the same timestamp in two pairs of
quotes are both accepted and give the same value. -/
theorem UnmarshalJSON_strips_quotes_witness :
    Time.UnmarshalJSON zeroTime "\"\"2024-01-15T10:30:00.000\"\""
        = Time.UnmarshalJSON zeroTime "2024-01-15T10:30:00.000"
      ∧ Time.UnmarshalJSON zeroTime "2024-01-15T10:30:00.000"
        = (⟨⟨2024, 1, 15, 10, 30, 0, 0, 0⟩⟩, none) :=
  ⟨UnmarshalJSON_strips_quotes zeroTime "2024-01-15T10:30:00.000".data 2 2 (by decide)
    (by decide), by rfl⟩

/-- C27: an endpoint wrapper hands every error of `Client.Do` to its caller: it returns a
nil result and an error whose message is its fixed text, then `: `, then the message of
that error, which therefore ends the message, and which wraps that error; a failure of
`Client.NewRequest` is returned the same way under the text of the request step.  Stated
for the shared body of the wrappers and for `CreateImageGeneration` with its two texts. -/
theorem wrappers_surface_errors {β γ ρ : Type} [Marshaler β] [Marshaler γ] [Unmarshaler ρ]
    (urlParse : String → Except GoError url.URL) (c : Client) (ctx : Option http.Context)
    (method path : String) (body : Option β) (resp : ρ) (requestFailed doFailed : String)
    (req : γ) :
    (∀ r e, c.NewRequest urlParse ctx method path body = Except.ok r →
        (c.Do r (some resp)).err = some e →
        ∃ w, (endpoint urlParse c ctx method path body resp requestFailed doFailed).err = some w
          ∧ (endpoint urlParse c ctx method path body resp requestFailed doFailed).resp = none
          ∧ w.Error = doFailed ++ ": " ++ e.Error
          ∧ e.Error.data <:+ w.Error.data
          ∧ w.Unwrap = some e)
      ∧ (∀ e, c.NewRequest urlParse ctx method path body = Except.error e →
        ∃ w, (endpoint urlParse c ctx method path body resp requestFailed doFailed).err = some w
          ∧ (endpoint urlParse c ctx method path body resp requestFailed doFailed).resp = none
          ∧ w.Error = requestFailed ++ ": " ++ e.Error
          ∧ e.Error.data <:+ w.Error.data
          ∧ w.Unwrap = some e)
      ∧ (∀ r e, c.NewRequest urlParse ctx "POST" "/generations" (some req) = Except.ok r →
        (c.Do r (some CreateGenerationResponse.zero)).err = some e →
        ((ImagesService.CreateImageGeneration urlParse ⟨c⟩ ctx req).err.map GoError.Error
            = some ("creating image generation failed: " ++ e.Error)
          ∧ (ImagesService.CreateImageGeneration urlParse ⟨c⟩ ctx req).resp = none))
      ∧ (∀ e, c.NewRequest urlParse ctx "POST" "/generations" (some req) = Except.error e →
        ((ImagesService.CreateImageGeneration urlParse ⟨c⟩ ctx req).err.map GoError.Error
            = some ("creating CreateImageGeneration request failed: " ++ e.Error)
          ∧ (ImagesService.CreateImageGeneration urlParse ⟨c⟩ ctx req).resp = none)) := by
  have hsuffix : ∀ (text : String) (e : GoError),
      e.Error.data <:+ (wrapf text e).Error.data := by
    intro text e
    refine ⟨(text ++ ": ").data, ?_⟩
    simp [wrapf, GoError.Error, String.data_append]
  refine ⟨?_, ?_, ?_, ?_⟩
  · intro r e hr he
    have h := (endpoint_result urlParse c ctx method path body resp requestFailed doFailed).2.1
      r e hr he
    exact ⟨wrapf doFailed e, h.2, h.1, rfl, hsuffix doFailed e, rfl⟩
  · intro e he
    have h := (endpoint_result urlParse c ctx method path body resp requestFailed doFailed).1
      e he
    exact ⟨wrapf requestFailed e, h.2, h.1, rfl, hsuffix requestFailed e, rfl⟩
  · intro r e hr he
    have h := (endpoint_result urlParse c ctx "POST" "/generations" (some req)
      CreateGenerationResponse.zero "creating CreateImageGeneration request failed"
      "creating image generation failed").2.1 r e hr he
    refine ⟨?_, h.1⟩
    unfold ImagesService.CreateImageGeneration
    rw [h.2]
    simp only [Option.map, wrapf, GoError.Error]
    rfl
  · intro e he
    have h := (endpoint_result urlParse c ctx "POST" "/generations" (some req)
      CreateGenerationResponse.zero "creating CreateImageGeneration request failed"
      "creating image generation failed").1 e he
    refine ⟨?_, h.1⟩
    unfold ImagesService.CreateImageGeneration
    rw [h.2]
    simp only [Option.map, wrapf, GoError.Error]
    rfl

/-- Witness of C27: `CreateImageGeneration` on a client whose transport refuses the
connection, and on a payload that cannot be serialised. -/
theorem wrappers_surface_errors_witness :
    (ImagesService.CreateImageGeneration url.Parse ⟨failingClient⟩ (some ⟨0⟩)
        (⟨"IMAGE_GENERATION", none⟩ : CalculateAPICostRequest)).err.map GoError.Error
      = some ("creating image generation failed: " ++ "dial tcp: connection refused")
    ∧ (ImagesService.CreateImageGeneration url.Parse ⟨failingClient⟩ (some ⟨0⟩)
        unserialisableRequest).err.map GoError.Error
      = some ("creating CreateImageGeneration request failed: "
          ++ "json: unsupported type: chan int") :=
  ⟨((wrappers_surface_errors url.Parse failingClient (some ⟨0⟩) "DELETE"
      "/generations/gen-123" (none : Option NoBody) CreateGenerationResponse.zero
      "creating DeleteGeneration request failed" "deleting generation failed"
      (⟨"IMAGE_GENERATION", none⟩ : CalculateAPICostRequest)).2.2.1 _
      (GoError.library "dial tcp: connection refused") rfl rfl).1,
    ((wrappers_surface_errors url.Parse failingClient (some ⟨0⟩) "DELETE"
      "/generations/gen-123" (none : Option NoBody) CreateGenerationResponse.zero
      "creating DeleteGeneration request failed" "deleting generation failed"
      unserialisableRequest).2.2.2
      (GoError.library "json: unsupported type: chan int") rfl).1⟩

/-! ## Error bodies and empty bodies -/

/-- Decoding an object that gives a number for `code` into `APIErrorResponse` returns an
error, wherever the member stands. -/
theorem objectInto_code_number (lit : String) (members : List (String × JSON)) :
    ∀ v : APIErrorResponse, ("code", JSON.num lit) ∈ members →
      (objectInto "APIErrorResponse" APIErrorResponse.fields members v).2 ≠ none := by
  have hcode : findField APIErrorResponse.fields "code"
      = some (Field.lens "code" (fun v => v.Code) (fun v x => { v with Code := x })
          unmarshalString) := by
    simp [findField, APIErrorResponse.fields, List.find?, Field.lens]
  have hfirst : ∀ (e₁ e₂ : Option GoError), e₂ ≠ none → firstError e₁ e₂ ≠ none := by
    intro e₁ e₂ h
    cases e₁ with
    | none => exact h
    | some e => simp [firstError]
  induction members with
  | nil => intro v h; cases h
  | cons kv rest ih =>
    obtain ⟨key, j⟩ := kv
    intro v hmem
    by_cases hhead : (key, j) = ("code", JSON.num lit)
    · cases hhead
      rw [objectInto, hcode]
      simp [Field.lens, unmarshalString, firstError]
    · have hrest : ("code", JSON.num lit) ∈ rest := by
        rcases List.mem_cons.mp hmem with h | h
        · exact absurd h.symm hhead
        · exact h
      rw [objectInto]
      cases hf : findField APIErrorResponse.fields key with
      | none => exact ih v hrest
      | some f => exact hfirst _ _ (ih _ hrest)

/-- C28: for a status outside [200,300) and an error body that is an object with a number
under `code`, the shape of `CreateSVDMotionGenerationErrorResponse`, decoding into
`APIErrorResponse` returns an error, so `Client.Do` returns the error with the message of
the status alone: the returned error is the same whatever else the body says. -/
theorem Do_numeric_code_body {α : Type} [Unmarshaler α] (c : Client) (req : http.Request)
    (v : Option α) (resp : http.Response) (lit : String) (members : List (String × JSON))
    (hresp : c.HTTPClient.Do req = Except.ok resp)
    (hstatus : resp.StatusCode < 200 ∨ resp.StatusCode ≥ 300)
    (hbody : resp.Body = Body.value (JSON.obj members))
    (hcode : ("code", JSON.num lit) ∈ members) :
    (Decode resp.Body APIErrorResponse.zero).2 ≠ none
      ∧ (c.Do req v).err
        = some (GoError.errorString
            ("API request failed with status " ++ fmtInt resp.StatusCode)) := by
  have hdec : (Decode resp.Body APIErrorResponse.zero).2 ≠ none := by
    rw [hbody]
    exact objectInto_code_number lit members APIErrorResponse.zero hcode
  refine ⟨hdec, ?_⟩
  obtain ⟨e, he⟩ := Option.ne_none_iff_exists'.mp hdec
  simp only [Client.Do, hresp, if_pos hstatus, he]

/-- Witness of C28: status 400 and the body with the code 400 and the error text `x`; the
decoder reports the number under `code`, and the text of the body is not in the message. -/
theorem Do_numeric_code_body_witness :
    ((sampleClient ⟨400, numericCodeBody⟩).Do sampleRequest
        (some CreateGenerationResponse.zero)).err
      = some (GoError.errorString ("API request failed with status " ++ fmtInt 400))
    ∧ Decode numericCodeBody APIErrorResponse.zero
      = (⟨"", "x", ""⟩,
          some (GoError.unmarshalTypeError "number" "string" "APIErrorResponse" "code"))
    ∧ "API request failed with status " ++ fmtInt 400 = "API request failed with status 400"
    ∧ 'x' ∉ ("API request failed with status " ++ fmtInt 400).data :=
  ⟨(Do_numeric_code_body (sampleClient ⟨400, numericCodeBody⟩) sampleRequest
      (some CreateGenerationResponse.zero) ⟨400, numericCodeBody⟩ "400"
      [("code", JSON.num "400"), ("error", JSON.str "x")] rfl (by decide) rfl
      (List.mem_cons_self _ _)).2, by rfl, by decide, by decide⟩

/-- The field of `APIErrorResponse` a key is stored in. -/
theorem findField_apiError (key : String) :
    findField APIErrorResponse.fields key
      = if foldName key = foldName "code" then
          some (Field.lens "code" (fun v => v.Code) (fun v x => { v with Code := x })
            unmarshalString)
        else if foldName key = foldName "error" then
          some (Field.lens "error" (fun v => v.Message) (fun v x => { v with Message := x })
            unmarshalString)
        else if foldName key = foldName "path" then
          some (Field.lens "path" (fun v => v.Path) (fun v x => { v with Path := x })
            unmarshalString)
        else none := by
  have hce : ¬ foldName "code" = foldName "error" := by decide
  have hcp : ¬ foldName "code" = foldName "path" := by decide
  have hep : ¬ foldName "error" = foldName "path" := by decide
  by_cases h1 : key = "code"
  · subst h1; rfl
  · by_cases h2 : key = "error"
    · subst h2; rfl
    · by_cases h3 : key = "path"
      · subst h3; rfl
      · have h1' : ¬ "code" = key := fun h => h1 h.symm
        have h2' : ¬ "error" = key := fun h => h2 h.symm
        have h3' : ¬ "path" = key := fun h => h3 h.symm
        simp only [findField, APIErrorResponse.fields, List.find?, Field.lens, h1', h2', h3',
          decide_False]
        by_cases f1 : foldName key = foldName "code"
        · simp [f1]
        · have f1' : ¬ foldName "code" = foldName key := fun h => f1 h.symm
          by_cases f2 : foldName key = foldName "error"
          · have hec : ¬ foldName "error" = foldName "code" := fun h => hce h.symm
            simp [f2, hce, hec]
          · have f2' : ¬ foldName "error" = foldName key := fun h => f2 h.symm
            by_cases f3 : foldName key = foldName "path"
            · have hpc : ¬ foldName "path" = foldName "code" := fun h => hcp h.symm
              have hpe : ¬ foldName "path" = foldName "error" := fun h => hep h.symm
              simp [f3, hcp, hep, hpc, hpe]
            · have f3' : ¬ foldName "path" = foldName key := fun h => f3 h.symm
              simp [f1, f1', f2, f2', f3, f3']

/-- Decoding an object without a member for `code` or for `error` leaves `Code` and
`Message` as they were. -/
theorem objectInto_apiError_keeps (members : List (String × JSON)) :
    ∀ v : APIErrorResponse,
      membersFor "code" members = [] → membersFor "error" members = [] →
      (objectInto "APIErrorResponse" APIErrorResponse.fields members v).1.Code = v.Code
        ∧ (objectInto "APIErrorResponse" APIErrorResponse.fields members v).1.Message
          = v.Message := by
  induction members with
  | nil => intro v _ _; exact ⟨rfl, rfl⟩
  | cons kv rest ih =>
    obtain ⟨key, j⟩ := kv
    intro v hcode herror
    rw [membersFor_cons] at hcode herror
    have h1 : ¬ foldName key = foldName "code" := by
      intro h; rw [if_pos h] at hcode; cases hcode
    have h2 : ¬ foldName key = foldName "error" := by
      intro h; rw [if_pos h] at herror; cases herror
    rw [if_neg h1] at hcode
    rw [if_neg h2] at herror
    rw [objectInto, findField_apiError, if_neg h1, if_neg h2]
    by_cases h3 : foldName key = foldName "path"
    · rw [if_pos h3]
      simp only []
      have h := ih (((Field.lens "path" (fun v => v.Path)
        (fun (v : APIErrorResponse) x => { v with Path := x }) unmarshalString).decode j v).1)
        hcode herror
      exact ⟨h.1.trans rfl, h.2.trans rfl⟩
    · rw [if_neg h3]
      exact ih v hcode herror

/-- C29: for a status outside [200,300) and a body that is a JSON value which decodes into
`APIErrorResponse` without error and, when it is an object, has no member for `code` and
none for `error` (keys compared as the decoder compares them, without regard to case),
`Client.Do` returns the error with the message `API Error : `, whatever the status is. -/
theorem Do_error_body_without_keys {α : Type} [Unmarshaler α] (c : Client)
    (req : http.Request) (v : Option α) (resp : http.Response) (j : JSON)
    (hresp : c.HTTPClient.Do req = Except.ok resp)
    (hstatus : resp.StatusCode < 200 ∨ resp.StatusCode ≥ 300)
    (hbody : resp.Body = Body.value j)
    (hdec : (Decode resp.Body APIErrorResponse.zero).2 = none)
    (hkeys : ∀ members, j = JSON.obj members →
      membersFor "code" members = [] ∧ membersFor "error" members = []) :
    (c.Do req v).err = some (GoError.errorString "API Error : ")
      ∧ (c.Do req v).err.map GoError.Error = some "API Error : " := by
  have hfields : (Decode resp.Body APIErrorResponse.zero).1.Code = ""
      ∧ (Decode resp.Body APIErrorResponse.zero).1.Message = "" := by
    rw [hbody] at hdec ⊢
    cases j with
    | obj members =>
      have hk := hkeys members rfl
      exact objectInto_apiError_keeps members APIErrorResponse.zero hk.1 hk.2
    | null => exact ⟨rfl, rfl⟩
    | bool b => cases hdec
    | num lit => cases hdec
    | str s => cases hdec
    | arr xs => cases hdec
  have herr : (c.Do req v).err = some (GoError.errorString "API Error : ") := by
    simp only [Client.Do, hresp, if_pos hstatus, hdec, hfields.1, hfields.2]
    rfl
  exact ⟨herr, by rw [herr]; rfl⟩

/-- Witness of C29: the empty object with status 404 and the body `null` with status
500 give the same message. -/
theorem Do_error_body_without_keys_witness :
    ((sampleClient ⟨404, Body.value (JSON.obj [])⟩).Do sampleRequest
        (some CreateGenerationResponse.zero)).err
      = some (GoError.errorString "API Error : ")
    ∧ ((sampleClient ⟨500, Body.value JSON.null⟩).Do sampleRequest
        (some CreateGenerationResponse.zero)).err
      = some (GoError.errorString "API Error : ") :=
  ⟨(Do_error_body_without_keys (sampleClient ⟨404, Body.value (JSON.obj [])⟩) sampleRequest
      (some CreateGenerationResponse.zero) ⟨404, Body.value (JSON.obj [])⟩ (JSON.obj []) rfl
      (by decide) rfl rfl (fun members h => by cases h; exact ⟨rfl, rfl⟩)).1,
    by rfl⟩

/-- C30: for a status in [200,300), a destination that is not nil and an empty body,
`Client.Do` returns the error `io.EOF` and leaves the destination as it was; so
`DeleteGeneration` and `DeleteDataset`, which pass a destination as every wrapper does,
return a nil result and that error under their text when such a response answers the
request they built. -/
theorem Do_empty_success_body {α ρ : Type} [Unmarshaler α] [Unmarshaler ρ] (c : Client)
    (req : http.Request) (resp : http.Response) (dst : α)
    (hresp : c.HTTPClient.Do req = Except.ok resp)
    (hlo : 200 ≤ resp.StatusCode) (hhi : resp.StatusCode < 300)
    (hbody : resp.Body = Body.empty) :
    (c.Do req (some dst)).err = some GoError.eof
      ∧ (c.Do req (some dst)).v = some dst
      ∧ (∀ (urlParse : String → Except GoError url.URL) (ctx : Option http.Context) (id : String)
          (zero : ρ),
          c.NewRequest urlParse ctx "DELETE" ("/generations/" ++ urlPathEscape id)
            (none : Option NoBody) = Except.ok req →
          (ImagesService.DeleteGeneration urlParse ⟨c⟩ ctx id zero).resp = none
            ∧ (ImagesService.DeleteGeneration urlParse ⟨c⟩ ctx id zero).err
              = some (wrapf "deleting generation failed" GoError.eof))
      ∧ (∀ (urlParse : String → Except GoError url.URL) (ctx : Option http.Context) (id : String)
          (zero : ρ),
          c.NewRequest urlParse ctx "DELETE" ("/datasets/" ++ urlPathEscape id)
            (none : Option NoBody) = Except.ok req →
          (DatasetsService.DeleteDataset urlParse ⟨c⟩ ctx id zero).resp = none
            ∧ (DatasetsService.DeleteDataset urlParse ⟨c⟩ ctx id zero).err
              = some (wrapf "deleting dataset failed" GoError.eof)) := by
  have hstatus : ¬ (resp.StatusCode < 200 ∨ resp.StatusCode ≥ 300) := by omega
  have hdo : ∀ {σ : Type} [Unmarshaler σ] (d : σ),
      (c.Do req (some d)).err = some GoError.eof ∧ (c.Do req (some d)).v = some d := by
    intro σ _ d
    simp only [Client.Do, hresp, if_neg hstatus, hbody, Decode, and_self]
  refine ⟨(hdo dst).1, (hdo dst).2, ?_, ?_⟩
  · intro urlParse ctx id zero hreq
    exact (endpoint_result urlParse c ctx "DELETE" ("/generations/" ++ urlPathEscape id)
      (none : Option NoBody) zero "creating DeleteGeneration request failed"
      "deleting generation failed").2.1 req GoError.eof hreq (hdo zero).1
  · intro urlParse ctx id zero hreq
    exact (endpoint_result urlParse c ctx "DELETE" ("/datasets/" ++ urlPathEscape id)
      (none : Option NoBody) zero "creating DeleteDataset request failed"
      "deleting dataset failed").2.1 req GoError.eof hreq (hdo zero).1

/-- Witness of C30: `DeleteGeneration` answered with status 204 and no body. -/
theorem Do_empty_success_body_witness :
    (ImagesService.DeleteGeneration url.Parse ⟨sampleClient ⟨204, Body.empty⟩⟩
        (some ⟨0⟩) "gen-123" CreateGenerationResponse.zero).resp = none
      ∧ (ImagesService.DeleteGeneration url.Parse ⟨sampleClient ⟨204, Body.empty⟩⟩
        (some ⟨0⟩) "gen-123" CreateGenerationResponse.zero).err.map GoError.Error
        = some "deleting generation failed: EOF" :=
  ⟨((Do_empty_success_body (ρ := CreateGenerationResponse) (sampleClient ⟨204, Body.empty⟩)
      sampleBuiltDelete ⟨204, Body.empty⟩ CreateGenerationResponse.zero rfl (by decide)
      (by decide) rfl).2.2.1 url.Parse (some ⟨0⟩) "gen-123"
      CreateGenerationResponse.zero rfl).1,
    by rfl⟩

end Leonardo
